import Mathlib

/-!
# Verification of the Smart City transportation network engine

Shallow embedding of the routing / MST / resource-allocation core
(`algorithms/greedy/dijkstra.py`, `algorithms/dynamic_programming/dp_solutions.py`,
`algorithms/mst/modified_mst.py`, `src/utils/graph_utils.py`) together with
theorems checking the specification claims against it.

Modelling conventions:
* Python floats are modelled as `ℚ`; `float('inf')` as `⊤ : WithTop ℚ`.
* networkx `MultiGraph` is modelled by an explicit node list plus an edge list
  carrying (u, v, key, attribute-record); attribute dictionaries become
  records of `Option` fields and `dict.get(k, d)` becomes `Option.getD`.
* Python dict lookups that can raise `KeyError` are modelled by total lookups
  with a default; each such spot is only reachable in states where the key is
  present (noted in comments where it matters).
* Loops are modelled by fuel-indexed recursion; the fuel given to each loop is
  an over-approximation of the number of iterations the source loop performs,
  and the theorems about loop results are proved for every fuel value.
-/

set_option linter.unusedVariables false
set_option linter.unnecessarySeqFocus false

namespace SmartCity

/-- Attribute record of a multigraph edge. The fields mirror the attribute
dictionary stored on each networkx edge in `graph_utils.create_graph`;
an absent attribute is `none`. -/
structure EdgeData where
  distance : Option ℚ := none
  capacity : Option ℚ := none
  road_type : Option String := none
  cost : Option ℚ := none
  condition : Option ℚ := none
  route_id : Option String := none
  line_id : Option String := none
  buses_assigned : Option ℚ := none
  deriving DecidableEq, Repr

/-- Attribute record of a graph node (`ntype` models the source key `type`). -/
structure NodeAttrs where
  name : Option String := none
  ntype : Option String := none
  population : Option ℚ := none
  pos : Option (ℚ × ℚ) := none
  deriving DecidableEq, Repr

/-- One stored multigraph edge: endpoints, multigraph key, attribute record. -/
structure GEdge where
  u : String
  v : String
  key : Nat
  data : EdgeData
  deriving DecidableEq, Repr

/-- networkx `MultiGraph`: insertion-ordered node list, per-node attributes,
insertion-ordered edge list. -/
structure MultiGraph where
  nodes : List String := []
  attrs : String → NodeAttrs := fun _ => {}
  edges : List GEdge := []

/-- Field-wise attribute merge: keyword arguments passed to `add_node`
overwrite the stored attribute, attributes not passed are kept. -/
def mergeAttrs (old new : NodeAttrs) : NodeAttrs :=
  { name := new.name.orElse (fun _ => old.name)
    ntype := new.ntype.orElse (fun _ => old.ntype)
    population := new.population.orElse (fun _ => old.population)
    pos := new.pos.orElse (fun _ => old.pos) }

/-- `G.add_node(x, **attrs)`. -/
def MultiGraph.addNode (g : MultiGraph) (x : String) (a : NodeAttrs) : MultiGraph :=
  { g with
    nodes := if x ∈ g.nodes then g.nodes else g.nodes ++ [x]
    attrs := fun y => if y = x then mergeAttrs (g.attrs x) a else g.attrs y }

/-- Collect the key/data pairs of the edges joining `u` and `v`. -/
def edgesBetweenList (u v : String) : List GEdge → List (Nat × EdgeData)
  | [] => []
  | e :: es =>
    if (e.u = u ∧ e.v = v) ∨ (e.u = v ∧ e.v = u) then
      (e.key, e.data) :: edgesBetweenList u v es
    else edgesBetweenList u v es

/-- The edge dictionary `G[u][v]` between two nodes, as an association list
from multigraph key to attribute record, in insertion order. -/
def MultiGraph.edgesBetween (g : MultiGraph) (u v : String) : List (Nat × EdgeData) :=
  edgesBetweenList u v g.edges

/-- `G.add_edge(u, v, **data)`: creates missing endpoints, assigns the next
free multigraph key for the pair, returns the new graph and that key. -/
def MultiGraph.addEdge (g : MultiGraph) (u v : String) (d : EdgeData) : MultiGraph × Nat :=
  let g1 := if u ∈ g.nodes then g else
    { g with nodes := g.nodes ++ [u] }
  let g2 := if v ∈ g1.nodes then g1 else
    { g1 with nodes := g1.nodes ++ [v] }
  let k := (g.edgesBetween u v).length
  ({ g2 with edges := g2.edges ++ [⟨u, v, k, d⟩] }, k)

/-- Helper for insertion-ordered deduplication (Python dict key order). -/
def firstDedupAux : List String → List String → List String
  | _,    [] => []
  | seen, x :: xs =>
    if x ∈ seen then firstDedupAux seen xs else x :: firstDedupAux (x :: seen) xs

/-- Deduplicate a list keeping the first occurrence of each element. -/
def firstDedup (l : List String) : List String := firstDedupAux [] l

/-- The other endpoints of the edges incident to `u`, in edge order. -/
def incidentEnds (u : String) : List GEdge → List String
  | [] => []
  | e :: es =>
    if e.u = u then e.v :: incidentEnds u es
    else if e.v = u then e.u :: incidentEnds u es
    else incidentEnds u es

/-- Neighbours of `u` in dict insertion order (order of first incidence). -/
def MultiGraph.nbrs (g : MultiGraph) (u : String) : List String :=
  firstDedup (incidentEnds u g.edges)

/-- The adjacency view `G[u].items()`. -/
def MultiGraph.adj (g : MultiGraph) (u : String) : List (String × List (Nat × EdgeData)) :=
  (g.nbrs u).map fun v => (v, g.edgesBetween u v)

/-- First entry of an association list with the given multigraph key. -/
def keyFind (k : Nat) : List (Nat × EdgeData) → Option EdgeData
  | [] => none
  | p :: ps => if p.1 = k then some p.2 else keyFind k ps

/-- Attribute record of edge `G[u][v][key]` (`none` when the edge is absent;
all modelled call sites access existing edges). -/
def MultiGraph.edgeDataOf (g : MultiGraph) (u v : String) (k : Nat) : Option EdgeData :=
  keyFind k (g.edgesBetween u v)

/-- Traffic table: time period → ((from, to) → vehicle flow), association lists
mirror the nested dictionaries built by `data_loader.load_data`. -/
abbrev TrafficData := List (String × List ((String × String) × ℚ))

/-- `traffic_data.get(period, {})`. -/
def tdPeriod (p : String) : TrafficData → List ((String × String) × ℚ)
  | [] => []
  | e :: es => if e.1 = p then e.2 else tdPeriod p es

/-- Flow lookup `d.get((u, v), dflt)` in a period table. -/
def tdPairGet (u v : String) (dflt : ℚ) : List ((String × String) × ℚ) → ℚ
  | [] => dflt
  | e :: es => if e.1 = (u, v) then e.2 else tdPairGet u v dflt es

/-- `traffic_data.get(period, {}).get((u, v), dflt)`. -/
def tdLookup (td : TrafficData) (p : String) (u v : String) (dflt : ℚ) : ℚ :=
  tdPairGet u v dflt (tdPeriod p td)

/-- The four transport modes accepted by the search functions. -/
inductive Mode
  | car
  | bus
  | metro
  | emergency
  deriving DecidableEq, Repr

/-- The `allowed_road_types` table of `dijkstra.get_edge_weight`. -/
def allowedRoadTypes : Mode → List String
  | .car => ["existing", "potential", "bus", "virtual_connection", "virtual_link"]
  | .bus => ["bus"]
  | .metro => ["metro"]
  | .emergency => ["existing", "potential", "virtual_connection", "virtual_link"]

/-- `road_type not in allowed_road_types[mode]` (an absent road type is
`None`, which is never in the list). -/
def roadTypeAllowed (rt : Option String) (m : Mode) : Bool :=
  match rt with
  | some t => (allowedRoadTypes m).contains t
  | none => false

/-- The `base_speeds` table (km/h). -/
def baseSpeed : Mode → ℚ
  | .car => 120
  | .bus => 100
  | .metro => 90
  | .emergency => 100

/-- Python truthiness of an optional string (`None` and `""` are falsy). -/
def optTruthy : Option String → Bool
  | none => false
  | some s => s != ""

/-- Python `str.lower()` (ASCII case folding, which covers the period names
used by the system). -/
def pyLower (s : String) : String := ⟨s.data.map Char.toLower⟩

/-- Python `str.strip()`: remove leading and trailing whitespace. -/
def pyStrip (s : String) : String :=
  ⟨((s.data.dropWhile Char.isWhitespace).reverse.dropWhile Char.isWhitespace).reverse⟩

/-- Lines 77–78 of `dijkstra.py`: `flow / capacity` when capacity is positive
(otherwise `1.0`), clamped into `[0.5, 1.5]`. -/
def trafficFactor (flow capacity : ℚ) : ℚ :=
  let t := if 0 < capacity then flow / capacity else 1
  max (1/2) (min t (3/2))

/-- `dijkstra.get_edge_weight`: directed traversal cost of edge
`G[u][v][key]` in minutes, `⊤` when the road type is not allowed for the
mode. The source parameters `emergency_path` / `emergency_active` are unused
in the source body and omitted. -/
def get_edge_weight (G : MultiGraph) (traffic_data : TrafficData) (u v : String)
    (key : Nat) (time_period emergency_time_period : Option String)
    (base_distance : ℚ) (transport_mode : Mode) : WithTop ℚ :=
  let ed := (G.edgeDataOf u v key).getD {}
  if ¬ roadTypeAllowed ed.road_type transport_mode then ⊤
  else
    let capacity := ed.capacity.getD 2000
    let traffic_flow : Option ℚ :=
      if optTruthy time_period then
        some (tdLookup traffic_data (pyLower (time_period.getD "")) u v capacity)
      else if optTruthy emergency_time_period then
        some (tdLookup traffic_data (pyLower (emergency_time_period.getD "")) u v capacity)
      else none
    let speed : ℚ :=
      match transport_mode, traffic_flow with
      | .metro, _ => baseSpeed .metro
      | _, none => baseSpeed transport_mode
      | m, some fl => baseSpeed m / trafficFactor fl capacity
    (((base_distance / 1000) / speed * 60 : ℚ) : WithTop ℚ)

lemma trafficFactor_lower (flow capacity : ℚ) : 1/2 ≤ trafficFactor flow capacity :=
  le_max_left _ _

lemma trafficFactor_upper (flow capacity : ℚ) : trafficFactor flow capacity ≤ 3/2 := by
  unfold trafficFactor
  exact max_le (by norm_num) (min_le_right _ _)

lemma trafficFactor_pos (flow capacity : ℚ) : 0 < trafficFactor flow capacity :=
  lt_of_lt_of_le (by norm_num) (trafficFactor_lower flow capacity)

lemma baseSpeed_pos (m : Mode) : 0 < baseSpeed m := by
  cases m <;> norm_num [baseSpeed]

/-- The speed used by `get_edge_weight` is always positive. -/
lemma speed_pos (m : Mode) (fl capacity : ℚ) :
    0 < baseSpeed m / trafficFactor fl capacity :=
  div_pos (baseSpeed_pos m) (trafficFactor_pos fl capacity)

/-- Concrete two-node graph used by the C8 witness. -/
def c8wG : MultiGraph :=
  (MultiGraph.addEdge {} "A" "B"
    { distance := some 1000, capacity := some 1000, road_type := some "existing" }).1

/-- Concrete traffic table used by the C8 witness. -/
def c8wTD : TrafficData := [("morning", [((("A" : String), ("B" : String)), 1500)])]

/-- Concrete graph used by the C9 witness: a bus edge whose capacity is 0. -/
def c9wG : MultiGraph :=
  (MultiGraph.addEdge {} "A" "B"
    { distance := some 700, capacity := some 0, road_type := some "bus" }).1

/-- The capacity read for edge `G[u][v][key]` (`dict.get('capacity', 2000)`). -/
def edgeCapacity (G : MultiGraph) (u v : String) (k : Nat) : ℚ :=
  ((G.edgeDataOf u v k).getD {}).capacity.getD 2000

/-- The flow looked up by `get_edge_weight` for a truthy time period. -/
def edgeFlow (G : MultiGraph) (td : TrafficData) (u v : String) (k : Nat)
    (tp : Option String) : ℚ :=
  tdLookup td (pyLower (tp.getD "")) u v (edgeCapacity G u v k)

/-- **C8.** For every edge with positive capacity and every flow value
(present in the traffic table or defaulted to the edge's capacity), the
traffic factor applied by `get_edge_weight` for the car, bus and emergency
modes lies in `[0.5, 1.5]`, and the returned weight is the one computed from
the effective speed `baseSpeed / factor`. -/
theorem c8_traffic_factor_clamp (G : MultiGraph) (td : TrafficData) (u v : String)
    (k : Nat) (tp etp : Option String) (d : ℚ) (m : Mode)
    (hm : m ≠ Mode.metro)
    (hcap : 0 < edgeCapacity G u v k)
    (htp : optTruthy tp = true)
    (hallow : roadTypeAllowed (((G.edgeDataOf u v k).getD {}).road_type) m = true) :
    (1/2 ≤ trafficFactor (edgeFlow G td u v k tp) (edgeCapacity G u v k) ∧
      trafficFactor (edgeFlow G td u v k tp) (edgeCapacity G u v k) ≤ 3/2) ∧
      get_edge_weight G td u v k tp etp d m =
        (((d / 1000) / (baseSpeed m /
          trafficFactor (edgeFlow G td u v k tp) (edgeCapacity G u v k)) * 60 : ℚ) :
            WithTop ℚ) := by
  refine ⟨⟨trafficFactor_lower _ _, trafficFactor_upper _ _⟩, ?_⟩
  unfold get_edge_weight edgeFlow edgeCapacity
  rw [if_neg (by simp [hallow])]
  simp only [htp, if_true]

/-- Closed witness for `c8_traffic_factor_clamp` at a concrete graph. -/
theorem c8_traffic_factor_clamp_witness :
    (Mode.car ≠ Mode.metro ∧
      0 < edgeCapacity c8wG "A" "B" 0 ∧
      optTruthy (some "Morning") = true ∧
      roadTypeAllowed (((c8wG.edgeDataOf "A" "B" 0).getD {}).road_type) Mode.car = true) ∧
    ((1/2 ≤ trafficFactor (edgeFlow c8wG c8wTD "A" "B" 0 (some "Morning"))
        (edgeCapacity c8wG "A" "B" 0) ∧
      trafficFactor (edgeFlow c8wG c8wTD "A" "B" 0 (some "Morning"))
        (edgeCapacity c8wG "A" "B" 0) ≤ 3/2) ∧
      get_edge_weight c8wG c8wTD "A" "B" 0 (some "Morning") none 1000 Mode.car =
        (((1000 / 1000) / (baseSpeed Mode.car /
          trafficFactor (edgeFlow c8wG c8wTD "A" "B" 0 (some "Morning"))
            (edgeCapacity c8wG "A" "B" 0)) * 60 : ℚ) : WithTop ℚ)) :=
  ⟨⟨by decide, by decide, by decide, by decide⟩,
    c8_traffic_factor_clamp c8wG c8wTD "A" "B" 0 (some "Morning") none 1000 Mode.car
      (by decide) (by decide) (by decide) (by decide)⟩

/-- **C9.** `get_edge_weight` is total on allowed edges: whenever the edge's
road type is in the mode's allowed set and the supplied base distance is
positive, it returns a finite positive number of minutes, even when the
capacity attribute is `0`, negative or absent — the flow/capacity division is
guarded (`trafficFactor` falls back to `1` when the capacity is not positive)
and an absent capacity defaults to `2000`. -/
theorem c9_weight_total_positive (G : MultiGraph) (td : TrafficData) (u v : String)
    (k : Nat) (tp etp : Option String) (d : ℚ) (m : Mode)
    (hallow : roadTypeAllowed (((G.edgeDataOf u v k).getD {}).road_type) m = true)
    (hd : 0 < d) :
    get_edge_weight G td u v k tp etp d m ≠ ⊤ ∧
      (0 : WithTop ℚ) < get_edge_weight G td u v k tp etp d m := by
  have hval : ∀ (sp : ℚ), 0 < sp →
      (0 : ℚ) < (d / 1000) / sp * 60 := by
    intro sp hsp
    positivity
  unfold get_edge_weight
  rw [if_neg (by simp [hallow])]
  constructor
  · exact WithTop.coe_ne_top
  · rw [show ((0 : WithTop ℚ)) = ((0 : ℚ) : WithTop ℚ) from rfl, WithTop.coe_lt_coe]
    rcases hopt : (if optTruthy tp then
        some (tdLookup td (pyLower (tp.getD "")) u v
          (((G.edgeDataOf u v k).getD {}).capacity.getD 2000))
      else if optTruthy etp then
        some (tdLookup td (pyLower (etp.getD "")) u v
          (((G.edgeDataOf u v k).getD {}).capacity.getD 2000))
      else none) with _ | fl
    · cases m <;> simp only [hopt] <;> exact hval _ (baseSpeed_pos _)
    · cases m <;> simp only [hopt] <;>
        first
        | exact hval _ (baseSpeed_pos _)
        | exact hval _ (speed_pos _ _ _)

/-- Closed witness for `c9_weight_total_positive`: a bus-typed edge with
capacity `0`, queried in bus mode. -/
theorem c9_weight_total_positive_witness :
    (roadTypeAllowed (((c9wG.edgeDataOf "A" "B" 0).getD {}).road_type) Mode.bus = true ∧
      (0:ℚ) < 700) ∧
    (get_edge_weight c9wG [] "A" "B" 0 (some "morning") none 700 Mode.bus ≠ ⊤ ∧
      (0 : WithTop ℚ) < get_edge_weight c9wG [] "A" "B" 0 (some "morning") none 700 Mode.bus) :=
  ⟨⟨by decide, by decide⟩,
    c9_weight_total_positive c9wG [] "A" "B" 0 (some "morning") none 700 Mode.bus
      (by decide) (by decide)⟩

/-! ## `dijkstra_with_traffic` (dijkstra.py lines 88–184) -/

/-- Mutable state of the search loop: best known distances, predecessor map,
the nested `edge_keys` dictionary and the priority queue. -/
structure DijState where
  dist : String → WithTop ℚ
  prev : String → Option String
  ek : String → String → Option Nat
  pq : List (WithTop ℚ × String)

/-- Lexicographic comparison of Python `(distance, node)` heap entries. -/
def entryLe (a b : WithTop ℚ × String) : Bool :=
  decide (a.1 < b.1) || (decide (a.1 = b.1) && decide (a.2 ≤ b.2))

/-- Scan for the first least entry, carrying the best entry, its index and
the index of the next element. -/
def minScan : (WithTop ℚ × String) → Nat → Nat → List (WithTop ℚ × String) →
    (WithTop ℚ × String) × Nat
  | best, bi, _, [] => (best, bi)
  | best, bi, i, y :: ys =>
    if entryLe best y then minScan best bi (i+1) ys else minScan y i (i+1) ys

/-- `heapq.heappop`: return the least entry (lexicographic tuple order, as in
Python) and the remaining entries. Equal tuples are identical, so which copy
is removed is unobservable; the heap's internal layout is not modelled. -/
def popMin (l : List (WithTop ℚ × String)) :
    Option ((WithTop ℚ × String) × List (WithTop ℚ × String)) :=
  match l with
  | [] => none
  | x :: xs =>
    let mi := minScan x 0 1 xs
    some (mi.1, l.eraseIdx mi.2)

/-- One relaxation pass over all multigraph edges incident to `u`
(dijkstra.py lines 145–160). -/
def dijkstraRelax (G : MultiGraph) (td : TrafficData) (tp etp : Option String)
    (mode : Mode) (u : String) (s : DijState) : DijState :=
  (G.adj u).foldl (fun s1 p =>
    p.2.foldl (fun s2 kd =>
      let bd := kd.2.distance.getD 1000
      let w := get_edge_weight G td u p.1 kd.1 tp etp bd mode
      if w = ⊤ then s2
      else
        let nd := s2.dist u + w
        if nd < s2.dist p.1 then
          { dist := fun x => if x = p.1 then nd else s2.dist x
            prev := fun x => if x = p.1 then some u else s2.prev x
            ek := fun x y => if x = p.1 ∧ y = u then some kd.1 else s2.ek x y
            pq := s2.pq ++ [(nd, p.1)] }
        else s2) s1) s

/-- The main loop of `dijkstra_with_traffic` (lines 136–160), as fuel-indexed
recursion. The fuel passed by the wrapper over-approximates the number of
iterations the source loop performs (at most one pop per push and at most one
push per distance improvement), so the source behaviour is the behaviour at
every sufficiently large fuel; the theorems below hold for every fuel. -/
def dijkstraLoop (G : MultiGraph) (td : TrafficData) (endN : String)
    (tp etp : Option String) (mode : Mode) : Nat → DijState → DijState
  | 0, s => s
  | fuel+1, s =>
    match popMin s.pq with
    | none => s
    | some (e, rest) =>
      if e.2 = endN then { s with pq := rest }
      else if s.dist e.2 < e.1 then
        dijkstraLoop G td endN tp etp mode fuel { s with pq := rest }
      else
        dijkstraLoop G td endN tp etp mode fuel
          (dijkstraRelax G td tp etp mode e.2 { s with pq := rest })

/-- Path reconstruction walk (lines 168–179): follow predecessor pointers
from the destination, accumulating the visited nodes (in visit order, i.e.
destination first), the total base distance, and the total travel time
recomputed through `get_edge_weight` with the arguments `(current,
next_node)` — the reverse of the traversal direction. The `edge_keys` /
edge-dictionary lookups are total here; Python would raise `KeyError` were
the key absent, which cannot happen since `prev` and `ek` are always set
together. -/
def dijkstraRecon (G : MultiGraph) (td : TrafficData) (tp etp : Option String)
    (mode : Mode) (prev : String → Option String) (ek : String → String → Option Nat) :
    Nat → String → List String × ℚ × WithTop ℚ
  | 0, cur => ([cur], 0, 0)
  | fuel+1, cur =>
    match prev cur with
    | none => ([cur], 0, 0)
    | some nxt =>
      if nxt = "" then ([cur], 0, 0)
      else
        let k := (ek cur nxt).getD 0
        let bd := (((G.edgeDataOf cur nxt k).getD {}).distance).getD 1000
        let w := get_edge_weight G td cur nxt k tp etp bd mode
        let r := dijkstraRecon G td tp etp mode prev ek fuel nxt
        (cur :: r.1, bd + r.2.1, w + r.2.2)

/-- `dijkstra_with_traffic`: returns `(path, total_distance,
total_travel_time, edge_keys)`. The wall-clock `execution_time` of the source
is not modelled. The source parameters `emergency_path` / `emergency_active`
are unused in the body and omitted. -/
def dijkstra_with_traffic (G : MultiGraph) (td : TrafficData) (start endN : String)
    (tp etp : Option String) (mode : Mode) :
    List String × ℚ × WithTop ℚ × (String → String → Option Nat) :=
  let s0 : DijState :=
    { dist := fun x => if x = start then 0 else ⊤
      prev := fun _ => none
      ek := fun _ _ => none
      pq := [((0 : WithTop ℚ), start)] }
  let fuel := (G.nodes.length + 1) * (G.edges.length + 1) * 2 + 2
  let s := dijkstraLoop G td endN tp etp mode fuel s0
  if optTruthy (s.prev endN) || decide (endN = start) then
    if endN = "" then ([], 0, 0, s.ek)
    else
      let r := dijkstraRecon G td tp etp mode s.prev s.ek (G.nodes.length + 1) endN
      (r.1.reverse, r.2.1, r.2.2, s.ek)
  else ([], 0, 0, s.ek)

/-- The two-node graph of the C6 scenario: the only edge is bus-typed. -/
def c6G : MultiGraph :=
  (MultiGraph.addEdge {} "A" "B"
    { distance := some 1000, capacity := some 60, road_type := some "bus" }).1

/-- **C6 counterexample.** On the graph whose two nodes are connected only by
a bus-typed edge, the car-mode query does NOT return an empty path: the source
`allowed_road_types` table lists `bus` among the road types traversable by
`car`, so the bus edge is car-traversable and the query succeeds. -/
theorem c6_counterexample :
    ¬ ((dijkstra_with_traffic c6G [] "A" "B" (some "morning") none Mode.car).1 = []) := by
  decide

/-- **C6 (amended).** For the graph in which two distinct nodes are connected
only by a bus-typed edge, a car-mode `dijkstra_with_traffic` query between
them returns a non-empty path (the car mode's allowed road-type set includes
`bus`), and a bus-mode query between them also returns a non-empty path. -/
theorem c6_bus_edge_modes :
    (dijkstra_with_traffic c6G [] "A" "B" (some "morning") none Mode.car).1 = ["A", "B"] ∧
      (dijkstra_with_traffic c6G [] "A" "B" (some "morning") none Mode.bus).1 = ["A", "B"] := by
  decide

/-! ## C5: the recomputed total travel time -/

/-- Consecutive pairs of a node list. -/
def pathPairs (l : List String) : List (String × String) :=
  l.zip l.tail

/-- Sum of `get_edge_weight` over a list of node pairs, each pair `(x, y)`
evaluated with the arguments `(x, y)` and the stored edge key `ek x y`, with
the base distance read from the edge dictionary — exactly the per-edge term
of the reconstruction walk. -/
def pairsTimeSum (G : MultiGraph) (td : TrafficData) (tp etp : Option String)
    (mode : Mode) (ek : String → String → Option Nat) :
    List (String × String) → WithTop ℚ
  | [] => 0
  | (x, y) :: ps =>
    get_edge_weight G td x y ((ek x y).getD 0) tp etp
      ((((G.edgeDataOf x y ((ek x y).getD 0)).getD {}).distance).getD 1000) mode +
      pairsTimeSum G td tp etp mode ek ps

/-- Sum of `get_edge_weight` over the consecutive edges of a path, taken in
path order: pair `(a, b)` (with `b` the successor of `a` on the path) is
evaluated with the arguments `(a, b)` and the stored key `ek b a`. This is
the quantity named by claim C5. -/
def pairsTimeSumForward (G : MultiGraph) (td : TrafficData) (tp etp : Option String)
    (mode : Mode) (ek : String → String → Option Nat) :
    List (String × String) → WithTop ℚ
  | [] => 0
  | (a, b) :: ps =>
    get_edge_weight G td a b ((ek b a).getD 0) tp etp
      ((((G.edgeDataOf a b ((ek b a).getD 0)).getD {}).distance).getD 1000) mode +
      pairsTimeSumForward G td tp etp mode ek ps

lemma dijkstraRecon_head (G : MultiGraph) (td : TrafficData) (tp etp : Option String)
    (mode : Mode) (prev : String → Option String) (ek : String → String → Option Nat)
    (fuel : Nat) (cur : String) :
    (dijkstraRecon G td tp etp mode prev ek fuel cur).1.head? = some cur := by
  cases fuel with
  | zero => rfl
  | succ n =>
    show (match prev cur with
      | none => _
      | some nxt => _ : List String × ℚ × WithTop ℚ).1.head? = _
    rcases prev cur with _ | nxt
    · rfl
    · by_cases h : nxt = "" <;> simp [dijkstraRecon, h]

lemma pathPairs_cons_of_head (x y : String) (l : List String) (h : l.head? = some y) :
    pathPairs (x :: l) = (x, y) :: pathPairs l := by
  cases l with
  | nil => simp at h
  | cons a as =>
    simp only [List.head?_cons, Option.some.injEq] at h
    subst h
    rfl

/-- The reconstruction walk computes exactly the pair sum of its visit list. -/
lemma dijkstraRecon_time (G : MultiGraph) (td : TrafficData) (tp etp : Option String)
    (mode : Mode) (prev : String → Option String) (ek : String → String → Option Nat)
    (fuel : Nat) (cur : String) :
    (dijkstraRecon G td tp etp mode prev ek fuel cur).2.2 =
      pairsTimeSum G td tp etp mode ek
        (pathPairs (dijkstraRecon G td tp etp mode prev ek fuel cur).1) := by
  induction fuel generalizing cur with
  | zero => simp [dijkstraRecon, pathPairs, pairsTimeSum]
  | succ n ih =>
    rcases hp : prev cur with _ | nxt
    · simp [dijkstraRecon, hp, pathPairs, pairsTimeSum]
    · by_cases h : nxt = ""
      · simp [dijkstraRecon, hp, h, pathPairs, pairsTimeSum]
      · have hhead := dijkstraRecon_head G td tp etp mode prev ek n nxt
        simp only [dijkstraRecon, hp, h, if_false]
        rw [pathPairs_cons_of_head _ _ _ hhead]
        simp only [pairsTimeSum]
        rw [ih nxt]

/-- **C5 (amended).** For every query, the total travel time returned by
`dijkstra_with_traffic` equals the sum of `get_edge_weight` over the
consecutive edges of the returned path evaluated in the REVERSE direction —
each consecutive pair, taken along the reversed path, is passed to
`get_edge_weight` as `(later node, earlier node)` with the stored edge key —
rather than in path order from start to end. -/
theorem c5_time_sum_reversed (G : MultiGraph) (td : TrafficData) (start endN : String)
    (tp etp : Option String) (mode : Mode) :
    (dijkstra_with_traffic G td start endN tp etp mode).2.2.1 =
      pairsTimeSum G td tp etp mode
        (dijkstra_with_traffic G td start endN tp etp mode).2.2.2
        (pathPairs (dijkstra_with_traffic G td start endN tp etp mode).1.reverse) := by
  unfold dijkstra_with_traffic
  by_cases hg : (optTruthy ((dijkstraLoop G td endN tp etp mode
      ((G.nodes.length + 1) * (G.edges.length + 1) * 2 + 2)
      { dist := fun x => if x = start then 0 else ⊤
        prev := fun _ => none
        ek := fun _ _ => none
        pq := [((0 : WithTop ℚ), start)] }).prev endN) || decide (endN = start)) = true
  · by_cases he : endN = ""
    · simp [hg, he, pathPairs, pairsTimeSum]
    · simp only [hg, he, if_true, if_false, List.reverse_reverse]
      exact dijkstraRecon_time G td tp etp mode _ _ _ _
  · simp only [Bool.not_eq_true] at hg
    simp [hg, pathPairs, pairsTimeSum]

/-- The two-node graph of the C5 counterexample. -/
def c5G : MultiGraph :=
  (MultiGraph.addEdge {} "A" "B"
    { distance := some 1000, capacity := some 1000, road_type := some "existing" }).1

/-- A traffic table with flow recorded only in the direction B → A. -/
def c5TD : TrafficData := [("morning", [((("B" : String), ("A" : String)), 1500)])]

lemma pyLower_morning : pyLower "morning" = "morning" := by decide

lemma optTruthy_morning : optTruthy (some "morning") = true := by decide

lemma c5_w_AB :
    get_edge_weight c5G c5TD "A" "B" 0 (some "morning") none 1000 Mode.car =
      (((1/2 : ℚ)) : WithTop ℚ) := by
  norm_num [get_edge_weight, c5G, c5TD, MultiGraph.addEdge, MultiGraph.edgeDataOf,
    MultiGraph.edgesBetween, edgesBetweenList, keyFind, roadTypeAllowed, allowedRoadTypes,
    baseSpeed, trafficFactor, tdLookup, tdPeriod, tdPairGet, optTruthy_morning,
    pyLower_morning, show ((("B" : String) = "A")) = False by decide]

lemma c5_w_BA :
    get_edge_weight c5G c5TD "B" "A" 0 (some "morning") none 1000 Mode.car =
      (((3/4 : ℚ)) : WithTop ℚ) := by
  norm_num [get_edge_weight, c5G, c5TD, MultiGraph.addEdge, MultiGraph.edgeDataOf,
    MultiGraph.edgesBetween, edgesBetweenList, keyFind, roadTypeAllowed, allowedRoadTypes,
    baseSpeed, trafficFactor, tdLookup, tdPeriod, tdPairGet, optTruthy_morning,
    pyLower_morning]

/-- **C5 counterexample.** With traffic recorded only in the direction B → A,
the total travel time returned for the query A → B (which the source
recomputes during reconstruction with reversed argument order, picking up the
B → A flow) differs from the sum of `get_edge_weight` over the consecutive
edges of the returned path taken in path order from start to end. -/
theorem c5_counterexample :
    (dijkstra_with_traffic c5G c5TD "A" "B" (some "morning") none Mode.car).2.2.1 ≠
      pairsTimeSumForward c5G c5TD (some "morning") none Mode.car
        (dijkstra_with_traffic c5G c5TD "A" "B" (some "morning") none Mode.car).2.2.2
        (pathPairs (dijkstra_with_traffic c5G c5TD "A" "B" (some "morning") none Mode.car).1) := by
  have hpath : (dijkstra_with_traffic c5G c5TD "A" "B" (some "morning") none Mode.car).1 =
      ["A", "B"] := by decide
  have hek : ((dijkstra_with_traffic c5G c5TD "A" "B" (some "morning") none
      Mode.car).2.2.2 "B" "A").getD 0 = 0 := by decide
  have htime : (dijkstra_with_traffic c5G c5TD "A" "B" (some "morning") none Mode.car).2.2.1 =
      get_edge_weight c5G c5TD "B" "A" 0 (some "morning") none 1000 Mode.car + 0 := rfl
  rw [htime, hpath, c5_w_BA]
  show _ ≠ pairsTimeSumForward c5G c5TD (some "morning") none Mode.car _ [("A", "B")]
  rw [pairsTimeSumForward, pairsTimeSumForward, hek]
  have hbd : ((((c5G.edgeDataOf "A" "B" 0).getD {}).distance).getD 1000) = 1000 := by decide
  rw [hbd, c5_w_AB]
  intro h
  rw [add_zero, add_zero] at h
  exact absurd (WithTop.coe_inj.mp h) (by norm_num)

/-! ## C4: unreachable destinations -/

/-- A single traversable step for a mode: some stored edge joins the two
nodes and its road type is in the mode's allowed set. -/
def allowedStep (G : MultiGraph) (mode : Mode) (x y : String) : Prop :=
  ∃ e ∈ G.edges, ((e.u = x ∧ e.v = y) ∨ (e.u = y ∧ e.v = x)) ∧
    roadTypeAllowed e.data.road_type mode = true

/-- Reachability under a mode's allowed road types. -/
def ReachableM (G : MultiGraph) (mode : Mode) (a b : String) : Prop :=
  Relation.ReflTransGen (allowedStep G mode) a b

lemma keyFind_mem {k : Nat} {l : List (Nat × EdgeData)} {d : EdgeData}
    (h : keyFind k l = some d) : (k, d) ∈ l := by
  induction l with
  | nil => simp [keyFind] at h
  | cons p ps ih =>
    rw [keyFind] at h
    by_cases hp : p.1 = k
    · rw [if_pos hp] at h
      cases h
      exact List.mem_cons.mpr (Or.inl (by rw [← hp]))
    · rw [if_neg hp] at h
      exact List.mem_cons_of_mem _ (ih h)

lemma edgesBetweenList_mem {u v : String} {es : List GEdge} {k : Nat} {d : EdgeData}
    (h : (k, d) ∈ edgesBetweenList u v es) :
    ∃ e ∈ es, ((e.u = u ∧ e.v = v) ∨ (e.u = v ∧ e.v = u)) ∧ e.key = k ∧ e.data = d := by
  induction es with
  | nil => simp [edgesBetweenList] at h
  | cons e es ih =>
    rw [edgesBetweenList] at h
    by_cases he : (e.u = u ∧ e.v = v) ∨ (e.u = v ∧ e.v = u)
    · rw [if_pos he] at h
      rcases List.mem_cons.mp h with h1 | h1
      · refine ⟨e, List.mem_cons_self e es, he, ?_, ?_⟩
        · exact (congrArg Prod.fst h1.symm)
        · exact (congrArg Prod.snd h1.symm)
      · rcases ih h1 with ⟨f, hf, hfe, hfk, hfd⟩
        exact ⟨f, List.mem_cons_of_mem _ hf, hfe, hfk, hfd⟩
    · rw [if_neg he] at h
      rcases ih h with ⟨f, hf, hfe, hfk, hfd⟩
      exact ⟨f, List.mem_cons_of_mem _ hf, hfe, hfk, hfd⟩

/-- A finite edge weight certifies a traversable step between its endpoints. -/
lemma weight_ne_top_step {G : MultiGraph} {td : TrafficData} {u v : String} {k : Nat}
    {tp etp : Option String} {bd : ℚ} {mode : Mode}
    (h : get_edge_weight G td u v k tp etp bd mode ≠ ⊤) :
    allowedStep G mode u v := by
  by_cases hallow : roadTypeAllowed (((G.edgeDataOf u v k).getD {}).road_type) mode = true
  · rcases hdo : G.edgeDataOf u v k with _ | d
    · rw [hdo] at hallow
      simp [roadTypeAllowed] at hallow
    · have hmem : (k, d) ∈ MultiGraph.edgesBetween G u v := keyFind_mem hdo
      rcases edgesBetweenList_mem hmem with ⟨e, he, hend2, hk, hd⟩
      rw [hdo] at hallow
      refine ⟨e, he, hend2, ?_⟩
      rw [hd]
      exact hallow
  · exfalso
    apply h
    unfold get_edge_weight
    rw [if_pos]
    exact hallow

/-- Invariant: every node with a predecessor, and every queued node, is
reachable from the start under the mode's allowed road types. -/
def ReachInv (G : MultiGraph) (mode : Mode) (start : String) (s : DijState) : Prop :=
  (∀ v u, s.prev v = some u → ReachableM G mode start v) ∧
  (∀ p ∈ s.pq, ReachableM G mode start p.2)

lemma foldl_preserve {α σ : Type} (P : σ → Prop) (f : σ → α → σ)
    (h : ∀ s a, P s → P (f s a)) : ∀ (l : List α) (s : σ), P s → P (l.foldl f s) := by
  intro l
  induction l with
  | nil => intro s hs; exact hs
  | cons a as ih => intro s hs; exact ih _ (h s a hs)

lemma dijkstraRelax_inv (G : MultiGraph) (td : TrafficData) (tp etp : Option String)
    (mode : Mode) (start u : String) (s : DijState)
    (hu : ReachableM G mode start u) (hs : ReachInv G mode start s) :
    ReachInv G mode start (dijkstraRelax G td tp etp mode u s) := by
  unfold dijkstraRelax
  refine foldl_preserve (ReachInv G mode start) _ ?_ _ _ hs
  intro s1 p hs1
  refine foldl_preserve (ReachInv G mode start) _ ?_ _ _ hs1
  intro s2 kd hs2
  dsimp only
  split
  · exact hs2
  rename_i hw
  have hstep : ReachableM G mode start p.1 :=
    Relation.ReflTransGen.tail hu (weight_ne_top_step hw)
  split
  · constructor
    · intro v w hv
      dsimp at hv
      by_cases hvp : v = p.1
      · rw [hvp]; exact hstep
      · rw [if_neg hvp] at hv
        exact hs2.1 v w hv
    · intro q hq
      dsimp at hq
      rcases List.mem_append.mp hq with hq1 | hq1
      · exact hs2.2 q hq1
      · rcases List.mem_singleton.mp hq1 with rfl
        exact hstep
  · exact hs2

lemma minScan_mem (best : WithTop ℚ × String) (bi i : Nat)
    (ys : List (WithTop ℚ × String)) :
    (minScan best bi i ys).1 ∈ best :: ys := by
  induction ys generalizing best bi i with
  | nil => simp [minScan]
  | cons y ys ih =>
    rw [minScan]
    by_cases h : entryLe best y = true
    · rw [if_pos h]
      rcases List.mem_cons.mp (ih best bi (i+1)) with h1 | h1
      · exact List.mem_cons.mpr (Or.inl h1)
      · exact List.mem_cons_of_mem _ (List.mem_cons_of_mem _ h1)
    · rw [if_neg h]
      rcases List.mem_cons.mp (ih y i (i+1)) with h1 | h1
      · exact List.mem_cons_of_mem _ (List.mem_cons.mpr (Or.inl h1))
      · exact List.mem_cons_of_mem _ (List.mem_cons_of_mem _ h1)

lemma popMin_mem {l : List (WithTop ℚ × String)} {m : WithTop ℚ × String}
    {rest : List (WithTop ℚ × String)} (h : popMin l = some (m, rest)) :
    m ∈ l ∧ ∀ p ∈ rest, p ∈ l := by
  rcases l with _ | ⟨x, xs⟩
  · simp [popMin] at h
  · rw [popMin] at h
    cases h
    constructor
    · exact minScan_mem x 0 1 xs
    · intro p hp
      exact (List.eraseIdx_sublist _ _).subset hp

lemma dijkstraLoop_inv (G : MultiGraph) (td : TrafficData) (endN : String)
    (tp etp : Option String) (mode : Mode) (start : String) :
    ∀ (fuel : Nat) (s : DijState), ReachInv G mode start s →
      ReachInv G mode start (dijkstraLoop G td endN tp etp mode fuel s) := by
  intro fuel
  induction fuel with
  | zero => intro s hs; exact hs
  | succ n ih =>
    intro s hs
    rw [dijkstraLoop]
    split
    · exact hs
    rename_i e rest hpop
    have hmem := popMin_mem hpop
    have hrest : ReachInv G mode start { s with pq := rest } :=
      ⟨hs.1, fun p hp => hs.2 p (hmem.2 p hp)⟩
    split
    · exact hrest
    split
    · exact ih _ hrest
    · exact ih _ (dijkstraRelax_inv G td tp etp mode start e.2 _
        (hs.2 e hmem.1) hrest)

/-- **C4.** For every query whose destination is unreachable from the start
under the chosen mode's allowed road types (destination distinct from start,
both nodes in the graph), `dijkstra_with_traffic` terminates (the loop is a
total fuel-indexed function and the invariant holds for every fuel) and
returns the empty path with zero total distance and zero total travel time. -/
theorem c4_unreachable_sentinel (G : MultiGraph) (td : TrafficData)
    (start endN : String) (tp etp : Option String) (mode : Mode)
    (hstart : start ∈ G.nodes) (hend : endN ∈ G.nodes) (hne : endN ≠ start)
    (hunreach : ¬ ReachableM G mode start endN) :
    (dijkstra_with_traffic G td start endN tp etp mode).1 = [] ∧
      (dijkstra_with_traffic G td start endN tp etp mode).2.1 = 0 ∧
      (dijkstra_with_traffic G td start endN tp etp mode).2.2.1 = 0 := by
  have hinv0 : ReachInv G mode start
      { dist := fun x => if x = start then 0 else ⊤
        prev := fun _ => none
        ek := fun _ _ => none
        pq := [((0 : WithTop ℚ), start)] } := by
    constructor
    · intro v u hv; cases hv
    · intro p hp
      rcases List.mem_singleton.mp hp with rfl
      exact Relation.ReflTransGen.refl
  have hinv := dijkstraLoop_inv G td endN tp etp mode start
    ((G.nodes.length + 1) * (G.edges.length + 1) * 2 + 2) _ hinv0
  unfold dijkstra_with_traffic
  dsimp only
  have hprev : (dijkstraLoop G td endN tp etp mode
      ((G.nodes.length + 1) * (G.edges.length + 1) * 2 + 2)
      { dist := fun x => if x = start then 0 else ⊤
        prev := fun _ => none
        ek := fun _ _ => none
        pq := [((0 : WithTop ℚ), start)] }).prev endN = none := by
    rcases hp : (dijkstraLoop G td endN tp etp mode
        ((G.nodes.length + 1) * (G.edges.length + 1) * 2 + 2)
        { dist := fun x => if x = start then 0 else ⊤
          prev := fun _ => none
          ek := fun _ _ => none
          pq := [((0 : WithTop ℚ), start)] }).prev endN with _ | u
    · rfl
    · exact absurd (hinv.1 endN u hp) hunreach
  rw [hprev]
  simp only [optTruthy, Bool.false_or]
  rw [decide_eq_false hne]
  exact ⟨rfl, rfl, rfl⟩

/-- Concrete graph for the C4 witness: the only edge is metro-typed, so it is
not traversable in car mode. -/
def c4wG : MultiGraph :=
  (MultiGraph.addEdge {} "A" "B"
    { distance := some 1000, capacity := some 60, road_type := some "metro" }).1

lemma c4w_no_step : ∀ c, ¬ allowedStep c4wG Mode.car "A" c := by
  rintro c ⟨e, he, hor, hallow⟩
  have he2 : e = ⟨"A", "B", 0,
      { distance := some 1000, capacity := some 60, road_type := some "metro" }⟩ := by
    simpa [c4wG, MultiGraph.addEdge, MultiGraph.edgesBetween, edgesBetweenList] using he
  rw [he2] at hallow
  exact absurd hallow (by decide)

lemma c4w_unreach : ¬ ReachableM c4wG Mode.car "A" "B" := by
  intro h
  rcases Relation.ReflTransGen.cases_head h with heq | ⟨c, hstep1, _⟩
  · exact absurd heq (by decide)
  · exact c4w_no_step c hstep1

/-- Closed witness for `c4_unreachable_sentinel`. -/
theorem c4_unreachable_sentinel_witness :
    ("A" ∈ c4wG.nodes ∧ "B" ∈ c4wG.nodes ∧ ("B" : String) ≠ "A" ∧
      ¬ ReachableM c4wG Mode.car "A" "B") ∧
    ((dijkstra_with_traffic c4wG [] "A" "B" (some "morning") none Mode.car).1 = [] ∧
      (dijkstra_with_traffic c4wG [] "A" "B" (some "morning") none Mode.car).2.1 = 0 ∧
      (dijkstra_with_traffic c4wG [] "A" "B" (some "morning") none Mode.car).2.2.1 = 0) :=
  ⟨⟨by decide, by decide, by decide, c4w_unreach⟩,
    c4_unreachable_sentinel c4wG [] "A" "B" (some "morning") none Mode.car
      (by decide) (by decide) (by decide) c4w_unreach⟩

/-! ## C1: `memoized_path_planning` (dp_solutions.py lines 307–445) -/

/-- A value held by the Python variable `key` in `memoized_path_planning`:
either the memo tuple `(start, end, time_period)` set on line 344, or an
integer multigraph edge key — the same variable is reassigned by the loops
`for key, data in edges.items()` (line 368) and `key = edge_keys[...]`
(line 416). -/
abbrev MemoKey := (String × String × String) ⊕ Nat

/-- The memoization dictionary (insertion-ordered, like a Python dict). -/
abbrev Memo := List (MemoKey × (List String × ℚ))

/-- `key in memo` / `memo[key]`. -/
def memoLookup (k : MemoKey) : Memo → Option (List String × ℚ)
  | [] => none
  | e :: es => if e.1 = k then some e.2 else memoLookup k es

/-- `memo[key] = value`: replace in place, or append. -/
def memoInsert (k : MemoKey) (v : List String × ℚ) : Memo → Memo
  | [] => [(k, v)]
  | e :: es => if e.1 = k then (k, v) :: es else e :: memoInsert k v es

/-- The allowed road types hard-coded on line 374 (note: unlike car mode in
`get_edge_weight`, this list does not contain `bus`). -/
def memoAllowedTypes : List String :=
  ["existing", "potential", "virtual_connection", "virtual_link"]

/-- The inline car travel-time formula of lines 378–392 (and 420–433):
base speed 120 km/h, traffic factor from flow/capacity clamped to
`[0.5, 1.5]`. The source guard `if traffic_flow is not None` is always taken,
since the lookup defaults to the capacity. -/
def memoEdgeTime (td : TrafficData) (tp : String) (x y : String) (data : EdgeData) : ℚ :=
  ((data.distance.getD 1000) / 1000) /
    (120 / trafficFactor (tdLookup td (pyLower tp) x y (data.capacity.getD 2000))
      (data.capacity.getD 2000)) * 60

/-- Search state of `memoized_path_planning`, including the current value of
the shadowed variable `key`. -/
structure MemoState where
  dist : String → WithTop ℚ
  prev : String → Option String
  ek : String → String → Option Nat
  pq : List (WithTop ℚ × String)
  kv : MemoKey

/-- Relaxation pass of the memoized planner (lines 367–404): the variable
`key` is reassigned for every iterated edge entry, bus edges are skipped
(road type defaults to `existing` when absent), and edges longer than 50 km
are skipped. -/
def memoRelax (G : MultiGraph) (td : TrafficData) (tp : String) (u : String)
    (s : MemoState) : MemoState :=
  (G.adj u).foldl (fun s1 p =>
    p.2.foldl (fun s2 kd =>
      if ¬ ((kd.2.road_type.getD "existing") ∈ memoAllowedTypes) then
        { s2 with kv := Sum.inr kd.1 }
      else if kd.2.distance.getD 1000 > 50000 then
        { s2 with kv := Sum.inr kd.1 }
      else if s2.dist u + ((memoEdgeTime td tp u p.1 kd.2 : ℚ) : WithTop ℚ) <
          s2.dist p.1 then
        { dist := fun x => if x = p.1 then
            s2.dist u + ((memoEdgeTime td tp u p.1 kd.2 : ℚ) : WithTop ℚ) else s2.dist x
          prev := fun x => if x = p.1 then some u else s2.prev x
          ek := fun x y => if x = p.1 ∧ y = u then some kd.1 else s2.ek x y
          pq := s2.pq ++ [(s2.dist u + ((memoEdgeTime td tp u p.1 kd.2 : ℚ) : WithTop ℚ), p.1)]
          kv := Sum.inr kd.1 }
      else { s2 with kv := Sum.inr kd.1 }) s1) s

/-- Main loop of the memoized planner (lines 358–404). -/
def memoLoop (G : MultiGraph) (td : TrafficData) (endN : String) (tp : String) :
    Nat → MemoState → MemoState
  | 0, s => s
  | fuel+1, s =>
    match popMin s.pq with
    | none => s
    | some (e, rest) =>
      if e.2 = endN then { s with pq := rest }
      else if s.dist e.2 < e.1 then
        memoLoop G td endN tp fuel { s with pq := rest }
      else
        memoLoop G td endN tp fuel
          (memoRelax G td tp e.2 { s with pq := rest })

/-- Reconstruction walk of the memoized planner (lines 407–437): returns the
visit list, the accumulated total weight, and the key of the last edge
processed (the final value of the shadowed variable `key`, if any edge was
walked). -/
def memoRecon (G : MultiGraph) (td : TrafficData) (tp : String)
    (prev : String → Option String) (ek : String → String → Option Nat) :
    Nat → String → List String × ℚ × Option Nat
  | 0, cur => ([cur], 0, none)
  | fuel+1, cur =>
    match prev cur with
    | none => ([cur], 0, none)
    | some nxt =>
      if nxt = "" then ([cur], 0, none)
      else
        let k := (ek cur nxt).getD 0
        let w := memoEdgeTime td tp cur nxt ((G.edgeDataOf cur nxt k).getD {})
        let r := memoRecon G td tp prev ek fuel nxt
        (cur :: r.1, w + r.2.1, (r.2.2).orElse (fun _ => some k))

/-- `memoized_path_planning`: returns `(path, total_weight, memo)`; the
wall-clock execution time is not modelled. The final store `memo[key] = ...`
(line 440) uses whatever the variable `key` holds at that point — the tuple
key only when no edge was ever iterated, otherwise the integer key of the
last iterated edge. -/
def memoized_path_planning (G : MultiGraph) (td : TrafficData) (start endN : String)
    (tp : String) (memo : Memo) : List String × ℚ × Memo :=
  match memoLookup (Sum.inl (start, endN, tp)) memo with
  | some pv => (pv.1, pv.2, memo)
  | none =>
    let s0 : MemoState :=
      { dist := fun x => if x = start then 0 else ⊤
        prev := fun _ => none
        ek := fun _ _ => none
        pq := [((0 : WithTop ℚ), start)]
        kv := Sum.inl (start, endN, tp) }
    let s := memoLoop G td endN tp ((G.nodes.length + 1) * (G.edges.length + 1) * 2 + 2) s0
    if optTruthy (s.prev endN) || decide (endN = start) then
      if endN = "" then ([], 0, memoInsert s.kv ([], 0) memo)
      else
        let r := memoRecon G td tp s.prev s.ek (G.nodes.length + 1) endN
        (r.1.reverse, r.2.1,
          memoInsert (match r.2.2 with | some k => Sum.inr k | none => s.kv)
            (r.1.reverse, r.2.1) memo)
    else ([], 0, memoInsert s.kv ([], 0) memo)

/-- Two-node graph with a single existing road, the C1 failing input. -/
def c1G : MultiGraph :=
  (MultiGraph.addEdge {} "A" "B"
    { distance := some 1000, capacity := some 1000, road_type := some "existing" }).1

/-- **C1.** Evaluation of `memoized_path_planning` at the failing input: the
first call on the two-node graph computes the path A→B, but stores it in the
memo under the integer edge key `0` — the loop variable `key` of
`for key, data in edges.items()` shadowed the memo key tuple — so the memo
returned by the first call does not contain the tuple key
`("A", "B", "morning")`, and a second call with the same arguments misses the
cache (its `key in memo` test on line 345 is exactly this lookup) and
traverses the graph again, contradicting the at-most-one-computation
guarantee. -/
theorem c1_memo_key_shadowing :
    (memoized_path_planning c1G [] "A" "B" "morning" []).1 = ["A", "B"] ∧
      memoLookup (Sum.inl ("A", "B", "morning"))
        (memoized_path_planning c1G [] "A" "B" "morning" []).2.2 = none ∧
      (memoLookup (Sum.inr 0)
        (memoized_path_planning c1G [] "A" "B" "morning" []).2.2).isSome = true := by
  refine ⟨by decide, by decide, by decide⟩

/-! ## C3/C10: `allocate_road_maintenance_resources` (dp_solutions.py 179–305) -/

/-- One row of the existing-roads table as consumed by the allocator. -/
structure RoadRow where
  fromId : String
  toId : String
  distance_km : ℚ
  condition : ℚ
  deriving DecidableEq, Repr

/-- One row of the neighbourhoods table as consumed by the allocator. -/
structure NbRow where
  id : String
  population : ℚ
  deriving DecidableEq, Repr

/-- The per-road dictionary built on lines 204–235 plus the fields added on
lines 248–254 (population fields start at 0 and are filled in by
`addPopulation`). -/
structure RoadInfo where
  road_id : String
  from_id : String
  to_id : String
  distance_km : ℚ
  current_condition : ℚ
  maintenance_priority : ℚ
  maintenance_cost : ℚ
  benefit : ℚ
  affected_population : ℚ
  population_adjusted_benefit : ℚ
  deriving DecidableEq, Repr

/-- Python `int(...)` truncation of a rational toward zero. -/
def pyInt (q : ℚ) : Int :=
  if 0 ≤ q then ⌊q⌋ else -⌊-q⌋

/-- Lines 204–235: derive the base road record from a table row. -/
def mkRoadBase (r : RoadRow) : RoadInfo :=
  { road_id := pyStrip r.fromId ++ "-" ++ pyStrip r.toId
    from_id := pyStrip r.fromId
    to_id := pyStrip r.toId
    distance_km := r.distance_km
    current_condition := r.condition
    maintenance_priority := (10 - r.condition) * r.distance_km
    maintenance_cost := r.distance_km * (11 - r.condition) / 10
    benefit := max 0 (9 - r.condition) * r.distance_km
    affected_population := 0
    population_adjusted_benefit := 0 }

/-- Insert into a string-keyed dictionary (overwrite semantics). -/
def dictInsert (k : String) (v : ℚ) : List (String × ℚ) → List (String × ℚ)
  | [] => [(k, v)]
  | e :: es => if e.1 = k then (k, v) :: es else e :: dictInsert k v es

/-- `d.get(k, dflt)`. -/
def dictGet (k : String) (dflt : ℚ) : List (String × ℚ) → ℚ
  | [] => dflt
  | e :: es => if e.1 = k then e.2 else dictGet k dflt es

/-- Lines 241–245: the population-by-id dictionary. -/
def popDict (l : List NbRow) : List (String × ℚ) :=
  l.foldl (fun d r => dictInsert (pyStrip r.id) r.population d) []

/-- Lines 248–254: attach the affected population and the
population-adjusted benefit. -/
def addPopulation (pd : List (String × ℚ)) (r : RoadInfo) : RoadInfo :=
  { r with
    affected_population := dictGet r.from_id 0 pd + dictGet r.to_id 0 pd
    population_adjusted_benefit :=
      r.benefit * ((dictGet r.from_id 0 pd + dictGet r.to_id 0 pd) / 100000) }

/-- Stable insertion keeping descending `maintenance_priority` order. -/
def insertDesc (x : RoadInfo) : List RoadInfo → List RoadInfo
  | [] => [x]
  | y :: ys =>
    if y.maintenance_priority < x.maintenance_priority then x :: y :: ys
    else y :: insertDesc x ys

/-- Line 238, `roads.sort(key=priority, reverse=True)`: Python's sort is
stable, and every stable descending sort produces the same list, so a stable
insertion sort is an exact model. -/
def sortRoadsDesc (l : List RoadInfo) : List RoadInfo :=
  l.foldl (fun acc x => insertDesc x acc) []

/-- The derived, sorted, population-adjusted roads list that the DP runs on
(lines 204–254). -/
def deriveRoads (er : List RoadRow) (nb : List NbRow) : List RoadInfo :=
  (sortRoadsDesc (er.map mkRoadBase)).map (addPopulation (popDict nb))

/-- Discretized cost in 0.1-unit budget units, as a natural number. -/
def costUnitsNat (r : RoadInfo) : Nat := (pyInt (r.maintenance_cost * 10)).toNat

/-- Total discretized cost of a road set. -/
def costSum (S : List RoadInfo) : Nat := (S.map costUnitsNat).sum

/-- Total population-adjusted benefit of a road set. -/
def benSum (S : List RoadInfo) : ℚ := (S.map (·.population_adjusted_benefit)).sum

/-- The DP state: benefit table and selected-road-ids table, indexed by
budget units. -/
abbrev KnapState := (Nat → ℚ) × (Nat → List String)

/-- The body of the inner loop (lines 270–274) at one budget level `b`. -/
def knapUpdAt (r : RoadInfo) (cu : Nat) (st : KnapState) (b : Nat) : KnapState :=
  if st.1 b < st.1 (b - cu) + r.population_adjusted_benefit then
    (fun x => if x = b then st.1 (b - cu) + r.population_adjusted_benefit else st.1 x,
     fun x => if x = b then st.2 (b - cu) ++ [r.road_id] else st.2 x)
  else st

/-- The inner loop `for b in range(budget_units, cost_units - 1, -1)`:
processes `b = cu + n - 1` down to `cu`. -/
def knapPassDown (r : RoadInfo) (cu : Nat) : Nat → KnapState → KnapState
  | 0, st => st
  | n+1, st => knapPassDown r cu n (knapUpdAt r cu st (cu + n))

/-- The outer loop over roads (lines 265–274), skipping roads whose cost
discretizes to at most 0 units. -/
def knapRun (budgetUnits : Nat) : List RoadInfo → KnapState → KnapState
  | [], st => st
  | r :: rs, st =>
    if pyInt (r.maintenance_cost * 10) ≤ 0 then knapRun budgetUnits rs st
    else
      knapRun budgetUnits rs
        (knapPassDown r (pyInt (r.maintenance_cost * 10)).toNat
          (budgetUnits + 1 - (pyInt (r.maintenance_cost * 10)).toNat) st)

/-- Scan of `max(range(...), key=dp)`: Python's `max` returns the first
element attaining the maximum, so the incumbent changes only on a strict
improvement. -/
def argmaxScan (dp : Nat → ℚ) : Nat → Nat → Nat → Nat
  | best, _, 0 => best
  | best, i, k+1 => argmaxScan dp (if dp best < dp i then i else best) (i+1) k

/-- `max(range(n + 1), key=lambda b: dp[b])`. -/
def pyMaxRange (dp : Nat → ℚ) (n : Nat) : Nat := argmaxScan dp 0 1 n

/-- A placeholder road record (the id-based plan resolution on line 290 is
never asked for an absent id). -/
def dummyRoad : RoadInfo :=
  { road_id := "", from_id := "", to_id := "", distance_km := 0,
    current_condition := 0, maintenance_priority := 0, maintenance_cost := 0,
    benefit := 0, affected_population := 0, population_adjusted_benefit := 0 }

/-- `next(road for road in roads if road["road_id"] == road_id)` (line 290):
first road record with the given id. -/
def findRoad (rid : String) : List RoadInfo → RoadInfo
  | [] => dummyRoad
  | r :: rs => if r.road_id = rid then r else findRoad rid rs

/-- The returned maintenance plan (lines 281–300). -/
structure MaintenancePlan where
  total_budget : ℚ
  used_budget : ℚ
  total_benefit : ℚ
  roads_to_maintain : List RoadInfo

/-- `allocate_road_maintenance_resources`: knapsack DP over discretized
budget units. The wall-clock execution time is not modelled; the plan lists
the full resolved road records (the source copies the same fields into
per-road dictionaries). A negative budget would crash the source on
`max(range(0), ...)`; the embedding is stated for the nonnegative budgets
the theorems quantify over. -/
def allocate_road_maintenance_resources (er : List RoadRow) (nb : List NbRow)
    (budget : ℚ) : MaintenancePlan :=
  let roads := deriveRoads er nb
  let budget_units := (pyInt (budget * 10)).toNat
  let st := knapRun budget_units roads (fun _ => 0, fun _ => [])
  let opt := pyMaxRange st.1 budget_units
  { total_budget := budget
    used_budget := (opt : ℚ) / 10
    total_benefit := st.1 opt
    roads_to_maintain := (st.2 opt).map (fun rid => findRoad rid roads) }

lemma knapUpdAt_fst (r : RoadInfo) (cu : Nat) (st : KnapState) (b x : Nat) :
    (knapUpdAt r cu st b).1 x =
      if x = b ∧ st.1 b < st.1 (b - cu) + r.population_adjusted_benefit
      then st.1 (b - cu) + r.population_adjusted_benefit else st.1 x := by
  unfold knapUpdAt
  by_cases h : st.1 b < st.1 (b - cu) + r.population_adjusted_benefit
  · rw [if_pos h]
    by_cases hx : x = b
    · rw [if_pos ⟨hx, h⟩]
      dsimp only
      rw [if_pos hx]
    · rw [if_neg (fun hc => hx hc.1)]
      dsimp only
      rw [if_neg hx]
  · rw [if_neg h, if_neg (fun hc => h hc.2)]

lemma knapUpdAt_snd (r : RoadInfo) (cu : Nat) (st : KnapState) (b x : Nat) :
    (knapUpdAt r cu st b).2 x =
      if x = b ∧ st.1 b < st.1 (b - cu) + r.population_adjusted_benefit
      then st.2 (b - cu) ++ [r.road_id] else st.2 x := by
  unfold knapUpdAt
  by_cases h : st.1 b < st.1 (b - cu) + r.population_adjusted_benefit
  · rw [if_pos h]
    by_cases hx : x = b
    · rw [if_pos ⟨hx, h⟩]
      dsimp only
      rw [if_pos hx]
    · rw [if_neg (fun hc => hx hc.1)]
      dsimp only
      rw [if_neg hx]
  · rw [if_neg h, if_neg (fun hc => h hc.2)]

/-- Pointwise characterization of the descending inner loop: an update at
level `b` reads only level `b - cu < b`, which the descending iteration has
not yet touched, so the pass is a pointwise function of the incoming state. -/
lemma knapPassDown_spec (r : RoadInfo) (cu : Nat) (hcu : 1 ≤ cu) :
    ∀ (n : Nat) (st : KnapState) (b : Nat),
      ((knapPassDown r cu n st).1 b =
        if cu ≤ b ∧ b < cu + n ∧ st.1 b < st.1 (b - cu) + r.population_adjusted_benefit
        then st.1 (b - cu) + r.population_adjusted_benefit else st.1 b) ∧
      ((knapPassDown r cu n st).2 b =
        if cu ≤ b ∧ b < cu + n ∧ st.1 b < st.1 (b - cu) + r.population_adjusted_benefit
        then st.2 (b - cu) ++ [r.road_id] else st.2 b) := by
  intro n
  induction n with
  | zero =>
    intro st b
    rw [knapPassDown]
    constructor <;> rw [if_neg (by rintro ⟨hc1, hc2, _⟩; omega)]
  | succ n ih =>
    intro st b
    rw [knapPassDown]
    rcases ih (knapUpdAt r cu st (cu + n)) b with ⟨ih1, ih2⟩
    have hsub : cu + n - cu = n := by omega
    have f1 : ∀ x, (knapUpdAt r cu st (cu + n)).1 x =
        if x = cu + n ∧ st.1 (cu + n) < st.1 n + r.population_adjusted_benefit
        then st.1 n + r.population_adjusted_benefit else st.1 x := by
      intro x
      rw [knapUpdAt_fst, hsub]
    have f2 : ∀ x, (knapUpdAt r cu st (cu + n)).2 x =
        if x = cu + n ∧ st.1 (cu + n) < st.1 n + r.population_adjusted_benefit
        then st.2 n ++ [r.road_id] else st.2 x := by
      intro x
      rw [knapUpdAt_snd, hsub]
    by_cases h1 : cu ≤ b
    · by_cases hb : b = cu + n
      · have hbc : b - cu = n := by omega
        constructor
        · rw [ih1, if_neg (by rintro ⟨_, hlt, _⟩; omega), f1 b]
          by_cases hP : st.1 (cu + n) < st.1 n + r.population_adjusted_benefit
          · rw [if_pos ⟨hb, hP⟩,
              if_pos ⟨h1, by omega, by rw [hbc, hb]; exact hP⟩, hbc]
          · rw [if_neg (fun hc => hP hc.2),
              if_neg (by rintro ⟨_, _, hQ⟩; rw [hbc, hb] at hQ; exact hP hQ)]
        · rw [ih2, if_neg (by rintro ⟨_, hlt, _⟩; omega), f2 b]
          by_cases hP : st.1 (cu + n) < st.1 n + r.population_adjusted_benefit
          · rw [if_pos ⟨hb, hP⟩,
              if_pos ⟨h1, by omega, by rw [hbc, hb]; exact hP⟩, hbc]
          · rw [if_neg (fun hc => hP hc.2),
              if_neg (by rintro ⟨_, _, hQ⟩; rw [hbc, hb] at hQ; exact hP hQ)]
      · have g1 : (knapUpdAt r cu st (cu + n)).1 b = st.1 b := by
          rw [f1 b, if_neg (fun hc => hb hc.1)]
        have g4 : (knapUpdAt r cu st (cu + n)).2 b = st.2 b := by
          rw [f2 b, if_neg (fun hc => hb hc.1)]
        by_cases h2 : b < cu + n
        · have hne2 : b - cu ≠ cu + n := by omega
          have g2 : (knapUpdAt r cu st (cu + n)).1 (b - cu) = st.1 (b - cu) := by
            rw [f1 (b - cu), if_neg (fun hc => hne2 hc.1)]
          have g3 : (knapUpdAt r cu st (cu + n)).2 (b - cu) = st.2 (b - cu) := by
            rw [f2 (b - cu), if_neg (fun hc => hne2 hc.1)]
          constructor
          · rw [ih1, g1, g2]
            by_cases hQ : st.1 b < st.1 (b - cu) + r.population_adjusted_benefit
            · rw [if_pos ⟨h1, h2, hQ⟩, if_pos ⟨h1, by omega, hQ⟩]
            · rw [if_neg (fun hc => hQ hc.2.2), if_neg (fun hc => hQ hc.2.2)]
          · rw [ih2, g1, g2, g3, g4]
            by_cases hQ : st.1 b < st.1 (b - cu) + r.population_adjusted_benefit
            · rw [if_pos ⟨h1, h2, hQ⟩, if_pos ⟨h1, by omega, hQ⟩]
            · rw [if_neg (fun hc => hQ hc.2.2), if_neg (fun hc => hQ hc.2.2)]
        · constructor
          · rw [ih1, if_neg (by rintro ⟨_, hlt, _⟩; omega), g1,
              if_neg (by rintro ⟨_, hlt, _⟩; omega)]
          · rw [ih2, if_neg (by rintro ⟨_, hlt, _⟩; omega), g4,
              if_neg (by rintro ⟨_, hlt, _⟩; omega)]
    · have hbne : b ≠ cu + n := by omega
      have g1 : (knapUpdAt r cu st (cu + n)).1 b = st.1 b := by
        rw [f1 b, if_neg (fun hc => hbne hc.1)]
      have g4 : (knapUpdAt r cu st (cu + n)).2 b = st.2 b := by
        rw [f2 b, if_neg (fun hc => hbne hc.1)]
      constructor
      · rw [ih1, if_neg (fun hc => h1 hc.1), g1, if_neg (fun hc => h1 hc.1)]
      · rw [ih2, if_neg (fun hc => h1 hc.1), g4, if_neg (fun hc => h1 hc.1)]

lemma costSum_cons (r : RoadInfo) (S : List RoadInfo) :
    costSum (r :: S) = costUnitsNat r + costSum S := by
  simp [costSum]

lemma benSum_cons (r : RoadInfo) (S : List RoadInfo) :
    benSum (r :: S) = r.population_adjusted_benefit + benSum S := by
  simp [benSum]

/-- Soundness and completeness of the knapsack fold, for an arbitrary
incoming state: the final benefit at level `b ≤ B` dominates every sub-list
selection of the remaining roads, and is attained by one whose ids are
recorded in the selection table. -/
lemma knapRun_spec (B : Nat) :
    ∀ (rs : List RoadInfo) (st : KnapState),
      (∀ r ∈ rs, 0 < pyInt (r.maintenance_cost * 10)) →
      ∀ b, b ≤ B →
        (∀ S, List.Sublist S rs → costSum S ≤ b →
          st.1 (b - costSum S) + benSum S ≤ (knapRun B rs st).1 b) ∧
        (∃ S, List.Sublist S rs ∧ costSum S ≤ b ∧
          (knapRun B rs st).1 b = st.1 (b - costSum S) + benSum S ∧
          (knapRun B rs st).2 b = st.2 (b - costSum S) ++ S.map (fun q => q.road_id)) := by
  intro rs
  induction rs with
  | nil =>
    intro st hpos b hb
    constructor
    · intro S hS hcost
      rw [List.sublist_nil.mp hS]
      simp [costSum, benSum, knapRun]
    · refine ⟨[], List.Sublist.refl [], by simp [costSum], ?_, ?_⟩ <;>
        simp [costSum, benSum, knapRun]
  | cons r rest ih =>
    intro st hpos b hb
    have hr := hpos r (List.mem_cons_self r rest)
    have hrest : ∀ q ∈ rest, 0 < pyInt (q.maintenance_cost * 10) :=
      fun q hq => hpos q (List.mem_cons_of_mem r hq)
    have hcu : 1 ≤ (pyInt (r.maintenance_cost * 10)).toNat := by omega
    have hrun : knapRun B (r :: rest) st =
        knapRun B rest
          (knapPassDown r (pyInt (r.maintenance_cost * 10)).toNat
            (B + 1 - (pyInt (r.maintenance_cost * 10)).toNat) st) := by
      rw [knapRun, if_neg (by omega)]
    set cu := (pyInt (r.maintenance_cost * 10)).toNat with hcudef
    set st1 := knapPassDown r cu (B + 1 - cu) st with hst1
    have P := knapPassDown_spec r cu hcu (B + 1 - cu) st
    have P1 : ∀ x, st1.1 x =
        if cu ≤ x ∧ x < cu + (B + 1 - cu) ∧
            st.1 x < st.1 (x - cu) + r.population_adjusted_benefit
        then st.1 (x - cu) + r.population_adjusted_benefit else st.1 x :=
      fun x => (P x).1
    have P2 : ∀ x, st1.2 x =
        if cu ≤ x ∧ x < cu + (B + 1 - cu) ∧
            st.1 x < st.1 (x - cu) + r.population_adjusted_benefit
        then st.2 (x - cu) ++ [r.road_id] else st.2 x :=
      fun x => (P x).2
    have M : ∀ x, st.1 x ≤ st1.1 x := by
      intro x
      rw [P1 x]
      by_cases hc : cu ≤ x ∧ x < cu + (B + 1 - cu) ∧
          st.1 x < st.1 (x - cu) + r.population_adjusted_benefit
      · rw [if_pos hc]
        exact le_of_lt hc.2.2
      · rw [if_neg hc]
    have hcuLow : costUnitsNat r = cu := rfl
    rw [hrun]
    constructor
    · intro S hS hcost
      cases hS with
      | cons _ hS2 =>
        calc st.1 (b - costSum S) + benSum S
            ≤ st1.1 (b - costSum S) + benSum S := by
              exact add_le_add_right (M _) _
          _ ≤ (knapRun B rest st1).1 b := (ih st1 hrest b hb).1 S hS2 hcost
      | cons₂ _ hS2 =>
        rename_i S2
        rw [costSum_cons, hcuLow] at hcost
        have hxcu : cu ≤ b - costSum S2 := by omega
        have hxB : b - costSum S2 < cu + (B + 1 - cu) := by omega
        have hstep : st.1 (b - costSum S2 - cu) + r.population_adjusted_benefit ≤
            st1.1 (b - costSum S2) := by
          rw [P1 (b - costSum S2)]
          by_cases hc : st.1 (b - costSum S2) <
              st.1 (b - costSum S2 - cu) + r.population_adjusted_benefit
          · rw [if_pos ⟨hxcu, hxB, hc⟩]
          · rw [if_neg (fun hcon => hc hcon.2.2)]
            exact not_lt.mp hc
        have hidx : b - costSum S2 - cu = b - costSum (r :: S2) := by
          rw [costSum_cons, hcuLow]
          omega
        calc st.1 (b - costSum (r :: S2)) + benSum (r :: S2)
            = st.1 (b - costSum S2 - cu) + r.population_adjusted_benefit + benSum S2 := by
              rw [hidx, benSum_cons, add_assoc]
          _ ≤ st1.1 (b - costSum S2) + benSum S2 := add_le_add_right hstep _
          _ ≤ (knapRun B rest st1).1 b := (ih st1 hrest b hb).1 S2 hS2 (by omega)
    · rcases (ih st1 hrest b hb).2 with ⟨S2, hS2, hc2, he1, he2⟩
      by_cases hc : cu ≤ b - costSum S2 ∧ b - costSum S2 < cu + (B + 1 - cu) ∧
          st.1 (b - costSum S2) <
            st.1 (b - costSum S2 - cu) + r.population_adjusted_benefit
      · refine ⟨r :: S2, List.Sublist.cons₂ r hS2, ?_, ?_, ?_⟩
        · rw [costSum_cons, hcuLow]
          omega
        · rw [he1, P1 (b - costSum S2), if_pos hc, benSum_cons,
            show b - costSum S2 - cu = b - costSum (r :: S2) by
              rw [costSum_cons, hcuLow]; omega, add_assoc]
        · rw [he2, P2 (b - costSum S2), if_pos hc,
            show b - costSum S2 - cu = b - costSum (r :: S2) by
              rw [costSum_cons, hcuLow]; omega]
          simp [List.append_assoc]
      · refine ⟨S2, List.Sublist.cons r hS2, hc2, ?_, ?_⟩
        · rw [he1, P1 (b - costSum S2), if_neg hc]
        · rw [he2, P2 (b - costSum S2), if_neg hc]

lemma argmaxScan_spec (dp : Nat → ℚ) :
    ∀ (k i best : Nat),
      (argmaxScan dp best i k = best ∨
        (i ≤ argmaxScan dp best i k ∧ argmaxScan dp best i k < i + k)) ∧
      dp best ≤ dp (argmaxScan dp best i k) ∧
      (∀ j, i ≤ j → j < i + k → dp j ≤ dp (argmaxScan dp best i k)) := by
  intro k
  induction k with
  | zero =>
    intro i best
    refine ⟨Or.inl rfl, le_refl _, ?_⟩
    intro j h1 h2
    omega
  | succ k ih =>
    intro i best
    rw [argmaxScan]
    by_cases hc : dp best < dp i
    · rw [if_pos hc]
      rcases ih (i + 1) i with ⟨hloc, hge, hall⟩
      refine ⟨?_, le_trans (le_of_lt hc) hge, ?_⟩
      · rcases hloc with h | h
        · right
          omega
        · right
          omega
      · intro j h1 h2
        by_cases hj : j = i
        · rw [hj]
          exact hge
        · exact hall j (by omega) (by omega)
    · rw [if_neg hc]
      rcases ih (i + 1) best with ⟨hloc, hge, hall⟩
      refine ⟨?_, hge, ?_⟩
      · rcases hloc with h | h
        · left
          exact h
        · right
          omega
      · intro j h1 h2
        by_cases hj : j = i
        · rw [hj]
          exact le_trans (not_lt.mp hc) hge
        · exact hall j (by omega) (by omega)

lemma pyMaxRange_le (dp : Nat → ℚ) (n : Nat) : pyMaxRange dp n ≤ n := by
  unfold pyMaxRange
  rcases (argmaxScan_spec dp n 1 0).1 with h | h
  · omega
  · omega

lemma pyMaxRange_ge (dp : Nat → ℚ) (n : Nat) :
    ∀ j, j ≤ n → dp j ≤ dp (pyMaxRange dp n) := by
  intro j hj
  unfold pyMaxRange
  rcases (argmaxScan_spec dp n 1 0) with ⟨_, hge, hall⟩
  by_cases hj0 : j = 0
  · rw [hj0]
    exact hge
  · exact hall j (by omega) (by omega)

lemma findRoad_eq :
    ∀ (rs : List RoadInfo),
      (rs.map (fun q => q.road_id)).Nodup →
      ∀ r ∈ rs, findRoad r.road_id rs = r := by
  intro rs
  induction rs with
  | nil =>
    intro _ r hr
    simp at hr
  | cons q qs ih =>
    intro hnd r hr
    rw [List.map_cons, List.nodup_cons] at hnd
    rcases List.mem_cons.mp hr with rfl | hr2
    · rw [findRoad, if_pos rfl]
    · rw [findRoad]
      have hne : ¬ q.road_id = r.road_id := by
        intro he
        exact hnd.1 (he ▸ List.mem_map_of_mem (fun z => z.road_id) hr2)
      rw [if_neg hne]
      exact ih hnd.2 r hr2

/-- Every id stored in a selection table entry after the fold belongs to a
road of the pool whose cost discretizes to a positive number of units. -/
lemma knapRun_sel_good (B : Nat) (rs0 : List RoadInfo) :
    ∀ (rs : List RoadInfo) (st : KnapState),
      (∀ q ∈ rs, q ∈ rs0) →
      (∀ b rid, rid ∈ st.2 b →
        ∃ q ∈ rs0, q.road_id = rid ∧ 0 < pyInt (q.maintenance_cost * 10)) →
      ∀ b rid, rid ∈ (knapRun B rs st).2 b →
        ∃ q ∈ rs0, q.road_id = rid ∧ 0 < pyInt (q.maintenance_cost * 10) := by
  intro rs
  induction rs with
  | nil =>
    intro st _ hst b rid hr
    exact hst b rid hr
  | cons r rest ih =>
    intro st hsub hst b rid hr
    rw [knapRun] at hr
    by_cases hc : pyInt (r.maintenance_cost * 10) ≤ 0
    · rw [if_pos hc] at hr
      exact ih st (fun q hq => hsub q (List.mem_cons_of_mem r hq)) hst b rid hr
    · rw [if_neg hc] at hr
      have hcu : 1 ≤ (pyInt (r.maintenance_cost * 10)).toNat := by omega
      refine ih _ (fun q hq => hsub q (List.mem_cons_of_mem r hq)) ?_ b rid hr
      intro b2 rid2 hmem
      rw [(knapPassDown_spec r (pyInt (r.maintenance_cost * 10)).toNat hcu
        (B + 1 - (pyInt (r.maintenance_cost * 10)).toNat) st b2).2] at hmem
      by_cases hcond : (pyInt (r.maintenance_cost * 10)).toNat ≤ b2 ∧
          b2 < (pyInt (r.maintenance_cost * 10)).toNat +
            (B + 1 - (pyInt (r.maintenance_cost * 10)).toNat) ∧
          st.1 b2 < st.1 (b2 - (pyInt (r.maintenance_cost * 10)).toNat) +
            r.population_adjusted_benefit
      · rw [if_pos hcond] at hmem
        rcases List.mem_append.mp hmem with h1 | h1
        · exact hst _ rid2 h1
        · rcases List.mem_singleton.mp h1 with rfl
          exact ⟨r, hsub r (List.mem_cons_self r rest), rfl, by omega⟩
      · rw [if_neg hcond] at hmem
        exact hst b2 rid2 hmem

/-- **C3.** For every roads table whose derived maintenance costs discretize
to positive budget units and whose population-adjusted benefits are
nonnegative, and every nonnegative budget: the returned road set is a
sub-list of the derived roads table, its total discretized cost is at most
the discretized budget, the reported total benefit equals the benefit sum of
that very road set, and no road sub-list fitting the budget has a larger
benefit sum — so the returned selection attains the brute-force maximum.
(Road ids are assumed pairwise distinct, as the plan resolves selections
by id.) -/
theorem c3_knapsack_optimal (er : List RoadRow) (nb : List NbRow) (budget : ℚ)
    (hb : 0 ≤ budget)
    (hpos : ∀ r ∈ deriveRoads er nb, 0 < pyInt (r.maintenance_cost * 10))
    (hben : ∀ r ∈ deriveRoads er nb, 0 ≤ r.population_adjusted_benefit)
    (hids : ((deriveRoads er nb).map (fun q => q.road_id)).Nodup) :
    costSum (allocate_road_maintenance_resources er nb budget).roads_to_maintain ≤
        (pyInt (budget * 10)).toNat ∧
      List.Sublist (allocate_road_maintenance_resources er nb budget).roads_to_maintain
        (deriveRoads er nb) ∧
      benSum (allocate_road_maintenance_resources er nb budget).roads_to_maintain =
        (allocate_road_maintenance_resources er nb budget).total_benefit ∧
      (∀ S, List.Sublist S (deriveRoads er nb) →
        costSum S ≤ (pyInt (budget * 10)).toNat →
        benSum S ≤
          benSum (allocate_road_maintenance_resources er nb budget).roads_to_maintain) := by
  have hspec := knapRun_spec (pyInt (budget * 10)).toNat (deriveRoads er nb)
    (fun _ => 0, fun _ => []) hpos
  have hoptle : pyMaxRange
      (knapRun (pyInt (budget * 10)).toNat (deriveRoads er nb)
        (fun _ => 0, fun _ => [])).1 (pyInt (budget * 10)).toNat ≤
      (pyInt (budget * 10)).toNat :=
    pyMaxRange_le _ _
  rcases (hspec _ hoptle).2 with ⟨S, hS, hSc, hS1, hS2⟩
  have hbenefit : (allocate_road_maintenance_resources er nb budget).total_benefit =
      benSum S := by
    show (knapRun (pyInt (budget * 10)).toNat (deriveRoads er nb)
      (fun _ => 0, fun _ => [])).1 _ = benSum S
    rw [hS1]
    exact zero_add _
  have hroads : (allocate_road_maintenance_resources er nb budget).roads_to_maintain = S := by
    show ((knapRun (pyInt (budget * 10)).toNat (deriveRoads er nb)
      (fun _ => 0, fun _ => [])).2 _).map (fun rid => findRoad rid (deriveRoads er nb)) = S
    rw [hS2]
    rw [List.nil_append, List.map_map]
    have : ∀ r ∈ S, (fun rid => findRoad rid (deriveRoads er nb))
        ((fun q => q.road_id) r) = r := by
      intro r hr
      exact findRoad_eq (deriveRoads er nb) hids r (hS.subset hr)
    calc S.map ((fun rid => findRoad rid (deriveRoads er nb)) ∘ (fun q => q.road_id))
        = S.map id := List.map_congr_left this
      _ = S := List.map_id S
  refine ⟨?_, ?_, ?_, ?_⟩
  · rw [hroads]
    omega
  · rw [hroads]
    exact hS
  · rw [hroads]
    exact hbenefit.symm
  · intro T hT hTc
    have hA := (hspec (pyInt (budget * 10)).toNat (le_refl _)).1 T hT hTc
    have hA2 : benSum T ≤ (knapRun (pyInt (budget * 10)).toNat (deriveRoads er nb)
        (fun _ => 0, fun _ => [])).1 (pyInt (budget * 10)).toNat := by
      calc benSum T = 0 + benSum T := (zero_add _).symm
        _ ≤ _ := hA
    have hmax := pyMaxRange_ge
      (knapRun (pyInt (budget * 10)).toNat (deriveRoads er nb)
        (fun _ => 0, fun _ => [])).1 (pyInt (budget * 10)).toNat
      (pyInt (budget * 10)).toNat (le_refl _)
    have hup : benSum T ≤ (allocate_road_maintenance_resources er nb budget).total_benefit :=
      le_trans hA2 hmax
    rw [hbenefit] at hup
    rw [hroads]
    exact hup

/-- **C10.** A road whose maintenance cost discretizes to 0 budget units is
never part of the returned maintenance plan, for every budget: every road in
the plan has a positive discretized cost. (Road ids are assumed pairwise
distinct, as the plan resolves selections by id.) -/
theorem c10_zero_cost_excluded (er : List RoadRow) (nb : List NbRow) (budget : ℚ)
    (hids : ((deriveRoads er nb).map (fun q => q.road_id)).Nodup) :
    ∀ r ∈ (allocate_road_maintenance_resources er nb budget).roads_to_maintain,
      0 < pyInt (r.maintenance_cost * 10) := by
  intro r hr
  have hr2 : r ∈ ((knapRun (pyInt (budget * 10)).toNat (deriveRoads er nb)
      (fun _ => 0, fun _ => [])).2
        (pyMaxRange (knapRun (pyInt (budget * 10)).toNat (deriveRoads er nb)
          (fun _ => 0, fun _ => [])).1 (pyInt (budget * 10)).toNat)).map
      (fun rid => findRoad rid (deriveRoads er nb)) := hr
  rcases List.mem_map.mp hr2 with ⟨rid, hridmem, hfind⟩
  have hgood := knapRun_sel_good (pyInt (budget * 10)).toNat (deriveRoads er nb)
    (deriveRoads er nb) (fun _ => 0, fun _ => []) (fun q hq => hq)
    (fun b rid2 hmem => absurd hmem (List.not_mem_nil rid2)) _ rid hridmem
  rcases hgood with ⟨q, hqmem, hqid, hqpos⟩
  have : findRoad rid (deriveRoads er nb) = q := by
    rw [← hqid]
    exact findRoad_eq (deriveRoads er nb) hids q hqmem
  rw [← hfind, this]
  exact hqpos

lemma pyInt_intCast (n : ℤ) : pyInt ((n : ℚ)) = n := by
  unfold pyInt
  by_cases h : (0:ℚ) ≤ (n:ℚ)
  · rw [if_pos h, Int.floor_intCast]
  · rw [if_neg h, show -((n:ℚ)) = (((-n : ℤ)):ℚ) by push_cast; ring, Int.floor_intCast]
    simp

/-- Roads of the concrete C3 instance: conditions 1, distances 0.3/0.5/0.7 km,
so the discretized costs are 3, 5 and 7 budget units. -/
def c3wER : List RoadRow :=
  [⟨"F1", "T1", 3/10, 1⟩, ⟨"F2", "T2", 1/2, 1⟩, ⟨"F3", "T3", 7/10, 1⟩]

/-- Populations chosen so the population-adjusted benefits are 10, 12, 18. -/
def c3wNB : List NbRow :=
  [⟨"F1", 1250000/3⟩, ⟨"F2", 300000⟩, ⟨"F3", 2250000/7⟩]

lemma c3w_eval : deriveRoads c3wER c3wNB =
    [{ road_id := "F3-T3", from_id := "F3", to_id := "T3", distance_km := 7/10,
       current_condition := 1, maintenance_priority := 63/10, maintenance_cost := 7/10,
       benefit := 28/5, affected_population := 2250000/7,
       population_adjusted_benefit := 18 },
     { road_id := "F2-T2", from_id := "F2", to_id := "T2", distance_km := 1/2,
       current_condition := 1, maintenance_priority := 9/2, maintenance_cost := 1/2,
       benefit := 4, affected_population := 300000,
       population_adjusted_benefit := 12 },
     { road_id := "F1-T1", from_id := "F1", to_id := "T1", distance_km := 3/10,
       current_condition := 1, maintenance_priority := 27/10, maintenance_cost := 3/10,
       benefit := 12/5, affected_population := 1250000/3,
       population_adjusted_benefit := 10 }] := by
  norm_num [deriveRoads, sortRoadsDesc, insertDesc, mkRoadBase, addPopulation,
    popDict, dictInsert, dictGet, c3wER, c3wNB,
    show pyStrip "F1" = "F1" by decide, show pyStrip "T1" = "T1" by decide,
    show pyStrip "F2" = "F2" by decide, show pyStrip "T2" = "T2" by decide,
    show pyStrip "F3" = "F3" by decide, show pyStrip "T3" = "T3" by decide,
    show ((("F1" : String) = "F2")) = False by decide,
    show ((("F1" : String) = "F3")) = False by decide,
    show ((("F1" : String) = "T1")) = False by decide,
    show ((("F1" : String) = "T2")) = False by decide,
    show ((("F1" : String) = "T3")) = False by decide,
    show ((("F2" : String) = "F1")) = False by decide,
    show ((("F2" : String) = "F3")) = False by decide,
    show ((("F2" : String) = "T1")) = False by decide,
    show ((("F2" : String) = "T2")) = False by decide,
    show ((("F2" : String) = "T3")) = False by decide,
    show ((("F3" : String) = "F1")) = False by decide,
    show ((("F3" : String) = "F2")) = False by decide,
    show ((("F3" : String) = "T1")) = False by decide,
    show ((("F3" : String) = "T2")) = False by decide,
    show ((("F3" : String) = "T3")) = False by decide,
    show ((("T1" : String) = "F1")) = False by decide,
    show ((("T1" : String) = "F2")) = False by decide,
    show ((("T1" : String) = "F3")) = False by decide,
    show ((("T1" : String) = "T2")) = False by decide,
    show ((("T1" : String) = "T3")) = False by decide,
    show ((("T2" : String) = "F1")) = False by decide,
    show ((("T2" : String) = "F2")) = False by decide,
    show ((("T2" : String) = "F3")) = False by decide,
    show ((("T2" : String) = "T1")) = False by decide,
    show ((("T2" : String) = "T3")) = False by decide,
    show ((("T3" : String) = "F1")) = False by decide,
    show ((("T3" : String) = "F2")) = False by decide,
    show ((("T3" : String) = "F3")) = False by decide,
    show ((("T3" : String) = "T1")) = False by decide,
    show ((("T3" : String) = "T2")) = False by decide,
    show ("F1" ++ "-" ++ "T1" : String) = "F1-T1" by decide,
    show ("F2" ++ "-" ++ "T2" : String) = "F2-T2" by decide,
    show ("F3" ++ "-" ++ "T3" : String) = "F3-T3" by decide]

lemma c3w_hpos : ∀ r ∈ deriveRoads c3wER c3wNB, 0 < pyInt (r.maintenance_cost * 10) := by
  rw [c3w_eval]
  intro r hr
  fin_cases hr
  · rw [show ((7/10 : ℚ) * 10) = ((7 : ℤ) : ℚ) by norm_num, pyInt_intCast]
    decide
  · rw [show ((1/2 : ℚ) * 10) = ((5 : ℤ) : ℚ) by norm_num, pyInt_intCast]
    decide
  · rw [show ((3/10 : ℚ) * 10) = ((3 : ℤ) : ℚ) by norm_num, pyInt_intCast]
    decide

lemma c3w_hben : ∀ r ∈ deriveRoads c3wER c3wNB, 0 ≤ r.population_adjusted_benefit := by
  rw [c3w_eval]
  intro r hr
  fin_cases hr <;> norm_num

lemma c3w_hids : ((deriveRoads c3wER c3wNB).map (fun q => q.road_id)).Nodup := by
  rw [c3w_eval]
  decide

/-- Closed witness for `c3_knapsack_optimal` on the instance from the claim:
three roads with discretized costs 3, 5, 7 units, population-adjusted
benefits 10, 12, 18, and a budget of 10 units. -/
theorem c3_knapsack_optimal_witness :
    ((0:ℚ) ≤ 1 ∧
      (∀ r ∈ deriveRoads c3wER c3wNB, 0 < pyInt (r.maintenance_cost * 10)) ∧
      (∀ r ∈ deriveRoads c3wER c3wNB, 0 ≤ r.population_adjusted_benefit) ∧
      ((deriveRoads c3wER c3wNB).map (fun q => q.road_id)).Nodup) ∧
    (costSum (allocate_road_maintenance_resources c3wER c3wNB 1).roads_to_maintain ≤
        (pyInt ((1:ℚ) * 10)).toNat ∧
      List.Sublist (allocate_road_maintenance_resources c3wER c3wNB 1).roads_to_maintain
        (deriveRoads c3wER c3wNB) ∧
      benSum (allocate_road_maintenance_resources c3wER c3wNB 1).roads_to_maintain =
        (allocate_road_maintenance_resources c3wER c3wNB 1).total_benefit ∧
      (∀ S, List.Sublist S (deriveRoads c3wER c3wNB) →
        costSum S ≤ (pyInt ((1:ℚ) * 10)).toNat →
        benSum S ≤
          benSum (allocate_road_maintenance_resources c3wER c3wNB 1).roads_to_maintain)) :=
  ⟨⟨by norm_num, c3w_hpos, c3w_hben, c3w_hids⟩,
    c3_knapsack_optimal c3wER c3wNB 1 (by norm_num) c3w_hpos c3w_hben c3w_hids⟩

/-- Single-road instance for the C10 witness. -/
def c10wER : List RoadRow := [⟨"F", "T", 1, 1⟩]

lemma c10w_hids : ((deriveRoads c10wER []).map (fun q => q.road_id)).Nodup := by
  decide

/-- Closed witness for `c10_zero_cost_excluded`. -/
theorem c10_zero_cost_excluded_witness :
    ((deriveRoads c10wER []).map (fun q => q.road_id)).Nodup ∧
    (∀ r ∈ (allocate_road_maintenance_resources c10wER [] 1).roads_to_maintain,
      0 < pyInt (r.maintenance_cost * 10)) :=
  ⟨c10w_hids, c10_zero_cost_excluded c10wER [] 1 c10w_hids⟩

/-! ## C2: forest structure of the MST builders (modified_mst.py) -/

/-- One selected undirected edge joins `x` and `y`. -/
def pairStep (es : List (String × String)) (x y : String) : Prop :=
  (x, y) ∈ es ∨ (y, x) ∈ es

/-- Connectivity in the structure formed by a selected edge list. -/
def Conn (es : List (String × String)) (a b : String) : Prop :=
  Relation.ReflTransGen (pairStep es) a b

lemma pairStep_symm {es : List (String × String)} {x y : String}
    (h : pairStep es x y) : pairStep es y x := h.symm

lemma Conn.refl (es : List (String × String)) (a : String) : Conn es a a :=
  Relation.ReflTransGen.refl

lemma Conn.symm {es : List (String × String)} {a b : String} (h : Conn es a b) :
    Conn es b a :=
  Relation.ReflTransGen.symmetric (fun _ _ hs => pairStep_symm hs) h

lemma Conn.trans {es : List (String × String)} {a b c : String}
    (h1 : Conn es a b) (h2 : Conn es b c) : Conn es a c :=
  Relation.ReflTransGen.trans h1 h2

lemma Conn.single {es : List (String × String)} {a b : String}
    (h : pairStep es a b) : Conn es a b :=
  Relation.ReflTransGen.single h

lemma Conn.mono {es es2 : List (String × String)}
    (hsub : ∀ e ∈ es, e ∈ es2) {a b : String} (h : Conn es a b) : Conn es2 a b := by
  refine Relation.ReflTransGen.mono ?_ h
  intro x y hs
  rcases hs with h1 | h1
  · exact Or.inl (hsub _ h1)
  · exact Or.inr (hsub _ h1)

lemma conn_nil {a b : String} (h : Conn [] a b) : a = b := by
  induction h with
  | refl => rfl
  | tail _ hs _ => rcases hs with h1 | h1 <;> simp at h1

/-- Adding one edge `(u, v)` joins exactly the components of `u` and `v`. -/
lemma conn_append_single {es : List (String × String)} {u v a b : String} :
    Conn (es ++ [(u, v)]) a b ↔
      Conn es a b ∨ (Conn es a u ∧ Conn es v b) ∨ (Conn es a v ∧ Conn es u b) := by
  constructor
  · intro h
    induction h with
    | refl => exact Or.inl (Conn.refl es a)
    | tail hab hs ih =>
      rename_i c d
      have hstep : pairStep es c d ∨ (c = u ∧ d = v) ∨ (c = v ∧ d = u) := by
        rcases hs with h1 | h1
        · rcases List.mem_append.mp h1 with h2 | h2
          · exact Or.inl (Or.inl h2)
          · rcases List.mem_singleton.mp h2 with h3
            exact Or.inr (Or.inl ⟨congrArg Prod.fst h3, congrArg Prod.snd h3⟩)
        · rcases List.mem_append.mp h1 with h2 | h2
          · exact Or.inl (Or.inr h2)
          · rcases List.mem_singleton.mp h2 with h3
            exact Or.inr (Or.inr ⟨congrArg Prod.snd h3, congrArg Prod.fst h3⟩)
      rcases hstep with hcd | ⟨hc, hd⟩ | ⟨hc, hd⟩
      · rcases ih with h1 | ⟨h1, h2⟩ | ⟨h1, h2⟩
        · exact Or.inl (h1.trans (Conn.single hcd))
        · exact Or.inr (Or.inl ⟨h1, h2.trans (Conn.single hcd)⟩)
        · exact Or.inr (Or.inr ⟨h1, h2.trans (Conn.single hcd)⟩)
      · rw [hd]; rw [hc] at ih
        rcases ih with h1 | ⟨h1, h2⟩ | ⟨h1, h2⟩
        · exact Or.inr (Or.inl ⟨h1, Conn.refl es v⟩)
        · exact Or.inr (Or.inl ⟨h1, Conn.refl es v⟩)
        · exact Or.inl h1
      · rw [hd]; rw [hc] at ih
        rcases ih with h1 | ⟨h1, h2⟩ | ⟨h1, h2⟩
        · exact Or.inr (Or.inr ⟨h1, Conn.refl es u⟩)
        · exact Or.inl h1
        · exact Or.inr (Or.inr ⟨h1, Conn.refl es u⟩)
  · have hsub : ∀ e ∈ es, e ∈ es ++ [(u, v)] := fun e he => List.mem_append.mpr (Or.inl he)
    have hedge : Conn (es ++ [(u, v)]) u v :=
      Conn.single (Or.inl (List.mem_append.mpr (Or.inr (List.mem_singleton.mpr rfl))))
    rintro (h | ⟨h1, h2⟩ | ⟨h1, h2⟩)
    · exact Conn.mono hsub h
    · exact ((Conn.mono hsub h1).trans hedge).trans (Conn.mono hsub h2)
    · exact ((Conn.mono hsub h1).trans hedge.symm).trans (Conn.mono hsub h2)

/-! Executable connectivity test over a selected edge list, used to embed the
`has_path` / union-find connectivity checks of modified_mst.py. -/

/-- All endpoints of the selected edges. -/
def edgeEnds : List (String × String) → List String
  | [] => []
  | e :: es => e.1 :: e.2 :: edgeEnds es

lemma edgeEnds_length (es : List (String × String)) :
    (edgeEnds es).length = 2 * es.length := by
  induction es with
  | nil => rfl
  | cons e es ih =>
      simp only [edgeEnds, List.length_cons, ih]
      omega

lemma edgeEnds_mem {es : List (String × String)} {e : String × String} (h : e ∈ es) :
    e.1 ∈ edgeEnds es ∧ e.2 ∈ edgeEnds es := by
  induction es with
  | nil => cases h
  | cons f fs ih =>
      rcases List.mem_cons.mp h with h1 | h1
      · subst h1
        constructor <;> simp [edgeEnds]
      · rcases ih h1 with ⟨h2, h3⟩
        constructor <;> simp [edgeEnds, h2, h3]

/-- Nodes one selected edge away from a member of `s`. -/
def stepMembers (es : List (String × String)) (s : List String) : List String :=
  match es with
  | [] => []
  | e :: rest =>
      (if e.1 ∈ s ∨ e.2 ∈ s then [e.1, e.2] else []) ++ stepMembers rest s

lemma stepMembers_mem {es : List (String × String)} {s : List String} {x : String}
    (h : x ∈ stepMembers es s) :
    ∃ e ∈ es, (x = e.1 ∨ x = e.2) ∧ (e.1 ∈ s ∨ e.2 ∈ s) := by
  induction es with
  | nil => cases h
  | cons e rest ih =>
      simp only [stepMembers] at h
      rcases List.mem_append.mp h with h1 | h1
      · by_cases hc : e.1 ∈ s ∨ e.2 ∈ s
        · rw [if_pos hc] at h1
          refine ⟨e, List.mem_cons_self _ _, ?_, hc⟩
          rcases List.mem_cons.mp h1 with h2 | h2
          · exact Or.inl h2
          · exact Or.inr (List.mem_singleton.mp h2)
        · rw [if_neg hc] at h1
          cases h1
      · rcases ih h1 with ⟨f, hf, hx, hs2⟩
        exact ⟨f, List.mem_cons.mpr (Or.inr hf), hx, hs2⟩

lemma stepMembers_complete {es : List (String × String)} {s : List String} {x y : String}
    (hy : y ∈ s) (hstep : pairStep es y x) : x ∈ stepMembers es s := by
  induction es with
  | nil => rcases hstep with h | h <;> cases h
  | cons e rest ih =>
      simp only [stepMembers]
      refine List.mem_append.mpr ?_
      rcases hstep with h | h
      · rcases List.mem_cons.mp h with h1 | h1
        · left
          have hy1 : y = e.1 := congrArg Prod.fst h1
          have hx2 : x = e.2 := congrArg Prod.snd h1
          rw [if_pos (Or.inl (hy1 ▸ hy))]
          exact List.mem_cons.mpr (Or.inr (List.mem_singleton.mpr hx2))
        · exact Or.inr (ih (Or.inl h1))
      · rcases List.mem_cons.mp h with h1 | h1
        · left
          have hx1 : x = e.1 := congrArg Prod.fst h1
          have hy2 : y = e.2 := congrArg Prod.snd h1
          rw [if_pos (Or.inr (hy2 ▸ hy))]
          exact List.mem_cons.mpr (Or.inl hx1)
        · exact Or.inr (ih (Or.inr h1))

lemma firstDedupAux_subset {x : String} :
    ∀ {seen l : List String}, x ∈ firstDedupAux seen l → x ∈ l := by
  intro seen l
  induction l generalizing seen with
  | nil => intro h; cases h
  | cons y ys ih =>
      intro h
      simp only [firstDedupAux] at h
      by_cases hy : y ∈ seen
      · rw [if_pos hy] at h
        exact List.mem_cons.mpr (Or.inr (ih h))
      · rw [if_neg hy] at h
        rcases List.mem_cons.mp h with h1 | h1
        · exact List.mem_cons.mpr (Or.inl h1)
        · exact List.mem_cons.mpr (Or.inr (ih h1))

lemma firstDedupAux_mem {x : String} :
    ∀ {seen l : List String}, x ∈ l → x ∉ seen → x ∈ firstDedupAux seen l := by
  intro seen l
  induction l generalizing seen with
  | nil => intro h _; cases h
  | cons y ys ih =>
      intro hl hseen
      simp only [firstDedupAux]
      rcases List.mem_cons.mp hl with h1 | h1
      · subst h1
        rw [if_neg hseen]
        exact List.mem_cons.mpr (Or.inl rfl)
      · by_cases hy : y ∈ seen
        · rw [if_pos hy]
          exact ih h1 hseen
        · rw [if_neg hy]
          by_cases hxy : x = y
          · subst hxy
            exact List.mem_cons.mpr (Or.inl rfl)
          · refine List.mem_cons.mpr (Or.inr (ih h1 ?_))
            intro hmem
            rcases List.mem_cons.mp hmem with h2 | h2
            · exact hxy h2
            · exact hseen h2

lemma firstDedupAux_nodup :
    ∀ (l seen : List String),
      (firstDedupAux seen l).Nodup ∧ ∀ x ∈ firstDedupAux seen l, x ∉ seen := by
  intro l
  induction l with
  | nil => intro seen; exact ⟨List.nodup_nil, fun x hx => absurd hx (List.not_mem_nil x)⟩
  | cons y ys ih =>
      intro seen
      simp only [firstDedupAux]
      by_cases hy : y ∈ seen
      · rw [if_pos hy]
        exact ih seen
      · rw [if_neg hy]
        rcases ih (y :: seen) with ⟨hnd, hnotin⟩
        refine ⟨List.nodup_cons.mpr ⟨?_, hnd⟩, ?_⟩
        · intro hmem
          exact (hnotin y hmem) (List.mem_cons.mpr (Or.inl rfl))
        · intro x hx
          rcases List.mem_cons.mp hx with h1 | h1
          · subst h1; exact hy
          · intro hmem
            exact (hnotin x h1) (List.mem_cons.mpr (Or.inr hmem))

lemma firstDedup_subset {x : String} {l : List String} (h : x ∈ firstDedup l) : x ∈ l :=
  firstDedupAux_subset h

lemma firstDedup_mem {x : String} {l : List String} (h : x ∈ l) : x ∈ firstDedup l :=
  firstDedupAux_mem h (List.not_mem_nil x)

lemma firstDedup_nodup (l : List String) : (firstDedup l).Nodup :=
  (firstDedupAux_nodup l []).1

/-- One round of breadth expansion of `s` along the selected edges. -/
def expandOnce (es : List (String × String)) (s : List String) : List String :=
  s ++ firstDedup ((stepMembers es s).filter (fun x => decide (x ∉ s)))

/-- Iterated expansion. -/
def iterExpand (es : List (String × String)) : Nat → List String → List String
  | 0, s => s
  | n + 1, s => iterExpand es n (expandOnce es s)

/-- All nodes connected to `a` by selected edges: expansion run to saturation. -/
def connSet (es : List (String × String)) (a : String) : List String :=
  iterExpand es (2 * es.length + 1) [a]

/-- Executable connectivity test. -/
def connBool (es : List (String × String)) (a b : String) : Bool :=
  decide (b ∈ connSet es a)

lemma expandOnce_extends {es : List (String × String)} {s : List String} {x : String}
    (h : x ∈ s) : x ∈ expandOnce es s :=
  List.mem_append.mpr (Or.inl h)

lemma expandOnce_nodup {es : List (String × String)} {s : List String} (h : s.Nodup) :
    (expandOnce es s).Nodup := by
  refine List.nodup_append.mpr ⟨h, firstDedup_nodup _, ?_⟩
  intro x hxs hxd
  have hxf := firstDedup_subset hxd
  have := List.of_mem_filter hxf
  simp only [decide_eq_true_eq] at this
  exact this hxs

lemma expandOnce_mem {es : List (String × String)} {s : List String} {x : String}
    (h : x ∈ expandOnce es s) :
    x ∈ s ∨ ∃ e ∈ es, (x = e.1 ∨ x = e.2) ∧ (e.1 ∈ s ∨ e.2 ∈ s) := by
  rcases List.mem_append.mp h with h1 | h1
  · exact Or.inl h1
  · exact Or.inr (stepMembers_mem (List.mem_of_mem_filter (firstDedup_subset h1)))

lemma expandOnce_closed {es : List (String × String)} {s : List String}
    (hfix : expandOnce es s = s) {y x : String} (hy : y ∈ s) (hstep : pairStep es y x) :
    x ∈ s := by
  by_cases hxs : x ∈ s
  · exact hxs
  · have hsm := stepMembers_complete hy hstep
    have hfil : x ∈ (stepMembers es s).filter (fun z => decide (z ∉ s)) :=
      List.mem_filter.mpr ⟨hsm, by simp [hxs]⟩
    have : x ∈ expandOnce es s := List.mem_append.mpr (Or.inr (firstDedup_mem hfil))
    rw [hfix] at this
    exact this

lemma expandOnce_fix_or_lt (es : List (String × String)) (s : List String) :
    expandOnce es s = s ∨ s.length < (expandOnce es s).length := by
  rcases hq : firstDedup ((stepMembers es s).filter (fun x => decide (x ∉ s))) with _ | ⟨z, zs⟩
  · left
    simp only [expandOnce, hq, List.append_nil]
  · right
    simp only [expandOnce, hq, List.length_append, List.length_cons]
    omega

lemma iterExpand_fix {es : List (String × String)} {s : List String}
    (h : expandOnce es s = s) : ∀ n, iterExpand es n s = s := by
  intro n
  induction n with
  | zero => rfl
  | succ n ih =>
      simp only [iterExpand, h]
      exact ih

lemma iterExpand_add (es : List (String × String)) (m n : Nat) (s : List String) :
    iterExpand es (m + n) s = iterExpand es n (iterExpand es m s) := by
  induction m generalizing s with
  | zero => rw [Nat.zero_add]; rfl
  | succ m ih =>
      have h1 : m + 1 + n = (m + n) + 1 := by omega
      rw [h1]
      simp only [iterExpand]
      exact ih (expandOnce es s)

lemma iterExpand_succ_eq (es : List (String × String)) (k : Nat) (s : List String) :
    iterExpand es (k + 1) s = expandOnce es (iterExpand es k s) :=
  iterExpand_add es k 1 s

lemma iterExpand_nodup {es : List (String × String)} {s : List String} (h : s.Nodup) :
    ∀ n, (iterExpand es n s).Nodup := by
  intro n
  induction n generalizing s with
  | zero => exact h
  | succ n ih => exact ih (expandOnce_nodup h)

lemma iterExpand_subset_ends {es : List (String × String)} {s : List String} :
    ∀ n, ∀ x ∈ iterExpand es n s, x ∈ s ++ edgeEnds es := by
  intro n
  induction n generalizing s with
  | zero => intro x hx; exact List.mem_append.mpr (Or.inl hx)
  | succ n ih =>
      intro x hx
      have hx2 := ih (s := expandOnce es s) x hx
      rcases List.mem_append.mp hx2 with h1 | h1
      · rcases expandOnce_mem h1 with h2 | ⟨e, he, hxe, _⟩
        · exact List.mem_append.mpr (Or.inl h2)
        · rcases hxe with h3 | h3
          · exact List.mem_append.mpr (Or.inr (h3 ▸ (edgeEnds_mem he).1))
          · exact List.mem_append.mpr (Or.inr (h3 ▸ (edgeEnds_mem he).2))
      · exact List.mem_append.mpr (Or.inr h1)

lemma iterExpand_growth (es : List (String × String)) (s : List String) :
    ∀ K, (∀ k < K, expandOnce es (iterExpand es k s) ≠ iterExpand es k s) →
      s.length + K ≤ (iterExpand es K s).length := by
  intro K
  induction K with
  | zero => intro _; simp [iterExpand]
  | succ K ih =>
      intro h
      have h1 := ih (fun k hk => h k (Nat.lt_succ_of_lt hk))
      rcases expandOnce_fix_or_lt es (iterExpand es K s) with h2 | h2
      · exact absurd h2 (h K (Nat.lt_succ_self K))
      · rw [iterExpand_succ_eq]
        omega

/-- The saturated expansion set is a fixed point of one more expansion. -/
lemma connSet_fix (es : List (String × String)) (a : String) :
    expandOnce es (connSet es a) = connSet es a := by
  set N := 2 * es.length + 1 with hN
  by_cases hex : ∃ k ≤ N, expandOnce es (iterExpand es k [a]) = iterExpand es k [a]
  · rcases hex with ⟨k, hk, hfix⟩
    have hsplit : N = k + (N - k) := by omega
    have h1 : connSet es a = iterExpand es k [a] := by
      show iterExpand es N [a] = _
      rw [hsplit, iterExpand_add, iterExpand_fix hfix]
    rw [h1]
    exact hfix
  · push_neg at hex
    have hgrow := iterExpand_growth es [a] (N + 1)
      (fun k hk => by
        by_cases hkN : k ≤ N
        · exact hex k hkN
        · omega)
    have hnd : (iterExpand es (N + 1) [a]).Nodup :=
      iterExpand_nodup (List.nodup_singleton a) (N + 1)
    have hsub : ∀ x ∈ iterExpand es (N + 1) [a], x ∈ [a] ++ edgeEnds es :=
      iterExpand_subset_ends (N + 1)
    have hlen : (iterExpand es (N + 1) [a]).length ≤ ([a] ++ edgeEnds es).length :=
      (hnd.subperm hsub).length_le
    simp only [List.length_append, List.length_singleton, edgeEnds_length] at hlen
    simp only [List.length_singleton] at hgrow
    omega

lemma iterExpand_extends {es : List (String × String)} {s : List String} {a : String}
    (h : a ∈ s) : ∀ n, a ∈ iterExpand es n s := by
  intro n
  induction n generalizing s with
  | zero => exact h
  | succ n ih => exact ih (expandOnce_extends h)

lemma connSet_self (es : List (String × String)) (a : String) : a ∈ connSet es a :=
  iterExpand_extends (List.mem_singleton.mpr rfl) _

/-- Everything in the saturated set is actually connected to `a`. -/
lemma connSet_sound {es : List (String × String)} {a x : String}
    (h : x ∈ connSet es a) : Conn es a x := by
  have main : ∀ n (s : List String), (∀ y ∈ s, Conn es a y) →
      ∀ z ∈ iterExpand es n s, Conn es a z := by
    intro n
    induction n with
    | zero => intro s hs z hz; exact hs z hz
    | succ n ih =>
        intro s hs z hz
        refine ih (expandOnce es s) ?_ z hz
        intro y hy
        rcases expandOnce_mem hy with h1 | ⟨e, he, hye, hes⟩
        · exact hs y h1
        · rcases hye with h2 | h2 <;> rcases hes with h3 | h3
          · exact h2 ▸ hs e.1 h3
          · exact (hs e.2 h3).trans (Conn.single (h2 ▸ Or.inr (by simpa using he)))
          · exact (hs e.1 h3).trans (Conn.single (h2 ▸ Or.inl (by simpa using he)))
          · exact h2 ▸ hs e.2 h3
  exact main _ [a] (fun y hy => (List.mem_singleton.mp hy) ▸ Conn.refl es a) x h

/-- Everything connected to `a` lands in the saturated set. -/
lemma connSet_complete {es : List (String × String)} {a b : String} (h : Conn es a b) :
    b ∈ connSet es a := by
  induction h with
  | refl => exact connSet_self es a
  | tail _ hs ih => exact expandOnce_closed (connSet_fix es a) ih hs

lemma connBool_iff (es : List (String × String)) (a b : String) :
    connBool es a b = true ↔ Conn es a b := by
  constructor
  · intro h
    exact connSet_sound (of_decide_eq_true h)
  · intro h
    exact decide_eq_true (connSet_complete h)

/-- Number of connected components among `ns` under selected edges `es`:
count each node with no later node connected to it. -/
def compCount (es : List (String × String)) : List String → Nat
  | [] => 0
  | x :: rest => (if rest.any (fun y => connBool es x y) then 0 else 1) + compCount es rest

/-- 1 when `ns` meets both the component of `u` and the component of `v`. -/
def linkCount (es : List (String × String)) (u v : String) (ns : List String) : Nat :=
  if (ns.any fun z => connBool es z u) && (ns.any fun z => connBool es z v) then 1 else 0

lemma any_connBool_iff (es : List (String × String)) (x : String) (l : List String) :
    (l.any (fun y => connBool es x y) = true) ↔ ∃ y ∈ l, Conn es x y := by
  simp only [List.any_eq_true, connBool_iff]

lemma any_connBool_iff2 (es : List (String × String)) (u : String) (l : List String) :
    (l.any (fun z => connBool es z u) = true) ↔ ∃ z ∈ l, Conn es z u := by
  simp only [List.any_eq_true, connBool_iff]

lemma compCount_nil_eq_length {ns : List String} (h : ns.Nodup) :
    compCount [] ns = ns.length := by
  induction ns with
  | nil => rfl
  | cons x rest ih =>
      rcases List.nodup_cons.mp h with ⟨hx, hrest⟩
      have hfalse : (rest.any (fun y => connBool [] x y)) = false := by
        by_contra hcon
        have htrue : (rest.any (fun y => connBool [] x y)) = true := by
          revert hcon
          cases rest.any (fun y => connBool [] x y) <;> simp
        rcases (any_connBool_iff [] x rest).mp htrue with ⟨y, hy, hc⟩
        exact hx ((conn_nil hc) ▸ hy)
      simp only [compCount, hfalse, if_neg, Bool.false_eq_true, not_false_eq_true,
        List.length_cons, ih hrest]
      omega

lemma count_bool_identity (pA2 pDx pA pDr : Prop)
    [Decidable pA2] [Decidable pDx] [Decidable pA] [Decidable pDr]
    (r1 : pA → pA2) (r2 : pDr → pDx) (r3 : pA2 → pA ∨ pDx) (r4 : pDx → ¬pDr → pA2)
    (r5 : pA2 → ¬pA → ¬pDr) (r6 : pA → pDx → pDr) (n : Nat) :
    (if pA2 then 0 else 1) + n + (if pDx then 1 else 0) =
      (if pA then 0 else 1) + (n + (if pDr then 1 else 0)) := by
  by_cases hA2 : pA2 <;> by_cases hDx : pDx <;> by_cases hA : pA <;> by_cases hDr : pDr <;>
    simp only [hA2, hDx, hA, hDr, if_true, if_false, if_pos, if_neg, not_false_eq_true] <;>
    first
      | omega
      | (exact absurd (r1 hA) hA2)
      | (exact absurd (r2 hDr) hDx)
      | (exact absurd (r4 hDx hDr) hA2)
      | (exact absurd hDr (r5 hA2 hA))
      | (exact absurd (r6 hA hDx) hDr)
      | (rcases r3 hA2 with h | h
         · exact absurd h hA
         · exact absurd h hDx)

/-- Adding an edge between two unconnected endpoints removes exactly one
component when `ns` meets both endpoint components. -/
lemma compCount_append_single {es : List (String × String)} {u v : String}
    (hnc : ¬ Conn es u v) (ns : List String) :
    compCount (es ++ [(u, v)]) ns + linkCount es u v ns = compCount es ns := by
  induction ns with
  | nil => simp [compCount, linkCount]
  | cons x rest ih =>
      rw [compCount, compCount, ← ih, linkCount, linkCount]
      have hXuBu : Conn es x u → ((∃ y ∈ rest, Conn es x y) ↔ ∃ z ∈ rest, Conn es z u) := by
        intro hXu
        constructor
        · rintro ⟨y, hy, hc⟩
          exact ⟨y, hy, hc.symm.trans hXu⟩
        · rintro ⟨z, hz, hc⟩
          exact ⟨z, hz, hXu.trans hc.symm⟩
      have hXvBv : Conn es x v → ((∃ y ∈ rest, Conn es x y) ↔ ∃ z ∈ rest, Conn es z v) := by
        intro hXv
        constructor
        · rintro ⟨y, hy, hc⟩
          exact ⟨y, hy, hc.symm.trans hXv⟩
        · rintro ⟨z, hz, hc⟩
          exact ⟨z, hz, hXv.trans hc.symm⟩
      have hnXX : ¬ (Conn es x u ∧ Conn es x v) := fun ⟨h1, h2⟩ => hnc (h1.symm.trans h2)
      have hA2iff : (rest.any (fun y => connBool (es ++ [(u, v)]) x y) = true) ↔
          (∃ y ∈ rest, Conn es x y) ∨
            (Conn es x u ∧ ∃ z ∈ rest, Conn es z v) ∨
            (Conn es x v ∧ ∃ z ∈ rest, Conn es z u) := by
        rw [any_connBool_iff]
        constructor
        · rintro ⟨y, hy, hc⟩
          rcases conn_append_single.mp hc with h1 | ⟨h1, h2⟩ | ⟨h1, h2⟩
          · exact Or.inl ⟨y, hy, h1⟩
          · exact Or.inr (Or.inl ⟨h1, y, hy, h2.symm⟩)
          · exact Or.inr (Or.inr ⟨h1, y, hy, h2.symm⟩)
        · rintro (⟨y, hy, hc⟩ | ⟨h1, z, hz, hc⟩ | ⟨h1, z, hz, hc⟩)
          · exact ⟨y, hy, conn_append_single.mpr (Or.inl hc)⟩
          · exact ⟨z, hz, conn_append_single.mpr (Or.inr (Or.inl ⟨h1, hc.symm⟩))⟩
          · exact ⟨z, hz, conn_append_single.mpr (Or.inr (Or.inr ⟨h1, hc.symm⟩))⟩
      have hDxiff : (((x :: rest).any (fun z => connBool es z u) &&
            (x :: rest).any (fun z => connBool es z v)) = true) ↔
          ((Conn es x u ∨ ∃ z ∈ rest, Conn es z u) ∧
            (Conn es x v ∨ ∃ z ∈ rest, Conn es z v)) := by
        rw [Bool.and_eq_true, any_connBool_iff2, any_connBool_iff2]
        simp only [List.mem_cons, exists_eq_or_imp]
      have hAiff : (rest.any (fun y => connBool es x y) = true) ↔
          ∃ y ∈ rest, Conn es x y := any_connBool_iff es x rest
      have hDriff : ((rest.any (fun z => connBool es z u) &&
            rest.any (fun z => connBool es z v)) = true) ↔
          ((∃ z ∈ rest, Conn es z u) ∧ ∃ z ∈ rest, Conn es z v) := by
        rw [Bool.and_eq_true, any_connBool_iff2, any_connBool_iff2]
      refine count_bool_identity _ _ _ _ ?_ ?_ ?_ ?_ ?_ ?_ _
      · intro h
        exact hA2iff.mpr (Or.inl (hAiff.mp h))
      · intro h
        rcases hDriff.mp h with ⟨h1, h2⟩
        exact hDxiff.mpr ⟨Or.inr h1, Or.inr h2⟩
      · intro h
        rcases hA2iff.mp h with h1 | ⟨h1, h2⟩ | ⟨h1, h2⟩
        · exact Or.inl (hAiff.mpr h1)
        · exact Or.inr (hDxiff.mpr ⟨Or.inl h1, Or.inr h2⟩)
        · exact Or.inr (hDxiff.mpr ⟨Or.inr h2, Or.inl h1⟩)
      · intro hx hr
        rcases hDxiff.mp hx with ⟨h1 | h1, h2 | h2⟩
        · exact absurd ⟨h1, h2⟩ hnXX
        · exact hA2iff.mpr (Or.inr (Or.inl ⟨h1, h2⟩))
        · exact hA2iff.mpr (Or.inr (Or.inr ⟨h2, h1⟩))
        · exact absurd (hDriff.mpr ⟨h1, h2⟩) hr
      · intro hx hna hr
        rcases hDriff.mp hr with ⟨hBu, hBv⟩
        rcases hA2iff.mp hx with h1 | ⟨h1, _⟩ | ⟨h1, _⟩
        · exact hna (hAiff.mpr h1)
        · exact hna (hAiff.mpr ((hXuBu h1).mpr hBu))
        · exact hna (hAiff.mpr ((hXvBv h1).mpr hBv))
      · intro ha hx
        have hA := hAiff.mp ha
        rcases hDxiff.mp hx with ⟨h1, h2⟩
        refine hDriff.mpr ⟨?_, ?_⟩
        · rcases h1 with h3 | h3
          · exact (hXuBu h3).mp hA
          · exact h3
        · rcases h2 with h3 | h3
          · exact (hXvBv h3).mp hA
          · exact h3

/-- `es` is acyclic: every selected edge is a bridge of the selection —
without it, its endpoints are not connected by the remaining selected edges. -/
def Acyclic (es : List (String × String)) : Prop :=
  ∀ pre e post, es = pre ++ e :: post → ¬ Conn (pre ++ post) e.1 e.2

/-- The selections produced by Kruskal-style loops: starting from `base`,
edges are appended one at a time, each joining two endpoints drawn from `ns`
that the current selection leaves unconnected. -/
inductive ForestExt (ns : List String) (base : List (String × String)) :
    List (String × String) → Prop
  | nil : ForestExt ns base base
  | snoc {es : List (String × String)} (u v : String) :
      ForestExt ns base es → u ∈ ns → v ∈ ns → ¬ Conn es u v →
      ForestExt ns base (es ++ [(u, v)])

lemma append_cons_eq_concat {α : Type} {pre post l : List α} {e x : α}
    (h : pre ++ e :: post = l ++ [x]) :
    (post = [] ∧ e = x ∧ pre = l) ∨
      ∃ post2, post = post2 ++ [x] ∧ l = pre ++ e :: post2 := by
  rcases List.eq_nil_or_concat post with hpost | ⟨post2, b, hpost⟩
  · left
    subst hpost
    have h2 := congrArg List.reverse h
    simp only [List.reverse_append, List.reverse_cons, List.reverse_nil,
      List.nil_append, List.singleton_append, List.cons_append] at h2
    rcases List.cons.injEq .. ▸ h2 with ⟨he, hl⟩
    exact ⟨rfl, he, List.reverse_injective hl⟩
  · right
    rw [List.concat_eq_append] at hpost
    subst hpost
    have hre : pre ++ e :: (post2 ++ [b]) = (pre ++ e :: post2) ++ [b] := by
      simp
    rw [hre] at h
    have h2 := congrArg List.reverse h
    simp only [List.reverse_append, List.reverse_cons, List.reverse_nil,
      List.nil_append, List.singleton_append, List.cons_append] at h2
    rcases List.cons.injEq .. ▸ h2 with ⟨hb, hl⟩
    subst hb
    refine ⟨post2, rfl, List.reverse_injective ?_⟩
    rw [← hl]
    simp

theorem forestExt_acyclic {ns : List String} {base es : List (String × String)}
    (h : ForestExt ns base es) (hbase : Acyclic base) : Acyclic es := by
  induction h with
  | nil => exact hbase
  | snoc u v hfb hu hv hnc ih =>
      rename_i es
      intro pre e post hsplit
      rcases append_cons_eq_concat hsplit.symm with ⟨hpost, he, hpre⟩ | ⟨post2, hpost, hl⟩
      · subst hpost; subst he; subst hpre
        rw [List.append_nil]
        exact hnc
      · subst hpost
        intro hcon
        rw [← List.append_assoc] at hcon
        have hsub : ∀ f ∈ pre ++ post2, f ∈ es := by
          intro f hf
          rw [hl]
          rcases List.mem_append.mp hf with h1 | h1
          · exact List.mem_append.mpr (Or.inl h1)
          · exact List.mem_append.mpr (Or.inr (List.mem_cons.mpr (Or.inr h1)))
        have hstep : Conn es e.1 e.2 := by
          refine Conn.single (Or.inl ?_)
          rw [hl]
          exact List.mem_append.mpr (Or.inr (List.mem_cons.mpr (Or.inl rfl)))
        rcases conn_append_single.mp hcon with h1 | ⟨h1, h2⟩ | ⟨h1, h2⟩
        · exact ih pre e post2 hl h1
        · exact hnc (((Conn.mono hsub h1).symm.trans hstep).trans (Conn.mono hsub h2).symm)
        · exact hnc (((Conn.mono hsub h2).trans hstep.symm).trans (Conn.mono hsub h1))

theorem forestExt_count {ns : List String} {base es : List (String × String)}
    (h : ForestExt ns base es) :
    es.length + compCount es ns = base.length + compCount base ns := by
  induction h with
  | nil => rfl
  | snoc u v hfb hu hv hnc ih =>
      rename_i es
      have hcc := compCount_append_single hnc ns
      have hcond : ((ns.any fun z => connBool es z u) &&
          (ns.any fun z => connBool es z v)) = true := by
        rw [Bool.and_eq_true, any_connBool_iff2, any_connBool_iff2]
        exact ⟨⟨u, hu, Conn.refl es u⟩, ⟨v, hv, Conn.refl es v⟩⟩
      have hlink : linkCount es u v ns = 1 := by
        unfold linkCount
        rw [if_pos hcond]
      rw [hlink] at hcc
      rw [List.length_append]
      simp only [List.length_singleton]
      omega

lemma acyclic_nil : Acyclic ([] : List (String × String)) := by
  intro pre e post hsplit
  have := congrArg List.length hsplit
  simp at this
  omega

theorem forestExt_nil_acyclic {ns : List String} {es : List (String × String)}
    (h : ForestExt ns [] es) : Acyclic es :=
  forestExt_acyclic h acyclic_nil

theorem forestExt_nil_count {ns : List String} {es : List (String × String)}
    (hnd : ns.Nodup) (h : ForestExt ns [] es) :
    es.length + compCount es ns = ns.length := by
  rw [forestExt_count h, List.length_nil, Nat.zero_add]
  exact compCount_nil_eq_length hnd

/-! Union-find with path compression and union by rank, as implemented by the
closures `find` / `union` of population_weighted_mst (lines 114-129).
Dictionaries `parent` / `rank` become total functions; the recursive `find`
takes fuel, and under the rank invariant fuel `|nodes| + 1` always reaches the
root. -/

/-- Single dictionary write `parent[a] = b`. -/
def redirect (p : String → String) (a b : String) : String → String :=
  fun y => if y = a then b else p y

/-- Pure parent-chain walk (the value `find` computes, without mutation). -/
def chase (p : String → String) : Nat → String → String
  | 0, x => x
  | fuel + 1, x => if p x = x then x else chase p fuel (p x)

/-- Lines 114-117: `find` with path compression; returns the updated parent
map and the root. -/
def ufFind (p : String → String) : Nat → String → (String → String) × String
  | 0, x => (p, x)
  | fuel + 1, x =>
      if p x = x then (p, x)
      else
        let r := ufFind p fuel (p x)
        (redirect r.1 x r.2, r.2)

/-- Rank invariant: along parent chains the rank strictly increases and all
non-root nodes (and their parents) lie in `ns`. -/
def UFInv (ns : List String) (p : String → String) (rk : String → Nat) : Prop :=
  ∀ x, p x ≠ x → x ∈ ns ∧ p x ∈ ns ∧ rk x < rk (p x)

/-- Termination measure: how many nodes have rank at least `rk x`. -/
def rkm (ns : List String) (rk : String → Nat) (x : String) : Nat :=
  (ns.filter (fun y => decide (rk x ≤ rk y))).length

/-- The root of `x`: the chain walk with always-sufficient fuel. -/
def rootVal (ns : List String) (p : String → String) (x : String) : String :=
  chase p (ns.length + 1) x

lemma chase_root {p : String → String} {x : String} (h : p x = x) :
    ∀ fuel, chase p fuel x = x
  | 0 => rfl
  | fuel + 1 => by simp [chase, h]

lemma countP_strict {α : Type} {ns : List α} {P Q : α → Bool}
    (hmono : ∀ a ∈ ns, P a = true → Q a = true) {w : α} (hw : w ∈ ns)
    (hQ : Q w = true) (hP : P w = false) : ns.countP P < ns.countP Q := by
  induction ns with
  | nil => cases hw
  | cons a t ih =>
      rcases List.mem_cons.mp hw with h1 | h1
      · subst h1
        rw [List.countP_cons_of_neg _ _ (by simp [hP]), List.countP_cons_of_pos _ _ hQ]
        have := List.countP_mono_left (l := t)
          (fun y hy hp => hmono y (List.mem_cons.mpr (Or.inr hy)) hp)
        omega
      · have hstep := ih (fun y hy hp => hmono y (List.mem_cons.mpr (Or.inr hy)) hp) h1
        by_cases hPa : P a = true
        · have hQa : Q a = true := hmono a (List.mem_cons.mpr (Or.inl rfl)) hPa
          rw [List.countP_cons_of_pos _ _ hPa, List.countP_cons_of_pos _ _ hQa]
          omega
        · rw [List.countP_cons_of_neg _ _ hPa]
          by_cases hQa : Q a = true
          · rw [List.countP_cons_of_pos _ _ hQa]
            omega
          · rw [List.countP_cons_of_neg _ _ hQa]
            omega

lemma rkm_le (ns : List String) (rk : String → Nat) (x : String) :
    rkm ns rk x ≤ ns.length :=
  List.length_filter_le _ _

lemma rkm_parent_lt {ns : List String} {p : String → String} {rk : String → Nat}
    (hinv : UFInv ns p rk) {x : String} (hx : p x ≠ x) :
    rkm ns rk (p x) < rkm ns rk x := by
  rcases hinv x hx with ⟨hxm, hpm, hr⟩
  show (ns.filter fun y => decide (rk (p x) ≤ rk y)).length <
    (ns.filter fun y => decide (rk x ≤ rk y)).length
  rw [← List.countP_eq_length_filter, ← List.countP_eq_length_filter]
  refine countP_strict ?_ hxm ?_ ?_
  · intro a _ hp
    simp only [decide_eq_true_eq] at hp ⊢
    omega
  · simp
  · simp only [decide_eq_false_iff_not]
    omega

lemma chase_spec {ns : List String} {p : String → String} {rk : String → Nat}
    (hinv : UFInv ns p rk) :
    ∀ fuel x, rkm ns rk x < fuel →
      p (chase p fuel x) = chase p fuel x ∧
        ∀ fuel2, fuel ≤ fuel2 → chase p fuel2 x = chase p fuel x := by
  intro fuel
  induction fuel with
  | zero => intro x h; omega
  | succ f ih =>
      intro x h
      by_cases hroot : p x = x
      · refine ⟨?_, ?_⟩
        · rw [chase_root hroot]
          exact hroot
        · intro fuel2 hf2
          rw [chase_root hroot, chase_root hroot]
      · have hlt := rkm_parent_lt hinv hroot
        have hf : rkm ns rk (p x) < f := by omega
        rcases ih (p x) hf with ⟨hr, hstab⟩
        refine ⟨?_, ?_⟩
        · show p (chase p (f + 1) x) = chase p (f + 1) x
          simp only [chase, if_neg hroot]
          exact hr
        · intro fuel2 hf2
          obtain ⟨f2, rfl⟩ : ∃ f2, fuel2 = f2 + 1 := ⟨fuel2 - 1, by omega⟩
          simp only [chase, if_neg hroot]
          exact hstab f2 (by omega)

lemma chase_congr {ns : List String} {p : String → String} {rk : String → Nat}
    (hinv : UFInv ns p rk) {x : String} {fuel1 fuel2 : Nat}
    (h1 : rkm ns rk x < fuel1) (h2 : rkm ns rk x < fuel2) :
    chase p fuel1 x = chase p fuel2 x := by
  rcases Nat.le_total fuel1 fuel2 with h | h
  · exact ((chase_spec hinv fuel1 x h1).2 fuel2 h).symm
  · exact (chase_spec hinv fuel2 x h2).2 fuel1 h

lemma rkm_lt_fuel (ns : List String) (rk : String → Nat) (x : String) :
    rkm ns rk x < ns.length + 1 :=
  Nat.lt_succ_of_le (rkm_le ns rk x)

lemma rootVal_isRoot {ns : List String} {p : String → String} {rk : String → Nat}
    (hinv : UFInv ns p rk) (x : String) :
    p (rootVal ns p x) = rootVal ns p x :=
  (chase_spec hinv (ns.length + 1) x (rkm_lt_fuel ns rk x)).1

lemma rootVal_root {ns : List String} {p : String → String} {x : String}
    (h : p x = x) : rootVal ns p x = x :=
  chase_root h _

lemma rootVal_parent {ns : List String} {p : String → String} {rk : String → Nat}
    (hinv : UFInv ns p rk) {x : String} (hx : p x ≠ x) :
    rootVal ns p (p x) = rootVal ns p x := by
  have h1 : rootVal ns p x = chase p (rkm ns rk x + 1) x :=
    chase_congr hinv (rkm_lt_fuel ns rk x) (Nat.lt_succ_self _)
  rw [h1]
  simp only [chase, if_neg hx]
  exact chase_congr hinv (rkm_lt_fuel ns rk (p x)) (rkm_parent_lt hinv hx)

lemma chase_rank_le {ns : List String} {p : String → String} {rk : String → Nat}
    (hinv : UFInv ns p rk) : ∀ fuel x, rk x ≤ rk (chase p fuel x) := by
  intro fuel
  induction fuel with
  | zero => intro x; exact le_refl _
  | succ f ih =>
      intro x
      by_cases hroot : p x = x
      · rw [chase_root hroot]
      · simp only [chase, if_neg hroot]
        exact le_trans (le_of_lt (hinv x hroot).2.2) (ih (p x))

lemma rootVal_rank_lt {ns : List String} {p : String → String} {rk : String → Nat}
    (hinv : UFInv ns p rk) {x : String} (hx : p x ≠ x) :
    rk x < rk (rootVal ns p x) := by
  rw [← rootVal_parent hinv hx]
  exact lt_of_lt_of_le (hinv x hx).2.2 (chase_rank_le hinv _ (p x))

lemma rootVal_ne {ns : List String} {p : String → String} {rk : String → Nat}
    (hinv : UFInv ns p rk) {x : String} (hx : p x ≠ x) :
    rootVal ns p x ≠ x := by
  intro he
  have := rootVal_rank_lt hinv hx
  rw [he] at this
  exact absurd this (lt_irrefl _)

lemma chase_mem {ns : List String} {p : String → String} {rk : String → Nat}
    (hinv : UFInv ns p rk) : ∀ fuel x, x ∈ ns → chase p fuel x ∈ ns := by
  intro fuel
  induction fuel with
  | zero => intro x hx; exact hx
  | succ f ih =>
      intro x hx
      by_cases hroot : p x = x
      · rw [chase_root hroot]; exact hx
      · simp only [chase, if_neg hroot]
        exact ih (p x) (hinv x hroot).2.1

lemma rootVal_mem {ns : List String} {p : String → String} {rk : String → Nat}
    (hinv : UFInv ns p rk) {x : String} (hx : x ∈ ns) :
    rootVal ns p x ∈ ns :=
  chase_mem hinv _ x hx

lemma redirect_inv {ns : List String} {p : String → String} {rk : String → Nat}
    (hinv : UFInv ns p rk) {a : String} (ha : p a ≠ a) :
    UFInv ns (redirect p a (rootVal ns p a)) rk := by
  intro x hx
  by_cases hxa : x = a
  · subst hxa
    simp only [redirect, if_pos rfl] at hx ⊢
    exact ⟨(hinv x ha).1, rootVal_mem hinv (hinv x ha).1, rootVal_rank_lt hinv ha⟩
  · simp only [redirect, if_neg hxa] at hx ⊢
    exact hinv x hx

lemma redirect_rootVal {ns : List String} {p : String → String} {rk : String → Nat}
    (hinv : UFInv ns p rk) {a : String} (ha : p a ≠ a) :
    ∀ y, rootVal ns (redirect p a (rootVal ns p a)) y = rootVal ns p y := by
  have hinv2 := redirect_inv hinv ha
  have hRa : rootVal ns p a ≠ a := rootVal_ne hinv ha
  have hroot : ∀ y, p y = y →
      rootVal ns (redirect p a (rootVal ns p a)) y = rootVal ns p y := by
    intro y hy
    have hya : y ≠ a := fun he => ha (he ▸ hy)
    have hy2 : redirect p a (rootVal ns p a) y = y := by
      simp only [redirect, if_neg hya]
      exact hy
    rw [rootVal_root hy2, rootVal_root hy]
  suffices h : ∀ n y, rkm ns rk y ≤ n →
      rootVal ns (redirect p a (rootVal ns p a)) y = rootVal ns p y by
    intro y
    exact h (rkm ns rk y) y (le_refl _)
  intro n
  induction n with
  | zero =>
      intro y h0
      by_cases hy : p y = y
      · exact hroot y hy
      · exfalso
        have hmem : y ∈ ns.filter (fun z => decide (rk y ≤ rk z)) :=
          List.mem_filter.mpr ⟨(hinv y hy).1, by simp⟩
        have : 0 < rkm ns rk y := by
          show 0 < (ns.filter fun z => decide (rk y ≤ rk z)).length
          exact List.length_pos.mpr (fun he => by simp [he] at hmem)
        omega
  | succ n ih =>
      intro y hyn
      by_cases hy : p y = y
      · exact hroot y hy
      · by_cases hya : y = a
        · subst hya
          show chase (redirect p y (rootVal ns p y)) (ns.length + 1) y = rootVal ns p y
          have h1 : redirect p y (rootVal ns p y) y = rootVal ns p y := by
            simp [redirect]
          have h2 : redirect p y (rootVal ns p y) (rootVal ns p y) = rootVal ns p y := by
            simp only [redirect, if_neg hRa]
            exact rootVal_isRoot hinv y
          simp only [chase, h1, if_neg hRa]
          exact chase_root h2 _
        · have hpy : redirect p a (rootVal ns p a) y = p y := by
            simp only [redirect, if_neg hya]
          have hne2 : redirect p a (rootVal ns p a) y ≠ y := by
            rw [hpy]; exact hy
          have hstep : rootVal ns (redirect p a (rootVal ns p a)) y =
              rootVal ns (redirect p a (rootVal ns p a)) (p y) := by
            show chase (redirect p a (rootVal ns p a)) (ns.length + 1) y = _
            have h3 : chase (redirect p a (rootVal ns p a)) (ns.length + 1) y =
                chase (redirect p a (rootVal ns p a)) (ns.length)
                  (redirect p a (rootVal ns p a) y) := by
              simp only [chase, if_neg hne2]
            rw [h3, hpy]
            refine chase_congr hinv2 ?_ (rkm_lt_fuel ns rk (p y))
            have h4 := rkm_parent_lt hinv2 (x := y) hne2
            rw [hpy] at h4
            have h5 := rkm_le ns rk y
            omega
          rw [hstep]
          have h6 := rkm_parent_lt hinv hy
          rw [ih (p y) (by omega)]
          exact rootVal_parent hinv hy

lemma link_inv_lt {ns : List String} {p : String → String} {rk : String → Nat}
    (hinv : UFInv ns p rk) {A B : String} (hB : p B = B) (hAns : A ∈ ns)
    (hBns : B ∈ ns) (hrk : rk A < rk B) : UFInv ns (redirect p A B) rk := by
  intro x hx
  by_cases hxa : x = A
  · subst hxa
    simp only [redirect, if_pos rfl] at hx ⊢
    exact ⟨hAns, hBns, hrk⟩
  · simp only [redirect, if_neg hxa] at hx ⊢
    exact hinv x hx

lemma link_inv_eq {ns : List String} {p : String → String} {rk : String → Nat}
    (hinv : UFInv ns p rk) {A B : String} (hA : p A = A) (hB : p B = B)
    (hAB : A ≠ B) (hAns : A ∈ ns) (hBns : B ∈ ns) (hrk : rk A = rk B) :
    UFInv ns (redirect p A B) (fun y => if y = B then rk B + 1 else rk y) := by
  intro x hx
  by_cases hxa : x = A
  · have hred : redirect p A B x = B := by
      rw [hxa]; simp [redirect]
    rw [hred]
    have hxns : x ∈ ns := by rw [hxa]; exact hAns
    have hxB : x ≠ B := by rw [hxa]; exact hAB
    refine ⟨hxns, hBns, ?_⟩
    show (if x = B then rk B + 1 else rk x) < (if B = B then rk B + 1 else rk B)
    rw [if_neg hxB, if_pos rfl, hxa, hrk]
    omega
  · have hred : redirect p A B x = p x := by simp [redirect, hxa]
    rw [hred] at hx
    rcases hinv x hx with ⟨h1, h2, h3⟩
    have hxB : x ≠ B := fun he => hx (he ▸ hB)
    rw [hred]
    refine ⟨h1, h2, ?_⟩
    show (if x = B then rk B + 1 else rk x) < (if p x = B then rk B + 1 else rk (p x))
    rw [if_neg hxB]
    by_cases hpB : p x = B
    · rw [if_pos hpB]
      rw [hpB] at h3
      omega
    · rw [if_neg hpB]
      exact h3

lemma link_rootVal {ns : List String} {p : String → String} {rk rk2 : String → Nat}
    (hinv : UFInv ns p rk) {A B : String}
    (hinv2 : UFInv ns (redirect p A B) rk2)
    (hA : p A = A) (hB : p B = B) (hAB : A ≠ B) :
    ∀ y, rootVal ns (redirect p A B) y =
      if rootVal ns p y = A then B else rootVal ns p y := by
  suffices h : ∀ n y, rkm ns rk y ≤ n →
      rootVal ns (redirect p A B) y =
        if rootVal ns p y = A then B else rootVal ns p y by
    intro y
    exact h (rkm ns rk y) y (le_refl _)
  have hBA : B ≠ A := fun he => hAB he.symm
  have hrootcase : ∀ y, p y = y →
      rootVal ns (redirect p A B) y = if rootVal ns p y = A then B else rootVal ns p y := by
    intro y hy
    by_cases hyA : y = A
    · subst hyA
      rw [rootVal_root hy, if_pos rfl]
      show chase (redirect p y B) (ns.length + 1) y = B
      have h1 : redirect p y B y = B := by simp [redirect]
      have hyB : y ≠ B := hAB
      have h2 : redirect p y B B = B := by
        simp only [redirect, if_neg hBA]
        exact hB
      simp only [chase, h1, if_neg hyB.symm]
      exact chase_root h2 _
    · rw [rootVal_root hy, if_neg hyA]
      have h1 : redirect p A B y = y := by
        simp only [redirect, if_neg hyA]
        exact hy
      exact rootVal_root h1
  intro n
  induction n with
  | zero =>
      intro y h0
      by_cases hy : p y = y
      · exact hrootcase y hy
      · exfalso
        have hmem : y ∈ ns.filter (fun z => decide (rk y ≤ rk z)) :=
          List.mem_filter.mpr ⟨(hinv y hy).1, by simp⟩
        have : 0 < rkm ns rk y := by
          show 0 < (ns.filter fun z => decide (rk y ≤ rk z)).length
          exact List.length_pos.mpr (fun he => by simp [he] at hmem)
        omega
  | succ n ih =>
      intro y hyn
      by_cases hy : p y = y
      · exact hrootcase y hy
      · have hyA : y ≠ A := fun he => hy (he ▸ hA)
        have hpy : redirect p A B y = p y := by
          simp only [redirect, if_neg hyA]
        have hne2 : redirect p A B y ≠ y := by
          rw [hpy]; exact hy
        have hstep : rootVal ns (redirect p A B) y =
            rootVal ns (redirect p A B) (p y) := by
          show chase (redirect p A B) (ns.length + 1) y = _
          have h3 : chase (redirect p A B) (ns.length + 1) y =
              chase (redirect p A B) (ns.length) (redirect p A B y) := by
            simp only [chase, if_neg hne2]
          rw [h3, hpy]
          refine chase_congr hinv2 ?_ (rkm_lt_fuel ns rk2 (p y))
          have h4 := rkm_parent_lt hinv2 (x := y) hne2
          rw [hpy] at h4
          have h5 := rkm_le ns rk2 y
          omega
        rw [hstep]
        have h6 := rkm_parent_lt hinv hy
        rw [ih (p y) (by omega)]
        rw [rootVal_parent hinv hy]

lemma ufFind_spec {ns : List String} {p : String → String} {rk : String → Nat}
    (hinv : UFInv ns p rk) :
    ∀ fuel x, rkm ns rk x < fuel →
      (ufFind p fuel x).2 = rootVal ns p x ∧
      UFInv ns (ufFind p fuel x).1 rk ∧
      (∀ y, rootVal ns (ufFind p fuel x).1 y = rootVal ns p y) ∧
      (∀ y, p y = y → (ufFind p fuel x).1 y = y) := by
  intro fuel
  induction fuel with
  | zero => intro x h; omega
  | succ f ih =>
      intro x h
      by_cases hroot : p x = x
      · have hfind : ufFind p (f + 1) x = (p, x) := by
          simp only [ufFind, if_pos hroot]
        rw [hfind]
        exact ⟨(rootVal_root hroot).symm, hinv, fun y => rfl, fun y hy => hy⟩
      · have hf : rkm ns rk (p x) < f := by
          have := rkm_parent_lt hinv hroot
          omega
        rcases ih (p x) hf with ⟨hr2, hrinv, hrroot, hrfix⟩
        have hval : (ufFind p f (p x)).2 = rootVal ns p x := by
          rw [hr2]
          exact rootVal_parent hinv hroot
        have hRform : (ufFind p f (p x)).2 =
            rootVal ns (ufFind p f (p x)).1 x := by
          rw [hval, hrroot x]
        have hne : (ufFind p f (p x)).1 x ≠ x := by
          intro he
          have h1 : rootVal ns (ufFind p f (p x)).1 x = x := rootVal_root he
          rw [hrroot x] at h1
          exact (rootVal_ne hinv hroot) h1
        simp only [ufFind, if_neg hroot]
        refine ⟨hval, ?_, ?_, ?_⟩
        · rw [hRform]
          exact redirect_inv hrinv hne
        · intro y
          have := redirect_rootVal hrinv hne y
          rw [← hRform] at this
          rw [this]
          exact hrroot y
        · intro y hy
          have hyx : y ≠ x := fun he => hroot (he ▸ hy)
          simp only [redirect, if_neg hyx]
          exact hrfix y hy

/-- Lines 119-129: `union` by rank (both the `>` and the equal-rank branch
attach root2 under root1; the equal-rank branch bumps root1's rank). -/
def ufUnion (fuel : Nat) (p : String → String) (rk : String → Nat) (u v : String) :
    (String → String) × (String → Nat) :=
  let f1 := ufFind p fuel u
  let f2 := ufFind f1.1 fuel v
  if f1.2 = f2.2 then (f2.1, rk)
  else if rk f1.2 < rk f2.2 then (redirect f2.1 f1.2 f2.2, rk)
  else if rk f2.2 < rk f1.2 then (redirect f2.1 f2.2 f1.2, rk)
  else (redirect f2.1 f2.2 f1.2, fun y => if y = f1.2 then rk f1.2 + 1 else rk y)

lemma ufUnion_spec {ns : List String} {p : String → String} {rk : String → Nat}
    (hinv : UFInv ns p rk) {u v : String} (hu : u ∈ ns) (hv : v ∈ ns) :
    UFInv ns (ufUnion (ns.length + 1) p rk u v).1 (ufUnion (ns.length + 1) p rk u v).2 ∧
    (∀ a b, rootVal ns p a = rootVal ns p b →
      rootVal ns (ufUnion (ns.length + 1) p rk u v).1 a =
        rootVal ns (ufUnion (ns.length + 1) p rk u v).1 b) ∧
    rootVal ns (ufUnion (ns.length + 1) p rk u v).1 u =
      rootVal ns (ufUnion (ns.length + 1) p rk u v).1 v := by
  rcases ufFind_spec hinv (ns.length + 1) u (rkm_lt_fuel ns rk u) with
    ⟨h1v, h1inv, h1pres, h1fix⟩
  rcases ufFind_spec h1inv (ns.length + 1) v (rkm_lt_fuel ns rk v) with
    ⟨h2v, h2inv, h2pres, h2fix⟩
  set f1 := ufFind p (ns.length + 1) u with hf1
  set f2 := ufFind f1.1 (ns.length + 1) v with hf2
  have hpres : ∀ y, rootVal ns f2.1 y = rootVal ns p y := by
    intro y
    rw [h2pres y, h1pres y]
  have hr1 : f1.2 = rootVal ns p u := h1v
  have hr2 : f2.2 = rootVal ns p v := by
    rw [h2v, h1pres v]
  have hroot1p : p f1.2 = f1.2 := by
    rw [hr1]
    exact rootVal_isRoot hinv u
  have hroot1f1 : f1.1 f1.2 = f1.2 := h1fix _ hroot1p
  have hroot1 : f2.1 f1.2 = f1.2 := h2fix _ hroot1f1
  have hroot2f1 : f1.1 f2.2 = f2.2 := by
    rw [h2v]
    exact rootVal_isRoot h1inv v
  have hroot2 : f2.1 f2.2 = f2.2 := h2fix _ hroot2f1
  have hmem1 : f1.2 ∈ ns := by
    rw [hr1]
    exact rootVal_mem hinv hu
  have hmem2 : f2.2 ∈ ns := by
    rw [hr2]
    exact rootVal_mem hinv hv
  have hval1 : rootVal ns f2.1 u = f1.2 := by
    rw [hpres u, hr1]
  have hval2 : rootVal ns f2.1 v = f2.2 := by
    rw [hpres v, hr2]
  show UFInv ns (ufUnion (ns.length + 1) p rk u v).1 (ufUnion (ns.length + 1) p rk u v).2 ∧ _
  rw [ufUnion]
  simp only [← hf1, ← hf2]
  by_cases heq : f1.2 = f2.2
  · rw [if_pos heq]
    refine ⟨h2inv, ?_, ?_⟩
    · intro a b hab
      rw [hpres a, hpres b]
      exact hab
    · rw [hval1, hval2, heq]
  · rw [if_neg heq]
    by_cases hlt : rk f1.2 < rk f2.2
    · rw [if_pos hlt]
      have hinv3 : UFInv ns (redirect f2.1 f1.2 f2.2) rk :=
        link_inv_lt h2inv hroot2 hmem1 hmem2 hlt
      have hchar := link_rootVal h2inv hinv3 hroot1 hroot2 heq
      refine ⟨hinv3, ?_, ?_⟩
      · intro a b hab
        rw [hchar a, hchar b, hpres a, hpres b, hab]
      · rw [hchar u, hchar v, hval1, hval2, if_pos rfl, if_neg (fun h => heq h.symm)]
    · rw [if_neg hlt]
      have hne2 : f2.2 ≠ f1.2 := fun h => heq h.symm
      by_cases hlt2 : rk f2.2 < rk f1.2
      · rw [if_pos hlt2]
        have hinv3 : UFInv ns (redirect f2.1 f2.2 f1.2) rk :=
          link_inv_lt h2inv hroot1 hmem2 hmem1 hlt2
        have hchar := link_rootVal h2inv hinv3 hroot2 hroot1 hne2
        refine ⟨hinv3, ?_, ?_⟩
        · intro a b hab
          rw [hchar a, hchar b, hpres a, hpres b, hab]
        · rw [hchar u, hchar v, hval1, hval2, if_neg heq, if_pos rfl]
      · rw [if_neg hlt2]
        have hrkeq : rk f2.2 = rk f1.2 := by omega
        have hinv3 : UFInv ns (redirect f2.1 f2.2 f1.2)
            (fun y => if y = f1.2 then rk f1.2 + 1 else rk y) :=
          link_inv_eq h2inv hroot2 hroot1 hne2 hmem2 hmem1 hrkeq
        have hchar := link_rootVal h2inv hinv3 hroot2 hroot1 hne2
        refine ⟨hinv3, ?_, ?_⟩
        · intro a b hab
          rw [hchar a, hchar b, hpres a, hpres b, hab]
        · rw [hchar u, hchar v, hval1, hval2, if_neg heq, if_pos rfl]

/-! Embedding of population_weighted_mst (modified_mst.py lines 15-201).
Only the returned `mst_edges` list is modelled; the analysis dictionary and
the timing value are not referenced by any claim. -/

/-- One row of the facilities table as consumed by the MST builders. -/
structure FacRow where
  id : String
  ftype : String
  deriving DecidableEq, Repr

/-- `needle` begins `hay` (Python substring search helper). -/
def startsWithCh : List Char → List Char → Bool
  | [], _ => true
  | _ :: _, [] => false
  | a :: as, b :: bs => (a = b) && startsWithCh as bs

/-- Python `needle in hay` on strings: substring containment. -/
def containsSub (needle : List Char) : List Char → Bool
  | [] => startsWithCh needle []
  | b :: bs => startsWithCh needle (b :: bs) || containsSub needle bs

/-- Line 61: the keyword list marking a facility as critical. -/
def criticalKeywords : List String :=
  ["hospital", "medical", "government", "airport", "police", "fire"]

/-- Lines 55-62: facilities whose (stripped, lowered) type contains one of the
keywords. -/
def critFacilities (fr : List FacRow) : List String :=
  (fr.filter (fun r =>
    criticalKeywords.any (fun k =>
      containsSub k.data (pyLower (pyStrip r.ftype)).data))).map
    (fun r => pyStrip r.id)

/-- A prepared edge (lines 101-105): endpoints, distance, modified weight and
the original attribute record. -/
structure PrepEdge where
  u : String
  v : String
  distance : ℚ
  modified_weight : ℚ
  data : EdgeData
  deriving DecidableEq, Repr

/-- Lines 65-105: prepared edges (skip edges without a distance or longer
than 100 km; weight from population and facility factors). -/
def prepEdges (popd : List (String × ℚ)) (crit : List String) (alpha beta : ℚ) :
    List GEdge → List PrepEdge
  | [] => []
  | e :: rest =>
      match e.data.distance with
      | none => prepEdges popd crit alpha beta rest
      | some d =>
          if 100000 < d then prepEdges popd crit alpha beta rest
          else
            let total_pop := dictGet e.u 0 popd + dictGet e.v 0 popd
            let pop_factor : ℚ := if 0 < total_pop then 1 - min 1 (total_pop / 1000000) else 1
            let facility_factor : ℚ := if e.u ∈ crit ∨ e.v ∈ crit then 1 / 2 else 1
            ⟨e.u, e.v, d, d * (alpha * pop_factor + beta * facility_factor), e.data⟩ ::
              prepEdges popd crit alpha beta rest

/-- Stable insertion keeping ascending `modified_weight` order. -/
def insertAscPE (x : PrepEdge) : List PrepEdge → List PrepEdge
  | [] => [x]
  | y :: ys =>
      if x.modified_weight < y.modified_weight then x :: y :: ys
      else y :: insertAscPE x ys

/-- Line 108, `edges.sort(key=...)`: Python's sort is stable and every stable
ascending sort yields the same list, so a stable insertion sort is exact. -/
def sortPE (l : List PrepEdge) : List PrepEdge :=
  l.foldl (fun acc x => insertAscPE x acc) []

/-- Mutable state of the Kruskal phase: parent map, rank map and the selected
`mst_edges`. -/
structure MSTState where
  p : String → String
  rk : String → Nat
  sel : List PrepEdge

/-- The endpoint pairs of selected edges. -/
def pairsPE (l : List PrepEdge) : List (String × String) :=
  l.map (fun e => (e.u, e.v))

/-- Lines 133-140: one iteration of the Kruskal loop. -/
def kruskalStep (fuel : Nat) (s : MSTState) (e : PrepEdge) : MSTState :=
  let f1 := ufFind s.p fuel e.u
  let f2 := ufFind f1.1 fuel e.v
  if f1.2 = f2.2 then { s with p := f2.1 }
  else
    let ur := ufUnion fuel f2.1 s.rk e.u e.v
    { p := ur.1, rk := ur.2, sel := s.sel ++ [e] }

/-- Distinct neighbours of `x` in a simple graph with the given edge pairs. -/
def pairNbrs (x : String) : List (String × String) → List String
  | [] => []
  | e :: es =>
      if e.1 = x then e.2 :: pairNbrs x es
      else if e.2 = x then e.1 :: pairNbrs x es
      else pairNbrs x es

/-- `mst.degree(x)` on the simple MST graph. -/
def mstDegree (pairs : List (String × String)) (x : String) : Nat :=
  (firstDedup (pairNbrs x pairs)).length

/-- Lines 155-159: one candidate inspection of the best-edge scan (`and`
short-circuits, so `find` only runs when the facility matches). -/
def facScanStep (fuel : Nat) (fac : String)
    (st : (String → String) × Option PrepEdge × WithTop ℚ) (e : PrepEdge) :
    (String → String) × Option PrepEdge × WithTop ℚ :=
  if e.u = fac ∨ e.v = fac then
    let f1 := ufFind st.1 fuel e.u
    let f2 := ufFind f1.1 fuel e.v
    if f1.2 = f2.2 then (f2.1, st.2)
    else if (e.modified_weight : WithTop ℚ) < st.2.2 then
      (f2.1, some e, (e.modified_weight : WithTop ℚ))
    else (f2.1, st.2)
  else st

/-- Lines 149-167: one iteration of the critical-facility connectivity pass. -/
def facilityStep (fuel : Nat) (nodes : List String) (edges : List PrepEdge)
    (s : MSTState) (fac : String) : MSTState :=
  if (fac ∈ edgeEnds (pairsPE s.sel) ∨ fac ∈ nodes) ∧
      mstDegree (pairsPE s.sel) fac < 2 then
    let scan := edges.foldl (facScanStep fuel fac) (s.p, none, ⊤)
    match scan.2.1 with
    | some e =>
        let ur := ufUnion fuel scan.1 s.rk e.u e.v
        { p := ur.1, rk := ur.2, sel := s.sel ++ [e] }
    | none => { s with p := scan.1 }
  else s

/-- population_weighted_mst, restricted to the returned `mst_edges` list. -/
def population_weighted_mst (G : MultiGraph) (nb : List NbRow) (fr : List FacRow)
    (alpha beta : ℚ) : List PrepEdge :=
  let popd := popDict nb
  let crit := critFacilities fr
  let edges := sortPE (prepEdges popd crit alpha beta G.edges)
  let fuel := G.nodes.length + 1
  let s1 := edges.foldl (kruskalStep fuel) ⟨fun x => x, fun _ => 0, []⟩
  let s2 := crit.foldl (facilityStep fuel G.nodes edges) s1
  s2.sel

/-- Loop invariant of the Kruskal phase: the rank invariant holds, nodes
connected by selected edges share a union-find root, and the selection is a
forest extension of the empty base. -/
def MSTInv (ns : List String) (s : MSTState) : Prop :=
  UFInv ns s.p s.rk ∧
  (∀ a b, Conn (pairsPE s.sel) a b → rootVal ns s.p a = rootVal ns s.p b) ∧
  ForestExt ns [] (pairsPE s.sel)

lemma pairsPE_append (l : List PrepEdge) (e : PrepEdge) :
    pairsPE (l ++ [e]) = pairsPE l ++ [(e.u, e.v)] := by
  simp [pairsPE]

lemma kruskalStep_inv {ns : List String} {s : MSTState} {e : PrepEdge}
    (hs : MSTInv ns s) (hu : e.u ∈ ns) (hv : e.v ∈ ns) :
    MSTInv ns (kruskalStep (ns.length + 1) s e) := by
  rcases hs with ⟨hinv, hconn, hfe⟩
  rcases ufFind_spec hinv (ns.length + 1) e.u (rkm_lt_fuel ns s.rk e.u) with
    ⟨h1v, h1inv, h1pres, h1fix⟩
  rcases ufFind_spec h1inv (ns.length + 1) e.v (rkm_lt_fuel ns s.rk e.v) with
    ⟨h2v, h2inv, h2pres, h2fix⟩
  unfold kruskalStep
  dsimp only
  set f1 := ufFind s.p (ns.length + 1) e.u with hf1
  set f2 := ufFind f1.1 (ns.length + 1) e.v with hf2
  have hpres : ∀ y, rootVal ns f2.1 y = rootVal ns s.p y := by
    intro y
    rw [h2pres y, h1pres y]
  by_cases heq : f1.2 = f2.2
  · rw [if_pos heq]
    refine ⟨h2inv, ?_, hfe⟩
    intro a b hab
    rw [hpres a, hpres b]
    exact hconn a b hab
  · rw [if_neg heq]
    have hnc : ¬ Conn (pairsPE s.sel) e.u e.v := by
      intro hcon
      refine heq ?_
      rw [h1v, h2v, h1pres e.v]
      exact hconn e.u e.v hcon
    rcases ufUnion_spec h2inv hu hv with ⟨huinv, hupres, humerge⟩
    refine ⟨huinv, ?_, ?_⟩
    · intro a b hab
      rw [pairsPE_append] at hab
      have hlift : ∀ c d, Conn (pairsPE s.sel) c d →
          rootVal ns (ufUnion (ns.length + 1) f2.1 s.rk e.u e.v).1 c =
            rootVal ns (ufUnion (ns.length + 1) f2.1 s.rk e.u e.v).1 d := by
        intro c d hcd
        refine hupres c d ?_
        rw [hpres c, hpres d]
        exact hconn c d hcd
      rcases conn_append_single.mp hab with h1 | ⟨h1, h2⟩ | ⟨h1, h2⟩
      · exact hlift a b h1
      · exact ((hlift a e.u h1).trans humerge).trans (hlift e.v b h2)
      · exact ((hlift a e.v h1).trans humerge.symm).trans (hlift e.u b h2)
    · rw [pairsPE_append]
      exact ForestExt.snoc e.u e.v hfe hu hv hnc

lemma kruskalRun_inv {ns : List String} :
    ∀ (es : List PrepEdge) (s : MSTState), MSTInv ns s →
      (∀ e ∈ es, e.u ∈ ns ∧ e.v ∈ ns) →
      MSTInv ns (es.foldl (kruskalStep (ns.length + 1)) s) := by
  intro es
  induction es with
  | nil => intro s hs _; exact hs
  | cons e rest ih =>
      intro s hs hwf
      have he := hwf e (List.mem_cons.mpr (Or.inl rfl))
      exact ih _ (kruskalStep_inv hs he.1 he.2)
        (fun f hf => hwf f (List.mem_cons.mpr (Or.inr hf)))

/-- Invariant of the best-edge scan inside the facility pass. -/
def ScanInv (ns : List String) (rk : String → Nat) (pairs : List (String × String))
    (st : (String → String) × Option PrepEdge × WithTop ℚ) : Prop :=
  UFInv ns st.1 rk ∧
  (∀ a b, Conn pairs a b → rootVal ns st.1 a = rootVal ns st.1 b) ∧
  (match st.2.1 with
   | none => True
   | some e2 => e2.u ∈ ns ∧ e2.v ∈ ns ∧
       rootVal ns st.1 e2.u ≠ rootVal ns st.1 e2.v)

lemma facScanStep_inv {ns : List String} {rk : String → Nat}
    {pairs : List (String × String)} {fac : String}
    {st : (String → String) × Option PrepEdge × WithTop ℚ} {e : PrepEdge}
    (h : ScanInv ns rk pairs st) (hu : e.u ∈ ns) (hv : e.v ∈ ns) :
    ScanInv ns rk pairs (facScanStep (ns.length + 1) fac st e) := by
  rcases h with ⟨hinv, hconn, hbest⟩
  unfold facScanStep
  dsimp only
  by_cases hfac : e.u = fac ∨ e.v = fac
  · rw [if_pos hfac]
    rcases ufFind_spec hinv (ns.length + 1) e.u (rkm_lt_fuel ns rk e.u) with
      ⟨h1v, h1inv, h1pres, h1fix⟩
    rcases ufFind_spec h1inv (ns.length + 1) e.v (rkm_lt_fuel ns rk e.v) with
      ⟨h2v, h2inv, h2pres, h2fix⟩
    set f1 := ufFind st.1 (ns.length + 1) e.u with hf1
    set f2 := ufFind f1.1 (ns.length + 1) e.v with hf2
    have hpres : ∀ y, rootVal ns f2.1 y = rootVal ns st.1 y := by
      intro y
      rw [h2pres y, h1pres y]
    have hconn2 : ∀ a b, Conn pairs a b → rootVal ns f2.1 a = rootVal ns f2.1 b := by
      intro a b hab
      rw [hpres a, hpres b]
      exact hconn a b hab
    have hbest2 : match st.2.1 with
        | none => True
        | some e2 => e2.u ∈ ns ∧ e2.v ∈ ns ∧
            rootVal ns f2.1 e2.u ≠ rootVal ns f2.1 e2.v := by
      rcases hb : st.2.1 with _ | e2
      · exact trivial
      · rw [hb] at hbest
        rcases hbest with ⟨hb1, hb2, hb3⟩
        refine ⟨hb1, hb2, ?_⟩
        rw [hpres e2.u, hpres e2.v]
        exact hb3
    by_cases heq : f1.2 = f2.2
    · rw [if_pos heq]
      exact ⟨h2inv, hconn2, hbest2⟩
    · rw [if_neg heq]
      by_cases hw : (e.modified_weight : WithTop ℚ) < st.2.2
      · rw [if_pos hw]
        refine ⟨h2inv, hconn2, hu, hv, ?_⟩
        intro hcon
        refine heq ?_
        rw [h1v, h2v, h1pres e.v, ← hpres e.u, ← hpres e.v]
        exact hcon
      · rw [if_neg hw]
        exact ⟨h2inv, hconn2, hbest2⟩
  · rw [if_neg hfac]
    exact ⟨hinv, hconn, hbest⟩

lemma facScanRun_inv {ns : List String} {rk : String → Nat}
    {pairs : List (String × String)} (fac : String) :
    ∀ (es : List PrepEdge) (st : (String → String) × Option PrepEdge × WithTop ℚ),
      ScanInv ns rk pairs st → (∀ e ∈ es, e.u ∈ ns ∧ e.v ∈ ns) →
      ScanInv ns rk pairs (es.foldl (facScanStep (ns.length + 1) fac) st) := by
  intro es
  induction es with
  | nil => intro st hst _; exact hst
  | cons e rest ih =>
      intro st hst hwf
      have he := hwf e (List.mem_cons.mpr (Or.inl rfl))
      exact ih _ (facScanStep_inv hst he.1 he.2)
        (fun f hf => hwf f (List.mem_cons.mpr (Or.inr hf)))

lemma facilityStep_inv {ns : List String} {edges : List PrepEdge} {s : MSTState}
    {fac : String} (hs : MSTInv ns s) (hwf : ∀ e ∈ edges, e.u ∈ ns ∧ e.v ∈ ns) :
    MSTInv ns (facilityStep (ns.length + 1) ns edges s fac) := by
  rcases hs with ⟨hinv, hconn, hfe⟩
  unfold facilityStep
  dsimp only
  by_cases hguard : (fac ∈ edgeEnds (pairsPE s.sel) ∨ fac ∈ ns) ∧
      mstDegree (pairsPE s.sel) fac < 2
  · rw [if_pos hguard]
    have hscan := facScanRun_inv fac edges (s.p, none, ⊤)
      ⟨hinv, hconn, trivial⟩ hwf
    set scan := edges.foldl (facScanStep (ns.length + 1) fac) (s.p, none, ⊤) with hscandef
    rcases hscan with ⟨hsinv, hsconn, hsbest⟩
    rcases hb : scan.2.1 with _ | e
    · dsimp only at hsbest ⊢
      exact ⟨hsinv, hsconn, hfe⟩
    · rw [hb] at hsbest
      dsimp only at hsbest ⊢
      rcases hsbest with ⟨hbu, hbv, hbne⟩
      have hnc : ¬ Conn (pairsPE s.sel) e.u e.v := by
        intro hcon
        exact hbne (hsconn e.u e.v hcon)
      rcases ufUnion_spec hsinv hbu hbv with ⟨huinv, hupres, humerge⟩
      refine ⟨huinv, ?_, ?_⟩
      · intro a b hab
        rw [pairsPE_append] at hab
        have hlift : ∀ c d, Conn (pairsPE s.sel) c d →
            rootVal ns (ufUnion (ns.length + 1) scan.1 s.rk e.u e.v).1 c =
              rootVal ns (ufUnion (ns.length + 1) scan.1 s.rk e.u e.v).1 d := by
          intro c d hcd
          exact hupres c d (hsconn c d hcd)
        rcases conn_append_single.mp hab with h1 | ⟨h1, h2⟩ | ⟨h1, h2⟩
        · exact hlift a b h1
        · exact ((hlift a e.u h1).trans humerge).trans (hlift e.v b h2)
        · exact ((hlift a e.v h1).trans humerge.symm).trans (hlift e.u b h2)
      · rw [pairsPE_append]
        exact ForestExt.snoc e.u e.v hfe hbu hbv hnc
  · rw [if_neg hguard]
    exact ⟨hinv, hconn, hfe⟩

lemma facilityRun_inv {ns : List String} {edges : List PrepEdge}
    (hwf : ∀ e ∈ edges, e.u ∈ ns ∧ e.v ∈ ns) :
    ∀ (fl : List String) (s : MSTState), MSTInv ns s →
      MSTInv ns (fl.foldl (facilityStep (ns.length + 1) ns edges) s) := by
  intro fl
  induction fl with
  | nil => intro s hs; exact hs
  | cons fac rest ih =>
      intro s hs
      exact ih _ (facilityStep_inv hs hwf)

lemma prepEdges_mem {popd : List (String × ℚ)} {crit : List String} {alpha beta : ℚ} :
    ∀ {ges : List GEdge} {pe : PrepEdge}, pe ∈ prepEdges popd crit alpha beta ges →
      ∃ e ∈ ges, pe.u = e.u ∧ pe.v = e.v := by
  intro ges
  induction ges with
  | nil => intro pe h; cases h
  | cons e rest ih =>
      intro pe h
      have hnext : pe ∈ prepEdges popd crit alpha beta rest →
          ∃ f ∈ e :: rest, pe.u = f.u ∧ pe.v = f.v := by
        intro h2
        rcases ih h2 with ⟨f, hf, h3, h4⟩
        exact ⟨f, List.mem_cons.mpr (Or.inr hf), h3, h4⟩
      rcases hd : e.data.distance with _ | d
      · rw [prepEdges, hd] at h
        exact hnext h
      · rw [prepEdges, hd] at h
        dsimp only at h
        by_cases hlong : (100000 : ℚ) < d
        · rw [if_pos hlong] at h
          exact hnext h
        · rw [if_neg hlong] at h
          rcases List.mem_cons.mp h with h1 | h1
          · subst h1
            exact ⟨e, List.mem_cons.mpr (Or.inl rfl), rfl, rfl⟩
          · exact hnext h1

lemma insertAscPE_mem {x y : PrepEdge} : ∀ {l : List PrepEdge},
    x ∈ insertAscPE y l → x = y ∨ x ∈ l := by
  intro l
  induction l with
  | nil =>
      intro h
      rcases List.mem_singleton.mp h with h1
      exact Or.inl h1
  | cons z zs ih =>
      intro h
      rw [insertAscPE] at h
      by_cases hc : y.modified_weight < z.modified_weight
      · rw [if_pos hc] at h
        rcases List.mem_cons.mp h with h1 | h1
        · exact Or.inl h1
        · exact Or.inr h1
      · rw [if_neg hc] at h
        rcases List.mem_cons.mp h with h1 | h1
        · exact Or.inr (List.mem_cons.mpr (Or.inl h1))
        · rcases ih h1 with h2 | h2
          · exact Or.inl h2
          · exact Or.inr (List.mem_cons.mpr (Or.inr h2))

lemma sortPE_mem {x : PrepEdge} {l : List PrepEdge} (h : x ∈ sortPE l) : x ∈ l := by
  suffices hgen : ∀ (l2 : List PrepEdge) (acc : List PrepEdge),
      x ∈ l2.foldl (fun a y => insertAscPE y a) acc → x ∈ acc ∨ x ∈ l2 by
    rcases hgen l [] h with h1 | h1
    · cases h1
    · exact h1
  intro l2
  induction l2 with
  | nil => intro acc h2; exact Or.inl h2
  | cons z zs ih =>
      intro acc h2
      rcases ih (insertAscPE z acc) h2 with h1 | h1
      · rcases insertAscPE_mem h1 with h3 | h3
        · exact Or.inr (List.mem_cons.mpr (Or.inl h3))
        · exact Or.inl h3
      · exact Or.inr (List.mem_cons.mpr (Or.inr h1))

/-- The population-weighted MST selection is a forest extension of the
empty base. -/
lemma population_weighted_mst_forest (G : MultiGraph) (nb : List NbRow)
    (fr : List FacRow) (alpha beta : ℚ)
    (hwfG : ∀ e ∈ G.edges, e.u ∈ G.nodes ∧ e.v ∈ G.nodes) :
    ForestExt G.nodes [] (pairsPE (population_weighted_mst G nb fr alpha beta)) := by
  have hwf : ∀ e ∈ sortPE (prepEdges (popDict nb) (critFacilities fr) alpha beta G.edges),
      e.u ∈ G.nodes ∧ e.v ∈ G.nodes := by
    intro e he
    rcases prepEdges_mem (sortPE_mem he) with ⟨f, hf, h1, h2⟩
    rcases hwfG f hf with ⟨h3, h4⟩
    rw [h1, h2]
    exact ⟨h3, h4⟩
  have h0 : MSTInv G.nodes ⟨fun x => x, fun _ => 0, []⟩ := by
    refine ⟨?_, ?_, ForestExt.nil⟩
    · intro x hx
      exact absurd rfl hx
    · intro a b hab
      rw [conn_nil hab]
  have h1 := kruskalRun_inv _ _ h0 hwf
  have h2 := facilityRun_inv hwf (critFacilities fr) _ h1
  exact h2.2.2

/-! Embedding of budget_constrained_mst (lines 269-366) and
connectivity_based_mst (lines 368-488). The returned `mst_edges` and
`total_cost` are modelled; the timing value is not. `G[u][v]` on a pair with
no edges raises KeyError, so both functions are Option-valued. -/

/-- One row of the existing-roads table as consumed by the MST builders. -/
structure ExRoadRow where
  fromId : String
  toId : String
  deriving DecidableEq, Repr

/-- One row of the potential-roads table. -/
structure PotRoadRow where
  fromId : String
  toId : String
  cost : ℚ
  deriving DecidableEq, Repr

/-- `data.get(field, float('inf'))`. -/
def optW (o : Option ℚ) : WithTop ℚ :=
  match o with
  | none => ⊤
  | some q => (q : ℚ)

/-- Lines 321-326 / 348-353: scan `G[u][v].items()` for the key of the
minimal field value among edges of the wanted road type. -/
def bestKeyScan (rt : String) (fld : EdgeData → Option ℚ) :
    List (Nat × EdgeData) → WithTop ℚ → Option Nat → Option Nat
  | [], _, best => best
  | kd :: rest, m, best =>
      if kd.2.road_type = some rt ∧ optW (fld kd.2) < m then
        bestKeyScan rt fld rest (optW (fld kd.2)) (some kd.1)
      else bestKeyScan rt fld rest m best

def bestKey (rt : String) (fld : EdgeData → Option ℚ)
    (items : List (Nat × EdgeData)) : Option Nat :=
  bestKeyScan rt fld items ⊤ none

/-- The endpoint pairs of an accumulated `mst_edges` list. -/
def pairsSel (l : List (String × String × EdgeData)) : List (String × String) :=
  l.map (fun t => (t.1, t.2.1))

lemma pairsSel_append (l : List (String × String × EdgeData))
    (t : String × String × EdgeData) :
    pairsSel (l ++ [t]) = pairsSel l ++ [(t.1, t.2.1)] := by
  simp [pairsSel]

/-- Lines 317-329: seed `mst_edges` with the best existing edge of every
existing-roads row whose endpoints are nodes (no connectivity check). -/
def existingPhase (G : MultiGraph) :
    List (String × String) → Option (List (String × String × EdgeData))
  | [] => some []
  | (u, v) :: rest =>
      if u ∈ G.nodes ∧ v ∈ G.nodes then
        let items := G.edgesBetween u v
        if items.isEmpty then none
        else
          match bestKey "existing" (fun d => d.distance) items with
          | some k =>
              match keyFind k items with
              | some d => (existingPhase G rest).map (fun tail => (u, v, d) :: tail)
              | none => none
          | none => existingPhase G rest
      else existingPhase G rest

/-- Lines 345-358: add potential roads whose endpoints the current MST graph
leaves unconnected, while the budget allows. -/
def potentialPhase (G : MultiGraph) :
    List (String × String × ℚ) → List (String × String × EdgeData) → ℚ →
    Option (List (String × String × EdgeData) × ℚ)
  | [], sel, rb => some (sel, rb)
  | t :: rest, sel, rb =>
      if t.1 ∈ G.nodes ∧ t.2.1 ∈ G.nodes ∧
          ¬ connBool (pairsSel sel) t.1 t.2.1 = true ∧ t.2.2 ≤ rb then
        let items := G.edgesBetween t.1 t.2.1
        if items.isEmpty then none
        else
          match bestKey "potential" (fun d => d.cost) items with
          | some k =>
              match keyFind k items with
              | some d => potentialPhase G rest (sel ++ [(t.1, t.2.1, d)]) (rb - t.2.2)
              | none => none
          | none => potentialPhase G rest sel rb
      else potentialPhase G rest sel rb

/-- Stable insertion keeping ascending cost order. -/
def insertAscPot (x : String × String × ℚ) :
    List (String × String × ℚ) → List (String × String × ℚ)
  | [] => [x]
  | y :: ys => if x.2.2 < y.2.2 then x :: y :: ys else y :: insertAscPot x ys

/-- Line 314: `potential_edges.sort(key=lambda x: x[2])`, stable. -/
def sortPot (l : List (String × String × ℚ)) : List (String × String × ℚ) :=
  l.foldl (fun acc x => insertAscPot x acc) []

/-- budget_constrained_mst, restricted to `(mst_edges, total_cost)`. -/
def budget_constrained_mst (G : MultiGraph) (budget : ℚ) (er : List ExRoadRow)
    (pr : List PotRoadRow) : Option (List (String × String × EdgeData) × ℚ) :=
  let existing_edges := er.map (fun r => (pyStrip r.fromId, pyStrip r.toId))
  let potential_edges := sortPot (pr.map (fun r => (pyStrip r.fromId, pyStrip r.toId, r.cost)))
  match existingPhase G existing_edges with
  | none => none
  | some base =>
      match potentialPhase G potential_edges base budget with
      | none => none
      | some res => some (res.1, budget - res.2)

/-- Line 419: the facility types counted as important. -/
def importantTypes : List String :=
  ["hospital", "school", "government", "police", "fire"]

/-- Lines 415-420: important facility ids. -/
def importantNodes (fr : List FacRow) : List String :=
  (fr.filter (fun r => importantTypes.contains (pyLower (pyStrip r.ftype)))).map
    (fun r => pyStrip r.id)

/-- Lines 452-462: the priority tier of a potential edge. -/
def edgePriority (imp : List String) (t : String × String × ℚ) : Nat :=
  if t.1 ∈ imp ∧ t.2.1 ∈ imp then 0
  else if t.1 ∈ imp ∨ t.2.1 ∈ imp then 1
  else 2

/-- Stable insertion keeping ascending (tier, cost) lexicographic order. -/
def insertAscPri (imp : List String) (x : String × String × ℚ) :
    List (String × String × ℚ) → List (String × String × ℚ)
  | [] => [x]
  | y :: ys =>
      if edgePriority imp x < edgePriority imp y ∨
          (edgePriority imp x = edgePriority imp y ∧ x.2.2 < y.2.2) then x :: y :: ys
      else y :: insertAscPri imp x ys

/-- Line 464: `potential_edges.sort(key=edge_priority)`, stable; Python tuple
keys compare lexicographically. -/
def sortPri (imp : List String) (l : List (String × String × ℚ)) :
    List (String × String × ℚ) :=
  l.foldl (fun acc x => insertAscPri imp x acc) []

/-- connectivity_based_mst, restricted to `(mst_edges, total_cost)`. -/
def connectivity_based_mst (G : MultiGraph) (budget : ℚ) (er : List ExRoadRow)
    (pr : List PotRoadRow) (fr : List FacRow) :
    Option (List (String × String × EdgeData) × ℚ) :=
  let existing_edges := er.map (fun r => (pyStrip r.fromId, pyStrip r.toId))
  let imp := importantNodes fr
  let potential_edges := sortPri imp (pr.map (fun r => (pyStrip r.fromId, pyStrip r.toId, r.cost)))
  match existingPhase G existing_edges with
  | none => none
  | some base =>
      match potentialPhase G potential_edges base budget with
      | none => none
      | some res => some (res.1, budget - res.2)

/-- Every successful potential phase is a forest extension of its seed. -/
lemma potentialPhase_forest {G : MultiGraph} :
    ∀ (pot : List (String × String × ℚ)) (sel0 : List (String × String × EdgeData))
      (rb0 : ℚ) (out : List (String × String × EdgeData) × ℚ),
      potentialPhase G pot sel0 rb0 = some out →
      ∀ pre, ForestExt G.nodes pre (pairsSel sel0) →
        ForestExt G.nodes pre (pairsSel out.1) := by
  intro pot
  induction pot with
  | nil =>
      intro sel0 rb0 out h pre hfe
      rw [potentialPhase] at h
      rcases Option.some.inj h with rfl
      exact hfe
  | cons t rest ih =>
      intro sel0 rb0 out h pre hfe
      rw [potentialPhase] at h
      by_cases hg : t.1 ∈ G.nodes ∧ t.2.1 ∈ G.nodes ∧
          ¬ connBool (pairsSel sel0) t.1 t.2.1 = true ∧ t.2.2 ≤ rb0
      · rw [if_pos hg] at h
        dsimp only at h
        by_cases hemp : (G.edgesBetween t.1 t.2.1).isEmpty = true
        · rw [if_pos hemp] at h
          cases h
        · rw [if_neg hemp] at h
          rcases hbk : bestKey "potential" (fun d => d.cost) (G.edgesBetween t.1 t.2.1)
            with _ | k
          · rw [hbk] at h
            dsimp only at h
            exact ih _ _ _ h pre hfe
          · rw [hbk] at h
            dsimp only at h
            rcases hkf : keyFind k (G.edgesBetween t.1 t.2.1) with _ | d
            · rw [hkf] at h
              cases h
            · rw [hkf] at h
              dsimp only at h
              refine ih _ _ _ h pre ?_
              rw [pairsSel_append]
              refine ForestExt.snoc _ _ hfe hg.1 hg.2.1 ?_
              intro hcon
              exact hg.2.2.1 ((connBool_iff _ _ _).mpr hcon)
      · rw [if_neg hg] at h
        exact ih _ _ _ h pre hfe

/-- Triangle of existing roads: the existing-roads phase of
budget_constrained_mst adds all three edges with no connectivity check. -/
def c2G : MultiGraph :=
  (MultiGraph.addEdge
    (MultiGraph.addEdge
      (MultiGraph.addEdge {} "A" "B" { distance := some 100, road_type := some "existing" }).1
      "B" "C" { distance := some 100, road_type := some "existing" }).1
    "A" "C" { distance := some 100, road_type := some "existing" }).1

def c2ER : List ExRoadRow := [⟨"A", "B"⟩, ⟨"B", "C"⟩, ⟨"A", "C"⟩]

def c2sel : List (String × String × EdgeData) :=
  [("A", "B", { distance := some 100, road_type := some "existing" }),
   ("B", "C", { distance := some 100, road_type := some "existing" }),
   ("A", "C", { distance := some 100, road_type := some "existing" })]

/-- C2, counterexample: on a triangle of existing roads with zero budget and
no potential roads, budget_constrained_mst returns all three edges, whose
edge set contains a cycle and has 3 = node_count edges rather than
node_count − component_count = 2: the claim fails for
budget_constrained_mst. -/
theorem c2_counterexample :
    (budget_constrained_mst c2G 0 c2ER []).map (fun r => r.1) = some c2sel ∧
    ¬ Acyclic (pairsSel c2sel) ∧
    (pairsSel c2sel).length + compCount (pairsSel c2sel) c2G.nodes ≠
      c2G.nodes.length := by
  refine ⟨by decide, ?_, by decide⟩
  intro hacy
  have h1 := hacy [("A", "B"), ("B", "C")] ("A", "C") [] rfl
  exact h1 ((connBool_iff [("A", "B"), ("B", "C")] "A" "C").mp (by decide))

/-- C2, amended: population_weighted_mst always returns a cycle-free edge set
with exactly node_count − component_count edges (its Kruskal and
critical-facility passes only join union-find-separated components); for
budget_constrained_mst and connectivity_based_mst the potential-road phase
extends the existing-road seed one component-joining edge at a time — so the
edge count exceeds the seed's by exactly the drop in component count, and the
result is cycle-free whenever the seed is — but the seed itself is taken from
the existing-roads table with no connectivity check and may contain cycles. -/
theorem c2_mst_forest
    (G : MultiGraph) (nb : List NbRow) (fr : List FacRow) (alpha beta : ℚ)
    (hwfG : ∀ e ∈ G.edges, e.u ∈ G.nodes ∧ e.v ∈ G.nodes)
    (hnd : G.nodes.Nodup)
    (G2 : MultiGraph) (b2 : ℚ) (er2 : List ExRoadRow) (pr2 : List PotRoadRow)
    (sel2 : List (String × String × EdgeData)) (tc2 : ℚ)
    (h2 : budget_constrained_mst G2 b2 er2 pr2 = some (sel2, tc2))
    (G3 : MultiGraph) (b3 : ℚ) (er3 : List ExRoadRow) (pr3 : List PotRoadRow)
    (fr3 : List FacRow) (sel3 : List (String × String × EdgeData)) (tc3 : ℚ)
    (h3 : connectivity_based_mst G3 b3 er3 pr3 fr3 = some (sel3, tc3)) :
    (Acyclic (pairsPE (population_weighted_mst G nb fr alpha beta)) ∧
      (pairsPE (population_weighted_mst G nb fr alpha beta)).length +
        compCount (pairsPE (population_weighted_mst G nb fr alpha beta)) G.nodes =
        G.nodes.length) ∧
    (∃ base2, existingPhase G2 (er2.map (fun r => (pyStrip r.fromId, pyStrip r.toId))) =
        some base2 ∧
      ForestExt G2.nodes (pairsSel base2) (pairsSel sel2) ∧
      (pairsSel sel2).length + compCount (pairsSel sel2) G2.nodes =
        (pairsSel base2).length + compCount (pairsSel base2) G2.nodes ∧
      (Acyclic (pairsSel base2) → Acyclic (pairsSel sel2))) ∧
    (∃ base3, existingPhase G3 (er3.map (fun r => (pyStrip r.fromId, pyStrip r.toId))) =
        some base3 ∧
      ForestExt G3.nodes (pairsSel base3) (pairsSel sel3) ∧
      (pairsSel sel3).length + compCount (pairsSel sel3) G3.nodes =
        (pairsSel base3).length + compCount (pairsSel base3) G3.nodes ∧
      (Acyclic (pairsSel base3) → Acyclic (pairsSel sel3))) := by
  refine ⟨?_, ?_, ?_⟩
  · have hfe := population_weighted_mst_forest G nb fr alpha beta hwfG
    exact ⟨forestExt_nil_acyclic hfe, forestExt_nil_count hnd hfe⟩
  · rw [budget_constrained_mst] at h2
    rcases hP : existingPhase G2 (er2.map (fun r => (pyStrip r.fromId, pyStrip r.toId)))
      with _ | base2
    · rw [hP] at h2
      cases h2
    · rw [hP] at h2
      dsimp only at h2
      rcases hQ : potentialPhase G2
          (sortPot (pr2.map (fun r => (pyStrip r.fromId, pyStrip r.toId, r.cost))))
          base2 b2 with _ | res
      · rw [hQ] at h2
        cases h2
      · rw [hQ] at h2
        dsimp only at h2
        have hres : res.1 = sel2 :=
          congrArg Prod.fst (Option.some.inj h2)
        have hfe := potentialPhase_forest _ _ _ _ hQ (pairsSel base2) ForestExt.nil
        rw [hres] at hfe
        exact ⟨base2, hP, hfe, forestExt_count hfe,
          fun hacy => forestExt_acyclic hfe hacy⟩
  · rw [connectivity_based_mst] at h3
    rcases hP : existingPhase G3 (er3.map (fun r => (pyStrip r.fromId, pyStrip r.toId)))
      with _ | base3
    · rw [hP] at h3
      cases h3
    · rw [hP] at h3
      dsimp only at h3
      rcases hQ : potentialPhase G3
          (sortPri (importantNodes fr3)
            (pr3.map (fun r => (pyStrip r.fromId, pyStrip r.toId, r.cost))))
          base3 b3 with _ | res
      · rw [hQ] at h3
        cases h3
      · rw [hQ] at h3
        dsimp only at h3
        have hres : res.1 = sel3 :=
          congrArg Prod.fst (Option.some.inj h3)
        have hfe := potentialPhase_forest _ _ _ _ hQ (pairsSel base3) ForestExt.nil
        rw [hres] at hfe
        exact ⟨base3, hP, hfe, forestExt_count hfe,
          fun hacy => forestExt_acyclic hfe hacy⟩

def c2wG : MultiGraph := { nodes := ["A"] }

/-- C2 witness: the amended statement applied to the one-node graph with
empty tables. -/
theorem c2_mst_forest_witness :
    ((∀ e ∈ c2wG.edges, e.u ∈ c2wG.nodes ∧ e.v ∈ c2wG.nodes) ∧
      c2wG.nodes.Nodup ∧
      budget_constrained_mst c2wG 0 [] [] = some ([], 0 - 0) ∧
      connectivity_based_mst c2wG 0 [] [] [] = some ([], 0 - 0)) ∧
    ((Acyclic (pairsPE (population_weighted_mst c2wG [] [] (7/10) (3/10))) ∧
      (pairsPE (population_weighted_mst c2wG [] [] (7/10) (3/10))).length +
        compCount (pairsPE (population_weighted_mst c2wG [] [] (7/10) (3/10)))
          c2wG.nodes = c2wG.nodes.length) ∧
    (∃ base2, existingPhase c2wG
        (List.map (fun (r : ExRoadRow) => (pyStrip r.fromId, pyStrip r.toId)) []) =
        some base2 ∧
      ForestExt c2wG.nodes (pairsSel base2) (pairsSel []) ∧
      (pairsSel []).length + compCount (pairsSel []) c2wG.nodes =
        (pairsSel base2).length + compCount (pairsSel base2) c2wG.nodes ∧
      (Acyclic (pairsSel base2) → Acyclic (pairsSel []))) ∧
    (∃ base3, existingPhase c2wG
        (List.map (fun (r : ExRoadRow) => (pyStrip r.fromId, pyStrip r.toId)) []) =
        some base3 ∧
      ForestExt c2wG.nodes (pairsSel base3) (pairsSel []) ∧
      (pairsSel []).length + compCount (pairsSel []) c2wG.nodes =
        (pairsSel base3).length + compCount (pairsSel base3) c2wG.nodes ∧
      (Acyclic (pairsSel base3) → Acyclic (pairsSel [])))) :=
  ⟨⟨by decide, by decide, rfl, rfl⟩,
    c2_mst_forest c2wG [] [] (7/10) (3/10) (by decide) (by decide)
      c2wG 0 [] [] [] (0 - 0) rfl
      c2wG 0 [] [] [] [] (0 - 0) rfl⟩

/-! ## C7: create_graph distance invariants (src/src/utils/graph_utils.py)

The float function distance_calc returns 111000·cos(30°)-scaled Euclidean
distances: an irrational value with no exact rational embedding, so it enters
as the oracle parameter `dcalc` (the claims under study do not depend on its
values). Likewise `spd` abstracts the library calls
nx.shortest_path / nx.path_weight of lines 204-205 / 231-232, with `none`
modelling the caught NetworkXNoPath/NodeNotFound exceptions. The returned
bus-stop and metro-station sets and the traffic dictionary are not modelled:
no claim mentions them. -/

/-- One row of the neighbourhoods table (all columns consumed). -/
structure NbRowG where
  id : String
  name : String
  population : ℚ
  ntype : String
  x : ℚ
  y : ℚ
  deriving DecidableEq, Repr

/-- One facilities row; `x`/`y` are `none` when the cell is null. -/
structure FacRowG where
  id : String
  name : String
  ftype : String
  x : Option ℚ
  y : Option ℚ
  deriving DecidableEq, Repr

/-- One existing-roads row as consumed by create_graph. -/
structure RoadRowG where
  fromId : String
  toId : String
  distance_km : ℚ
  capacity : ℚ
  condition : ℚ
  deriving DecidableEq, Repr

/-- One potential-roads row as consumed by create_graph. -/
structure PotRowG where
  fromId : String
  toId : String
  distance_km : ℚ
  capacity : ℚ
  cost : ℚ
  deriving DecidableEq, Repr

/-- One bus-routes row; the comma-separated stops cell arrives pre-split. -/
structure BusRowG where
  routeId : String
  stops : List String
  busesAssigned : ℚ
  dailyPassengers : ℚ
  deriving DecidableEq, Repr

/-- One metro-lines row; the stations cell arrives pre-split. -/
structure MetroRowG where
  lineId : String
  stations : List String
  dailyPassengers : ℚ
  deriving DecidableEq, Repr

/-- Python `s.strip('\x22')`: remove leading and trailing quote characters. -/
def pyStripQ (s : String) : String :=
  ⟨((s.data.dropWhile (fun c => c = '\x22')).reverse.dropWhile
    (fun c => c = '\x22')).reverse⟩

/-- `str(cell).strip().strip('\x22')`, the id normalisation used throughout. -/
def stripId (s : String) : String := pyStripQ (pyStrip s)

/-- Lines 36-42: add neighbourhood nodes. -/
def addNbNodes : MultiGraph → List NbRowG → MultiGraph
  | g, [] => g
  | g, r :: rest =>
      addNbNodes (g.addNode (stripId r.id)
        { name := some (pyStrip r.name), population := some r.population,
          ntype := some (pyLower (pyStrip r.ntype)), pos := some (r.x, r.y) }) rest

/-- Lines 45-58: add facility nodes (position only when both cells non-null). -/
def addFacNodes : MultiGraph → List FacRowG → MultiGraph
  | g, [] => g
  | g, r :: rest =>
      match r.x, r.y with
      | some x, some y =>
          addFacNodes (g.addNode (stripId r.id)
            { name := some (pyStrip r.name),
              ntype := some (pyLower (pyStrip r.ftype)), pos := some (x, y) }) rest
      | _, _ =>
          addFacNodes (g.addNode (stripId r.id)
            { name := some (pyStrip r.name),
              ntype := some (pyLower (pyStrip r.ftype)) }) rest

/-- Lines 61-73: add existing-road edges, skipping rows over 100 km. -/
def addExistingRoads : MultiGraph → List RoadRowG → MultiGraph
  | g, [] => g
  | g, r :: rest =>
      let distance_m := r.distance_km * 1000
      if 100000 < distance_m then addExistingRoads g rest
      else addExistingRoads
        (g.addEdge (stripId r.fromId) (stripId r.toId)
          { distance := some distance_m, capacity := some r.capacity,
            condition := some r.condition, road_type := some "existing",
            cost := some 0 }).1 rest

/-- Lines 92-99: first existing-road row joining the two stops, either way. -/
def busDistance (er : List RoadRowG) (a b : String) : Option ℚ :=
  match er with
  | [] => none
  | r :: rest =>
      if (stripId r.fromId = a ∧ stripId r.toId = b) ∨
          (stripId r.fromId = b ∧ stripId r.toId = a) then
        some (r.distance_km * 1000)
      else busDistance rest a b

/-- Line 101 / 142: mean table distance in meters, or the fallback. -/
def erMeanM (er : List RoadRowG) (dflt : ℚ) : ℚ :=
  if er.isEmpty then dflt
  else ((er.map (fun r => r.distance_km)).sum / (er.length : ℚ)) * 1000

/-- Lines 82-115: one consecutive stop pair of a bus route. -/
def busPairStep (er : List RoadRowG) (route_id : String) (buses dailyP : ℚ)
    (g : MultiGraph) (pr : String × String) : MultiGraph :=
  let g1 := if pr.1 ∈ g.nodes then g else
    g.addNode pr.1 { name := some pr.1, ntype := some "bus_stop" }
  let g2 := if pr.2 ∈ g1.nodes then g1 else
    g1.addNode pr.2 { name := some pr.2, ntype := some "bus_stop" }
  let distance := match busDistance er pr.1 pr.2 with
    | some d => d
    | none => erMeanM er 1500
  (g2.addEdge pr.1 pr.2
    { distance := some distance, capacity := some (dailyP / 24),
      condition := some 7, road_type := some "bus", cost := some 0,
      route_id := some route_id, buses_assigned := some buses }).1

/-- Lines 76-115: the bus-routes phase (the `bus_edges` dictionary is only
returned for display and is not modelled). -/
def addBusRows (er : List RoadRowG) : MultiGraph → List BusRowG → MultiGraph
  | g, [] => g
  | g, row :: rest =>
      addBusRows er
        ((pathPairs (row.stops.map stripId)).foldl
          (busPairStep er row.routeId row.busesAssigned row.dailyPassengers) g) rest

/-- Lines 123-155: one consecutive station pair of a metro line. -/
def metroPairStep (er : List RoadRowG) (line_id : String) (dailyP : ℚ)
    (g : MultiGraph) (pr : String × String) : MultiGraph :=
  let g1 := if pr.1 ∈ g.nodes then g else
    g.addNode pr.1 { name := some pr.1, ntype := some "metro_station" }
  let g2 := if pr.2 ∈ g1.nodes then g1 else
    g1.addNode pr.2 { name := some pr.2, ntype := some "metro_station" }
  let distance := match busDistance er pr.1 pr.2 with
    | some d => d
    | none => erMeanM er 2000
  (g2.addEdge pr.1 pr.2
    { distance := some distance, capacity := some (dailyP / 24),
      condition := some 8, road_type := some "metro", cost := some 0,
      line_id := some line_id }).1

/-- Lines 118-155: the metro-lines phase. -/
def addMetroRows (er : List RoadRowG) : MultiGraph → List MetroRowG → MultiGraph
  | g, [] => g
  | g, row :: rest =>
      addMetroRows er
        ((pathPairs (row.stations.map stripId)).foldl
          (metroPairStep er row.lineId row.dailyPassengers) g) rest

/-- Lines 158-170: add potential-road edges, skipping rows over 100 km. -/
def addPotentialRoads : MultiGraph → List PotRowG → MultiGraph
  | g, [] => g
  | g, r :: rest =>
      let distance_m := r.distance_km * 1000
      if 100000 < distance_m then addPotentialRoads g rest
      else addPotentialRoads
        (g.addEdge (stripId r.fromId) (stripId r.toId)
          { distance := some distance_m, capacity := some r.capacity,
            cost := some r.cost, road_type := some "potential",
            condition := some 10 }).1 rest

def coordLookup (k : String) : List (String × (ℚ × ℚ)) → Option (ℚ × ℚ)
  | [] => none
  | e :: es => if e.1 = k then some e.2 else coordLookup k es

def coordInsert (k : String) (v : ℚ × ℚ) :
    List (String × (ℚ × ℚ)) → List (String × (ℚ × ℚ))
  | [] => [(k, v)]
  | e :: es => if e.1 = k then (k, v) :: es else e :: coordInsert k v es

/-- Lines 173-182: the `all_coords` dictionary. -/
def allCoords (nb : List NbRowG) (fc : List FacRowG) : List (String × (ℚ × ℚ)) :=
  let c1 := nb.foldl (fun acc r => coordInsert (stripId r.id) (r.x, r.y) acc) []
  fc.foldl (fun acc r =>
    match r.x, r.y with
    | some x, some y => coordInsert (stripId r.id) (x, y) acc
    | _, _ => acc) c1

/-- The argmin scans of lines 191-198 / 219-228 (first strict improvement). -/
def nearestScan (dfun : (ℚ × ℚ) → ℚ) (node : String) :
    List (String × (ℚ × ℚ)) → Option (String × ℚ) → Option (String × ℚ)
  | [], best => best
  | e :: es, best =>
      if e.1 ≠ node then
        match best with
        | none => nearestScan dfun node es (some (e.1, dfun e.2))
        | some b =>
            if dfun e.2 < b.2 then nearestScan dfun node es (some (e.1, dfun e.2))
            else nearestScan dfun node es best
      else nearestScan dfun node es best

/-- `G.nodes[n]["pos"] = xy`. -/
def setPos (g : MultiGraph) (n : String) (xy : ℚ × ℚ) : MultiGraph :=
  { g with attrs := fun m => if m = n then
      { g.attrs n with pos := some xy } else g.attrs m }

/-- Lines 184-214: fill in missing positions; nodes with no coordinates get a
virtual_link edge to the "nearest" coordinate holder (the scan compares
distance_calc(pos[0], pos[1], pos[0], pos[1]), i.e. each candidate against
itself, exactly as the source does). -/
def phase7 (dcalc : ℚ → ℚ → ℚ → ℚ → ℚ)
    (spd : MultiGraph → String → String → Option ℚ)
    (nb : List NbRowG) (fc : List FacRowG) (g : MultiGraph) : MultiGraph :=
  let ac := allCoords nb fc
  let hasPos : String → Bool := fun n => ((g.attrs n).pos).isSome
  g.nodes.foldl (fun g2 node =>
    if hasPos node then g2
    else
      match coordLookup node ac with
      | some xy => setPos g2 node xy
      | none =>
          match nearestScan (fun pos => dcalc pos.1 pos.2 pos.1 pos.2) node ac none with
          | some nr =>
              if optTruthy (some nr.1) then
                let xy := (coordLookup nr.1 ac).getD (0, 0)
                let g3 := setPos g2 node (xy.1 + 1 / 100, xy.2 + 1 / 100)
                let cd := match spd g3 node nr.1 with
                  | some w => w
                  | none => 1000
                (g3.addEdge node nr.1
                  { distance := some cd, road_type := some "virtual_link",
                    condition := some 10, cost := some 0 }).1
              else setPos g2 node (0, 0)
          | none => setPos g2 node (0, 0)) g

/-- `node in nx.isolates(G)`: no incident edge. -/
def isIsolated (g : MultiGraph) (n : String) : Bool :=
  g.edges.all (fun e => ¬ (e.u = n ∨ e.v = n))

/-- Lines 217-239: connect isolated nodes with virtual_connection edges. -/
def phase8 (dcalc : ℚ → ℚ → ℚ → ℚ → ℚ)
    (spd : MultiGraph → String → String → Option ℚ)
    (nb : List NbRowG) (fc : List FacRowG) (g : MultiGraph) : MultiGraph :=
  let ac := allCoords nb fc
  let iso := g.nodes.filter (fun n => isIsolated g n)
  iso.foldl (fun g2 node =>
    let xy := ((g2.attrs node).pos).getD (0, 0)
    match nearestScan (fun pos => dcalc xy.1 xy.2 pos.1 pos.2) node ac none with
    | some nr =>
        if optTruthy (some nr.1) then
          let cd := match spd g2 node nr.1 with
            | some w => w
            | none => nr.2
          (g2.addEdge node nr.1
            { distance := some cd, road_type := some "virtual_connection",
              condition := some 8, cost := some 0 }).1
        else g2
    | none => g2) g

/-- create_graph, restricted to the returned graph. -/
def create_graph (dcalc : ℚ → ℚ → ℚ → ℚ → ℚ)
    (spd : MultiGraph → String → String → Option ℚ)
    (nb : List NbRowG) (fc : List FacRowG) (er : List RoadRowG) (br : List BusRowG)
    (mr : List MetroRowG) (pr : List PotRowG) : MultiGraph :=
  phase8 dcalc spd nb fc
    (phase7 dcalc spd nb fc
      (addPotentialRoads
        (addMetroRows er
          (addBusRows er
            (addExistingRoads (addFacNodes (addNbNodes {} nb) fc) er) br) mr) pr))

/-- The distance bound that survives in the code: existing and potential
edges carry a distance of at most 100 km. -/
def capOK (e : GEdge) : Prop :=
  (e.data.road_type = some "existing" ∨ e.data.road_type = some "potential") →
  ∃ d, e.data.distance = some d ∧ d ≤ 100000

lemma addNode_edges (g : MultiGraph) (x : String) (a : NodeAttrs) :
    (g.addNode x a).edges = g.edges := rfl

lemma addEdge_fst_edges (g : MultiGraph) (u v : String) (d : EdgeData) :
    (g.addEdge u v d).1.edges =
      g.edges ++ [⟨u, v, (g.edgesBetween u v).length, d⟩] := by
  unfold MultiGraph.addEdge
  dsimp only
  by_cases h1 : u ∈ g.nodes
  · rw [if_pos h1]
    by_cases h2 : v ∈ g.nodes
    · rw [if_pos h2]
    · rw [if_neg h2]
  · rw [if_neg h1]
    by_cases h2 : v ∈ ({ g with nodes := g.nodes ++ [u] } : MultiGraph).nodes
    · rw [if_pos h2]
    · rw [if_neg h2]

lemma addEdge_pres {P : GEdge → Prop} {g : MultiGraph} {u v : String} {d : EdgeData}
    (hg : ∀ e ∈ g.edges, P e) (hd : ∀ k, P ⟨u, v, k, d⟩) :
    ∀ e ∈ (g.addEdge u v d).1.edges, P e := by
  intro e he
  rw [addEdge_fst_edges] at he
  rcases List.mem_append.mp he with h1 | h1
  · exact hg e h1
  · rw [List.mem_singleton.mp h1]
    exact hd _

lemma foldl_pres {α : Type} {P : GEdge → Prop} (f : MultiGraph → α → MultiGraph)
    (hf : ∀ g a, (∀ e ∈ g.edges, P e) → ∀ e ∈ (f g a).edges, P e) :
    ∀ (l : List α) (g : MultiGraph), (∀ e ∈ g.edges, P e) →
      ∀ e ∈ (l.foldl f g).edges, P e := by
  intro l
  induction l with
  | nil => intro g hg; exact hg
  | cons a rest ih => intro g hg; exact ih _ (hf g a hg)

lemma addNbNodes_pres {P : GEdge → Prop} :
    ∀ (l : List NbRowG) (g : MultiGraph), (∀ e ∈ g.edges, P e) →
      ∀ e ∈ (addNbNodes g l).edges, P e := by
  intro l
  induction l with
  | nil => intro g hg; exact hg
  | cons r rest ih => intro g hg; exact ih _ hg

lemma addFacNodes_pres {P : GEdge → Prop} :
    ∀ (l : List FacRowG) (g : MultiGraph), (∀ e ∈ g.edges, P e) →
      ∀ e ∈ (addFacNodes g l).edges, P e := by
  intro l
  induction l with
  | nil => intro g hg; exact hg
  | cons r rest ih =>
      intro g hg
      show ∀ e ∈ (addFacNodes g (r :: rest)).edges, P e
      rw [addFacNodes]
      rcases r.x with _ | x <;> rcases r.y with _ | y <;> exact ih _ hg

lemma addExistingRoads_pres :
    ∀ (l : List RoadRowG) (g : MultiGraph), (∀ e ∈ g.edges, capOK e) →
      ∀ e ∈ (addExistingRoads g l).edges, capOK e := by
  intro l
  induction l with
  | nil => intro g hg; exact hg
  | cons r rest ih =>
      intro g hg
      show ∀ e ∈ (addExistingRoads g (r :: rest)).edges, capOK e
      rw [addExistingRoads]
      by_cases hcap : (100000 : ℚ) < r.distance_km * 1000
      · rw [if_pos hcap]
        exact ih _ hg
      · rw [if_neg hcap]
        refine ih _ (addEdge_pres hg ?_)
        intro k _
        exact ⟨r.distance_km * 1000, rfl, le_of_not_lt hcap⟩

lemma busPairStep_pres {er : List RoadRowG} {rid : String} {buses dailyP : ℚ}
    (g : MultiGraph) (pr : String × String) (hg : ∀ e ∈ g.edges, capOK e) :
    ∀ e ∈ (busPairStep er rid buses dailyP g pr).edges, capOK e := by
  unfold busPairStep
  dsimp only
  refine addEdge_pres ?_ ?_
  · intro e he
    by_cases h1 : pr.1 ∈ g.nodes
    · rw [if_pos h1] at he
      by_cases h2 : pr.2 ∈ g.nodes
      · rw [if_pos h2] at he
        exact hg e he
      · rw [if_neg h2, addNode_edges] at he
        exact hg e he
    · rw [if_neg h1] at he
      by_cases h2 : pr.2 ∈
          (g.addNode pr.1 { name := some pr.1, ntype := some "bus_stop" }).nodes
      · rw [if_pos h2, addNode_edges] at he
        exact hg e he
      · rw [if_neg h2, addNode_edges, addNode_edges] at he
        exact hg e he
  · intro k hrt
    rcases hrt with h | h <;> exact absurd (Option.some.inj h) (by decide)

lemma addBusRows_pres {er : List RoadRowG} :
    ∀ (l : List BusRowG) (g : MultiGraph), (∀ e ∈ g.edges, capOK e) →
      ∀ e ∈ (addBusRows er g l).edges, capOK e := by
  intro l
  induction l with
  | nil => intro g hg; exact hg
  | cons row rest ih =>
      intro g hg
      refine ih _ ?_
      exact foldl_pres _ (fun g2 a hg2 => busPairStep_pres g2 a hg2) _ g hg

lemma metroPairStep_pres {er : List RoadRowG} {lid : String} {dailyP : ℚ}
    (g : MultiGraph) (pr : String × String) (hg : ∀ e ∈ g.edges, capOK e) :
    ∀ e ∈ (metroPairStep er lid dailyP g pr).edges, capOK e := by
  unfold metroPairStep
  dsimp only
  refine addEdge_pres ?_ ?_
  · intro e he
    by_cases h1 : pr.1 ∈ g.nodes
    · rw [if_pos h1] at he
      by_cases h2 : pr.2 ∈ g.nodes
      · rw [if_pos h2] at he
        exact hg e he
      · rw [if_neg h2, addNode_edges] at he
        exact hg e he
    · rw [if_neg h1] at he
      by_cases h2 : pr.2 ∈
          (g.addNode pr.1 { name := some pr.1, ntype := some "metro_station" }).nodes
      · rw [if_pos h2, addNode_edges] at he
        exact hg e he
      · rw [if_neg h2, addNode_edges, addNode_edges] at he
        exact hg e he
  · intro k hrt
    rcases hrt with h | h <;> exact absurd (Option.some.inj h) (by decide)

lemma addMetroRows_pres {er : List RoadRowG} :
    ∀ (l : List MetroRowG) (g : MultiGraph), (∀ e ∈ g.edges, capOK e) →
      ∀ e ∈ (addMetroRows er g l).edges, capOK e := by
  intro l
  induction l with
  | nil => intro g hg; exact hg
  | cons row rest ih =>
      intro g hg
      refine ih _ ?_
      exact foldl_pres _ (fun g2 a hg2 => metroPairStep_pres g2 a hg2) _ g hg

lemma addPotentialRoads_pres :
    ∀ (l : List PotRowG) (g : MultiGraph), (∀ e ∈ g.edges, capOK e) →
      ∀ e ∈ (addPotentialRoads g l).edges, capOK e := by
  intro l
  induction l with
  | nil => intro g hg; exact hg
  | cons r rest ih =>
      intro g hg
      show ∀ e ∈ (addPotentialRoads g (r :: rest)).edges, capOK e
      rw [addPotentialRoads]
      by_cases hcap : (100000 : ℚ) < r.distance_km * 1000
      · rw [if_pos hcap]
        exact ih _ hg
      · rw [if_neg hcap]
        refine ih _ (addEdge_pres hg ?_)
        intro k _
        exact ⟨r.distance_km * 1000, rfl, le_of_not_lt hcap⟩

lemma phase7_pres {dcalc : ℚ → ℚ → ℚ → ℚ → ℚ}
    {spd : MultiGraph → String → String → Option ℚ}
    {nb : List NbRowG} {fc : List FacRowG} (g : MultiGraph)
    (hg : ∀ e ∈ g.edges, capOK e) :
    ∀ e ∈ (phase7 dcalc spd nb fc g).edges, capOK e := by
  unfold phase7
  dsimp only
  refine foldl_pres _ ?_ _ _ hg
  intro g2 node hg2
  dsimp only
  by_cases hpos : ((g.attrs node).pos).isSome = true
  · rw [if_pos hpos]
    exact hg2
  · rw [if_neg hpos]
    rcases hcl : coordLookup node (allCoords nb fc) with _ | xy
    · rcases hns : nearestScan (fun pos => dcalc pos.1 pos.2 pos.1 pos.2) node
          (allCoords nb fc) none with _ | nr
      · exact hg2
      · dsimp only
        by_cases ht : optTruthy (some nr.1) = true
        · rw [if_pos ht]
          refine addEdge_pres hg2 ?_
          intro k hrt
          rcases hrt with h | h <;> exact absurd (Option.some.inj h) (by decide)
        · rw [if_neg ht]
          exact hg2
    · exact hg2

lemma phase8_pres {dcalc : ℚ → ℚ → ℚ → ℚ → ℚ}
    {spd : MultiGraph → String → String → Option ℚ}
    {nb : List NbRowG} {fc : List FacRowG} (g : MultiGraph)
    (hg : ∀ e ∈ g.edges, capOK e) :
    ∀ e ∈ (phase8 dcalc spd nb fc g).edges, capOK e := by
  unfold phase8
  dsimp only
  refine foldl_pres _ ?_ _ _ hg
  intro g2 node hg2
  dsimp only
  rcases hns : nearestScan
      (fun pos => dcalc (((g2.attrs node).pos).getD (0, 0)).1
        (((g2.attrs node).pos).getD (0, 0)).2 pos.1 pos.2) node
      (allCoords nb fc) none with _ | nr
  · exact hg2
  · dsimp only
    by_cases ht : optTruthy (some nr.1) = true
    · rw [if_pos ht]
      refine addEdge_pres hg2 ?_
      intro k hrt
      rcases hrt with h | h <;> exact absurd (Option.some.inj h) (by decide)
    · rw [if_neg ht]
      exact hg2

def c7NB : List NbRowG :=
  [⟨"A", "A", 100, "residential", 1, 2⟩, ⟨"B", "B", 200, "residential", 3, 4⟩]

def c7ER : List RoadRowG := [⟨"A", "B", 0, 500, 5⟩]

def c7data : EdgeData :=
  { distance := some ((0 : ℚ) * 1000), capacity := some 500, condition := some 5,
    road_type := some "existing", cost := some 0 }

def c7G : MultiGraph :=
  create_graph (fun _ _ _ _ => 0) (fun _ _ _ => none) c7NB [] c7ER [] [] []

/-- C7, counterexample: an existing-roads row with Distance(km) = 0 passes the
`> 100000` rejection test and becomes an edge of distance 0 meters, so the
constructed graph violates `distance > 0`. -/
theorem c7_counterexample :
    c7G.edges = [⟨"A", "B", 0, c7data⟩] ∧
    ¬ (∀ e ∈ c7G.edges, 0 < e.data.distance.getD 0) := by
  have hguard : ¬ ((100000 : ℚ) < 0 * 1000) := by norm_num
  have hbase : addExistingRoads (addFacNodes (addNbNodes {} c7NB) []) c7ER =
      ((addFacNodes (addNbNodes {} c7NB) []).addEdge "A" "B" c7data).1 := by
    show addExistingRoads (addFacNodes (addNbNodes {} c7NB) [])
      [⟨"A", "B", 0, 500, 5⟩] = _
    rw [addExistingRoads]
    dsimp only
    rw [if_neg hguard]
    rw [addExistingRoads]
    rfl
  have hedges : c7G.edges = [⟨"A", "B", 0, c7data⟩] := by
    show (create_graph (fun _ _ _ _ => 0) (fun _ _ _ => none) c7NB [] c7ER [] [] []).edges = _
    rw [create_graph, hbase, addBusRows, addMetroRows, addPotentialRoads]
    rfl
  refine ⟨hedges, ?_⟩
  intro h
  have h2 := h ⟨"A", "B", 0, c7data⟩ (by rw [hedges]; exact List.mem_singleton.mpr rfl)
  rw [show ((⟨"A", "B", 0, c7data⟩ : GEdge).data.distance.getD 0) = (0 : ℚ) * 1000
    from rfl] at h2
  norm_num at h2

/-- C7, amended: only the existing-roads and potential-roads loops apply the
100 km rejection test, so every edge of the constructed graph whose road type
is 'existing' or 'potential' has a recorded distance of at most 100,000
meters; bus, metro and virtual edges are built without that test, and no
positivity check exists anywhere (a 0-distance row still becomes an edge). -/
theorem c7_distance_cap (dcalc : ℚ → ℚ → ℚ → ℚ → ℚ)
    (spd : MultiGraph → String → String → Option ℚ)
    (nb : List NbRowG) (fc : List FacRowG) (er : List RoadRowG) (br : List BusRowG)
    (mr : List MetroRowG) (pr : List PotRowG) :
    (create_graph dcalc spd nb fc er br mr pr).edges.Forall capOK := by
  rw [List.forall_iff_forall_mem]
  unfold create_graph
  refine phase8_pres _ (phase7_pres _ (addPotentialRoads_pres _ _
    (addMetroRows_pres _ _ (addBusRows_pres _ _ (addExistingRoads_pres _ _
      (addFacNodes_pres _ _ (addNbNodes_pres _ _ ?_)))))))
  intro e he
  cases he

end SmartCity
